import Mathlib

/-!
Verification of the sql-to-logsql translator: a shallow embedding of the
Go sources (SELECT translator, table catalog, view store) together with
proofs of the specification claims.  Go strings are modelled as Lean
`String`s (lists of unicode runes); Go maps used only through insert and
lookup are modelled as association lists with overwrite-on-insert;
the file system seen by the view store is modelled as an association
list from path to content.
-/

namespace SqlToLogsql

/-! ## Go string helpers -/

/-- Characters reported as white space by Go's `unicode.IsSpace`. -/
def goIsSpace (c : Char) : Bool :=
  c == ' ' || c == '\t' || c == '\n' || c == '\r' ||
  c == Char.ofNat 11 || c == Char.ofNat 12 ||
  c == Char.ofNat 0x85 || c == Char.ofNat 0xA0 ||
  c == Char.ofNat 0x1680 ||
  (Char.ofNat 0x2000 ≤ c && c ≤ Char.ofNat 0x200A) ||
  c == Char.ofNat 0x2028 || c == Char.ofNat 0x2029 ||
  c == Char.ofNat 0x202F || c == Char.ofNat 0x205F ||
  c == Char.ofNat 0x3000

/-- Drop from the right of a char list every char satisfying `p`. -/
def dropRightWhile (p : Char → Bool) (l : List Char) : List Char :=
  (l.reverse.dropWhile p).reverse

/-- Go `strings.TrimSpace`. -/
def goTrimSpace (s : String) : String :=
  String.mk (dropRightWhile goIsSpace (s.data.dropWhile goIsSpace))

/-- Go `strings.TrimRight(s, "\r\n")` as used by the view store. -/
def goTrimRightRN (s : String) : String :=
  String.mk (dropRightWhile (fun c => c == '\r' || c == '\n') s.data)

/-- Go `strings.ToLower` (ASCII part; the sources only rely on ASCII). -/
def goToLower (s : String) : String :=
  String.mk (s.data.map Char.toLower)

/-- Go `strings.ToUpper` (ASCII part). -/
def goToUpper (s : String) : String :=
  String.mk (s.data.map Char.toUpper)

/-- Character class of the translator's `safeBareLiteral` regexp:
one or more of letters, digits, underscore, dot, colon, slash, dash. -/
def safeBareChar (c : Char) : Bool :=
  c.isAlphanum || c == '_' || c == '.' || c == ':' || c == '/' || c == '-'

/-- `safeBareLiteral.MatchString`. -/
def safeBareLiteral (s : String) : Bool :=
  !s.data.isEmpty && s.data.all safeBareChar

/-- `safeWildcardLiteral.MatchString` (the safe class with an optional
single `*`): every char is in the safe class or is `*`, and at most one
`*` occurs. -/
def safeWildcardLiteral (s : String) : Bool :=
  s.data.all (fun c => safeBareChar c || c == '*') && s.data.count '*' ≤ 1

/-- `safeFormatFieldLiteral.MatchString`: one or more of letters,
digits, underscore, dot, dash. -/
def safeFormatFieldLiteral (s : String) : Bool :=
  !s.data.isEmpty && s.data.all (fun c => c.isAlphanum || c == '_' || c == '.' || c == '-')

/-- Escape `\` and `"` by prefixing a backslash (body of `quoteString`). -/
def quoteChars : List Char → List Char
  | [] => []
  | c :: rest =>
    if c == '\\' || c == '"' then '\\' :: c :: quoteChars rest
    else c :: quoteChars rest

/-- The translator's `quoteString`: wrap in double quotes, escaping `\` and `"`. -/
def quoteString (val : String) : String :=
  String.mk ('"' :: (quoteChars val.data ++ ['"']))

/-- The translator's `formatFieldName`. -/
def formatFieldName (name : String) : String :=
  if safeBareLiteral name then name else quoteString name

/-- The translator's `formatString`. -/
def formatString (val : String) : String :=
  if val == "" then quoteString val
  else if safeBareLiteral val then val
  else if safeWildcardLiteral val then val
  else quoteString val

/-- The translator's `needsQuoteForPattern`. -/
def needsQuoteForPattern (val : String) : Bool :=
  val.data.any (fun c =>
    !(c == '*' || c == '_' || c == '-' || c == ':' || c == '/' || c == '.' || c.isAlphanum))

/-- The translator's `formatWildcard`. -/
def formatWildcard (val : String) : String :=
  if needsQuoteForPattern val then quoteString val else val

/-- Characters escaped by Go's `regexp.QuoteMeta`. -/
def isRegexSpecial (c : Char) : Bool :=
  c == '\\' || c == '.' || c == '+' || c == '*' || c == '?' || c == '(' ||
  c == ')' || c == '|' || c == '[' || c == ']' ||
  c == Char.ofNat 0x7b || c == Char.ofNat 0x7d || c == '^' || c == '$'

/-- `regexp.QuoteMeta` applied to a single rune. -/
def quoteMetaChar (c : Char) : List Char :=
  if isRegexSpecial c then ['\\', c] else [c]

/-- Body of the translator's `likeToRegex` loop: `%` → `.*`, `_` → `.`,
`\X` → quoted `X`, a trailing lone `\` stays, and any other char is
regex-quoted. -/
def likeToRegexCore : List Char → List Char
  | [] => []
  | '%' :: rest => '.' :: '*' :: likeToRegexCore rest
  | '_' :: rest => '.' :: likeToRegexCore rest
  | '\\' :: c :: rest => quoteMetaChar c ++ likeToRegexCore rest
  | ['\\'] => ['\\']
  | c :: rest => quoteMetaChar c ++ likeToRegexCore rest

/-- The translator's `likeToRegex`: anchored regex for a LIKE pattern. -/
def likeToRegex (pattern : String) : String :=
  String.mk ('^' :: (likeToRegexCore pattern.data ++ ['$']))

/-- The translator's `convertLikePattern` (its Go signature carries an
error value that is never non-nil, so the embedding is total). -/
def convertLikePattern (pattern : String) : String :=
  let percentCount := pattern.data.count '%'
  let underscore := pattern.data.contains '_'
  if percentCount == 0 && !underscore then
    formatString pattern
  else if percentCount == 1 && pattern.data.getLast? == some '%' && !underscore then
    let pfx := String.mk pattern.data.dropLast
    if pfx == "" then "*" else formatWildcard (pfx ++ "*")
  else if percentCount == 1 && pattern.data.head? == some '%' && !underscore then
    let sfx := String.mk (pattern.data.drop 1)
    if sfx == "" then "*" else formatWildcard ("*" ++ sfx)
  else if percentCount == 2 && pattern.data.head? == some '%' &&
      pattern.data.getLast? == some '%' && !underscore &&
      (pattern.data.drop 1).dropLast.count '%' == 0 then
    let substr := String.mk (pattern.data.drop 1).dropLast
    if substr == "" then "*" else formatWildcard ("*" ++ (substr ++ "*"))
  else
    "~" ++ quoteString (likeToRegex pattern)

/-- Single pass equivalent of `escapeFormatPattern`'s two sequential
`strings.ReplaceAll` calls (`\`→`\\` then `"`→`\"`): each original `\`
and `"` gets a backslash prefix. -/
def escapeFormatPattern (pattern : String) : String :=
  String.mk (quoteChars pattern.data)

/-- `escapeSingleQuotes`: `strings.ReplaceAll(pattern, "'", "\\'")`. -/
def escapeSingleQuotes (pattern : String) : String :=
  String.mk (pattern.data.flatMap (fun c => if c == '\'' then ['\\', c] else [c]))

/-- Character replacement table of `sanitizeAliasFromField`'s `strings.NewReplacer`. -/
def sanitizeReplaceChar (c : Char) : Char :=
  if c == '.' || c == '-' || c == ':' || c == '/' || c == '+' || c == '*' ||
     c == '%' || c == '^' || c == '(' || c == ')' || c == ',' || c == ' ' ||
     c == '\'' || c == '"' then '_' else c

/-- Does the char list contain two adjacent underscores? -/
def hasDoubleUnderscore : List Char → Bool
  | '_' :: '_' :: _ => true
  | _ :: rest => hasDoubleUnderscore rest
  | [] => false

/-- One `strings.ReplaceAll(value, "__", "_")` pass (left to right,
non-overlapping). -/
def replaceDoubleUnderscore : List Char → List Char
  | '_' :: '_' :: rest => '_' :: replaceDoubleUnderscore rest
  | c :: rest => c :: replaceDoubleUnderscore rest
  | [] => []

/-- The `for strings.Contains(value, "__")` collapse loop, with fuel
(the list length suffices since each pass shortens the list). -/
def collapseUnderscores : Nat → List Char → List Char
  | 0, l => l
  | n + 1, l =>
    if hasDoubleUnderscore l then collapseUnderscores n (replaceDoubleUnderscore l) else l

/-- The translator's `sanitizeAliasFromField`. -/
def sanitizeAliasFromField (field : String) : String :=
  let value := field.data.map sanitizeReplaceChar
  let value := value.map Char.toLower
  let value := collapseUnderscores value.length value
  let value := dropRightWhile (· == '_') (value.dropWhile (· == '_'))
  if value.isEmpty then "col" else String.mk value

/-- Digits of a decimal literal, or `none`. -/
def digitsToNat : List Char → Option Nat
  | [] => none
  | l => if l.all Char.isDigit then some (l.foldl (fun acc c => acc * 10 + c.toNat - 48) 0) else none

/-- Go `strconv.Atoi` (overflow ignored; the translator only compares
the result against small bounds). -/
def goAtoi (s : String) : Option Int :=
  match s.data with
  | '+' :: rest => (digitsToNat rest).map Int.ofNat
  | '-' :: rest => (digitsToNat rest).map (fun n => -(n : Int))
  | l => (digitsToNat l).map Int.ofNat

/-- Insertion sort on strings (Go `sort.Strings`). -/
def sortStrings (l : List String) : List String :=
  let rec insert (x : String) : List String → List String
    | [] => [x]
    | y :: ys => if x ≤ y then x :: y :: ys else y :: insert x ys
  l.foldr insert []

/-! ## Errors and literal values -/

/-- Errors surfaced by the translator and the stores: `TranslationError`
(code, message), `StoreError` (code, message), or a plain Go `error`. -/
inductive GoError where
  | translation (code : Nat) (msg : String)
  | store (code : Nat) (msg : String)
  | plain (msg : String)
deriving DecidableEq, Repr

/-- `http.StatusBadRequest` translation error. -/
def badRequest (msg : String) : GoError := .translation 400 msg

instance {α β : Type} [DecidableEq α] [DecidableEq β] : DecidableEq (Except α β) :=
  fun a b =>
    match a, b with
    | .ok x, .ok y =>
      if h : x = y then .isTrue (by rw [h]) else .isFalse (by simp [h])
    | .error x, .error y =>
      if h : x = y then .isTrue (by rw [h]) else .isFalse (by simp [h])
    | .ok _, .error _ => .isFalse (by simp)
    | .error _, .ok _ => .isFalse (by simp)

/-- Kinds of the translator's `literalValue`. -/
inductive LiteralKind where
  | str
  | num
  | bool
deriving DecidableEq, Repr

/-- The translator's `literalValue`. -/
structure LiteralValue where
  kind : LiteralKind
  value : String
deriving DecidableEq, Repr

/-- `literalValue.format`. -/
def LiteralValue.format (l : LiteralValue) : String :=
  match l.kind with
  | .str => formatString l.value
  | .num => l.value
  | .bool => l.value

/-! ## AST

The typed AST of package `ast`, flattened: Go interface pointers that the
code checks against `nil` become `Option`; qualified identifiers are their
part lists. -/

/-- `ast.JoinType`. -/
inductive JoinType where
  | inner
  | left
  | right
  | full
  | cross
deriving DecidableEq, Repr

/-- `ast.SetOperator`. -/
inductive SetOperator where
  | union
  | intersect
  | except
deriving DecidableEq, Repr

mutual

/-- `ast.Expr` and its implementations. -/
inductive Expr where
  | ident (parts : List String)
  | numLit (value : String)
  | strLit (value : String)
  | boolLit (value : Bool)
  | nullLit
  | placeholder (symbol : String)
  | binary (left : Expr) (op : String) (right : Expr)
  | unary (op : String) (expr : Expr)
  | funcCall (name : List String) (distinct : Bool) (args : List Expr) (over : Option WindowSpec)
  | star (table : Option (List String))
  | betweenE (expr lower upper : Expr) (isNot : Bool)
  | inE (expr : Expr) (isNot : Bool) (subquery : Option SelectStmt) (list : List Expr)
  | likeE (expr : Expr) (isNot : Bool) (pattern : Expr)
  | isNullE (expr : Expr) (isNot : Bool)
  | existsE (isNot : Bool) (subquery : SelectStmt)
  | subqueryE (select : SelectStmt)
  | caseE (operand : Option Expr) (whens : List (Expr × Expr)) (elseBranch : Option Expr)

/-- `ast.WindowSpecification`. -/
inductive WindowSpec where
  | mk (partitionBy : List Expr) (orderBy : List OrderItem)

/-- `ast.OrderItem` (direction `true` = DESC). -/
inductive OrderItem where
  | mk (expr : Expr) (descending : Bool)

/-- `ast.SelectItem`. -/
inductive SelectItem where
  | mk (expr : Expr) (aliasName : String)

/-- `ast.LimitClause`. -/
inductive LimitClause where
  | mk (count : Option Expr) (offset : Option Expr)

/-- `ast.CommonTableExpression`. -/
inductive CTE where
  | mk (name : Option (List String)) (columns : List (List String)) (select : Option SelectStmt)

/-- `ast.WithClause`. -/
inductive WithClause where
  | mk (recursive : Bool) (ctes : List CTE)

/-- `ast.SetOperation`. -/
inductive SetOp where
  | mk (operator : SetOperator) (all : Bool) (select : Option SelectStmt)

/-- `ast.TableExpr` and its implementations. -/
inductive TableExpr where
  | tableName (name : Option (List String)) (aliasName : String)
  | subqueryTable (select : Option SelectStmt) (aliasName : String)
  | joinE (left : TableExpr) (right : TableExpr) (jtype : JoinType) (onCond : Option Expr)

/-- `ast.SelectStatement`. -/
inductive SelectStmt where
  | mk (withClause : Option WithClause) (distinct : Bool) (columns : List SelectItem)
      (fromClause : Option TableExpr) (whereClause : Option Expr) (groupBy : List Expr)
      (having : Option Expr) (orderBy : List OrderItem) (limit : Option LimitClause)
      (setOps : List SetOp)

end

def WindowSpec.partitionBy : WindowSpec → List Expr
  | .mk p _ => p

def WindowSpec.orderBy : WindowSpec → List OrderItem
  | .mk _ o => o

def OrderItem.expr : OrderItem → Expr
  | .mk e _ => e

def OrderItem.descending : OrderItem → Bool
  | .mk _ d => d

def SelectItem.expr : SelectItem → Expr
  | .mk e _ => e

def SelectItem.aliasName : SelectItem → String
  | .mk _ a => a

def LimitClause.count : LimitClause → Option Expr
  | .mk c _ => c

def LimitClause.offset : LimitClause → Option Expr
  | .mk _ o => o

def CTE.name : CTE → Option (List String)
  | .mk n _ _ => n

def CTE.columns : CTE → List (List String)
  | .mk _ c _ => c

def CTE.select : CTE → Option SelectStmt
  | .mk _ _ s => s

def WithClause.recursive : WithClause → Bool
  | .mk r _ => r

def WithClause.ctes : WithClause → List CTE
  | .mk _ c => c

def SetOp.operator : SetOp → SetOperator
  | .mk o _ _ => o

def SetOp.all : SetOp → Bool
  | .mk _ a _ => a

def SetOp.select : SetOp → Option SelectStmt
  | .mk _ _ s => s

def SelectStmt.withClause : SelectStmt → Option WithClause
  | .mk w _ _ _ _ _ _ _ _ _ => w

def SelectStmt.distinct : SelectStmt → Bool
  | .mk _ d _ _ _ _ _ _ _ _ => d

def SelectStmt.columns : SelectStmt → List SelectItem
  | .mk _ _ c _ _ _ _ _ _ _ => c

def SelectStmt.fromClause : SelectStmt → Option TableExpr
  | .mk _ _ _ f _ _ _ _ _ _ => f

def SelectStmt.whereClause : SelectStmt → Option Expr
  | .mk _ _ _ _ w _ _ _ _ _ => w

def SelectStmt.groupBy : SelectStmt → List Expr
  | .mk _ _ _ _ _ g _ _ _ _ => g

def SelectStmt.having : SelectStmt → Option Expr
  | .mk _ _ _ _ _ _ h _ _ _ => h

def SelectStmt.orderBy : SelectStmt → List OrderItem
  | .mk _ _ _ _ _ _ _ o _ _ => o

def SelectStmt.limit : SelectStmt → Option LimitClause
  | .mk _ _ _ _ _ _ _ _ l _ => l

def SelectStmt.setOps : SelectStmt → List SetOp
  | .mk _ _ _ _ _ _ _ _ _ s => s

/-- Go `%T` type names of the `ast.Expr` implementations, used in
diagnostic messages. -/
def exprTypeName : Expr → String
  | .ident _ => "*ast.Identifier"
  | .numLit _ => "*ast.NumericLiteral"
  | .strLit _ => "*ast.StringLiteral"
  | .boolLit _ => "*ast.BooleanLiteral"
  | .nullLit => "*ast.NullLiteral"
  | .placeholder _ => "*ast.Placeholder"
  | .binary _ _ _ => "*ast.BinaryExpr"
  | .unary _ _ => "*ast.UnaryExpr"
  | .funcCall _ _ _ _ => "*ast.FuncCall"
  | .star _ => "*ast.StarExpr"
  | .betweenE _ _ _ _ => "*ast.BetweenExpr"
  | .inE _ _ _ _ => "*ast.InExpr"
  | .likeE _ _ _ => "*ast.LikeExpr"
  | .isNullE _ _ => "*ast.IsNullExpr"
  | .existsE _ _ => "*ast.ExistsExpr"
  | .subqueryE _ => "*ast.SubqueryExpr"
  | .caseE _ _ _ => "*ast.CaseExpr"

/-- `literalFromExpr`. -/
def literalFromExpr : Expr → Except GoError LiteralValue
  | .strLit v => .ok ⟨.str, v⟩
  | .numLit v => .ok ⟨.num, v⟩
  | .boolLit b => .ok ⟨.bool, if b then "true" else "false"⟩
  | e => .error (badRequest ("unsupported literal " ++ exprTypeName e))

/-! ## Table catalog (package tablestore) -/

/-- Lookup in a Go-map modelled as an association list. -/
def mapGet (m : List (String × String)) (k : String) : Option String :=
  (m.find? (fun p => p.1 == k)).map (fun p => p.2)

/-- Insert with overwrite (Go map assignment). -/
def mapInsert (m : List (String × String)) (k v : String) : List (String × String) :=
  (k, v) :: m.filter (fun p => !(p.1 == k))

/-- Message carried by a `GoError`. -/
def GoError.message : GoError → String
  | .translation _ m => m
  | .store _ m => m
  | .plain m => m

/-- Code carried by a `GoError` (0 for plain errors). -/
def GoError.code : GoError → Nat
  | .translation c _ => c
  | .store c _ => c
  | .plain _ => 0

/-- `tablestore.TableStore`. -/
structure TableStore where
  tables : List (String × String)
deriving DecidableEq, Repr

/-- Loop body of `normalizeTableMap`: Go iterates the source map; the
model iterates the source association list in order. -/
def normalizeTableMapGo : List (String × String) → List (String × String) →
    Except GoError (List (String × String))
  | [], dst => .ok dst
  | (name, expr) :: rest, dst =>
    let key := goToLower (goTrimSpace name)
    if key == "" then
      .error (.plain ("translator: table name cannot be empty"))
    else if (mapGet dst key).isSome then
      .error (.plain ("translator: duplicate table name " ++ quoteString key))
    else
      normalizeTableMapGo rest (mapInsert dst key (goTrimSpace expr))

/-- `tablestore.normalizeTableMap`. -/
def normalizeTableMap (src : List (String × String)) : Except GoError (List (String × String)) :=
  normalizeTableMapGo src []

/-- `tablestore.NewTableStore`. -/
def NewTableStore (tables : List (String × String)) : Except GoError TableStore :=
  match normalizeTableMap tables with
  | .error e => .error (.plain ("normalize table map: " ++ e.message))
  | .ok m => .ok ⟨m⟩

/-- `TableStore.GetTableQuery` (the Go method returns `(string, bool)`). -/
def TableStore.getTableQuery (s : TableStore) (name : String) : Option String :=
  mapGet s.tables name

/-- `TableStore.ListTables`. -/
def TableStore.listTables (s : TableStore) : List String :=
  sortStrings (s.tables.map (fun p => p.1))

/-- The translator's `tableSpec`. -/
structure TableSpec where
  filter : String
  pipeline : String
deriving DecidableEq, Repr

/-- The translator's `newTableSpec`. -/
def newTableSpec (expr : String) : TableSpec :=
  let value := goTrimSpace expr
  if value == "" || value == "*" then { filter := "*", pipeline := "" }
  else if value.data.contains '|' then { filter := "", pipeline := value }
  else { filter := value, pipeline := "" }

/-! ## View store (package viewstore)

The directory is modelled as an association list from file path (relative
to the store directory) to file content.  Temp-file plus rename becomes a
single map update; the `.lock` file is an entry with empty content. -/

/-- The file system under the view-store directory. -/
abbrev FS := List (String × String)

/-- Content of a path, `none` when the file does not exist. -/
def fsGet (fs : FS) (path : String) : Option String :=
  mapGet fs path

/-- Create or overwrite a file. -/
def fsSet (fs : FS) (path content : String) : FS :=
  mapInsert fs path content

/-- Remove a file. -/
def fsRemove (fs : FS) (path : String) : FS :=
  fs.filter (fun p => !(p.1 == path))

/-- `viewstore.isSafeViewRune` (ASCII letter/digit part of Go's
`unicode.IsLetter`/`IsDigit`). -/
def isSafeViewRune (r : Char) : Bool :=
  r.isAlpha || r.isDigit || r == '_' || r == '-'

/-- `viewstore.ViewOptions`. -/
structure ViewOptions where
  orReplace : Bool
  ifNotExists : Bool
deriving DecidableEq, Repr

/-- Per-part loop of `sanitizeViewFileName`. -/
def sanitizeParts : List String → Except GoError (List String)
  | [] => .ok []
  | part :: rest =>
    let trimmed := goTrimSpace part
    if trimmed == "" then
      .error (.store 400 ("viewstore: view name contains empty part"))
    else
      match trimmed.data.find? (fun r => !isSafeViewRune r) with
      | some r =>
        .error (.store 400 ("viewstore: invalid character '" ++ (String.mk [r] ++
          ("' in view name " ++ quoteString trimmed))))
      | none => do
        let tail ← sanitizeParts rest
        .ok (goToLower trimmed :: tail)

/-- `viewstore.sanitizeViewFileName`: returns (file base name, display name). -/
def sanitizeViewFileName (parts : List String) : Except GoError (String × String) :=
  if parts.isEmpty then
    .error (.store 400 ("viewstore: CREATE VIEW missing name"))
  else do
    let sanitized ← sanitizeParts parts
    .ok (String.intercalate "_" sanitized, String.intercalate "." parts)

/-- `ViewStore.Save`, over the modelled directory.  Returns the Go result
together with the directory state when `Save` returns; the deferred
close-and-remove of the `.lock` file is performed on every path that
created it. -/
def viewStoreSave (fs : FS) (parts : List String) (query : String) (opts : ViewOptions) :
    Except GoError String × FS :=
  match sanitizeViewFileName parts with
  | .error e => (.error e, fs)
  | .ok (fileName, displayName) =>
    let lockPath := fileName ++ ".lock"
    if (fsGet fs lockPath).isSome then
      (.error (.store 423 ("viewstore: view " ++ (displayName ++ " is locked"))), fs)
    else
      let fs1 := fsSet fs lockPath ""
      let viewPath := fileName ++ ".logsql"
      let content := query ++ (if query.data.getLast? == some '\n' then "" else "\n")
      match fsGet fs1 viewPath with
      | some _ =>
        if opts.ifNotExists then
          (.ok viewPath, fsRemove fs1 lockPath)
        else if !opts.orReplace then
          (.error (.store 400 ("viewstore: view " ++ (displayName ++ " already exists"))),
            fsRemove fs1 lockPath)
        else
          (.ok viewPath, fsRemove (fsSet fs1 viewPath content) lockPath)
      | none =>
        (.ok viewPath, fsRemove (fsSet fs1 viewPath content) lockPath)

/-- `ViewStore.Load`, over the modelled directory: returns
(query, display name, found). -/
def viewStoreLoad (fs : FS) (parts : List String) : Except GoError (String × String × Bool) :=
  match sanitizeViewFileName parts with
  | .error e => .error e
  | .ok (fileName, displayName) =>
    let viewPath := fileName ++ ".logsql"
    match fsGet fs viewPath with
    | none => .ok ("", displayName, false)
    | some data =>
      let query := goTrimRightRN data
      if goTrimSpace query == "" then
        .error (.plain ("viewstore: view " ++ (displayName ++ " is empty")))
      else
        .ok (query, displayName, true)

/-! ## Renderer (package render)

The translator uses `render.Render` to fingerprint expressions.  The Go
renderer appends to one string builder and collects errors; the model
returns (text, error messages) pairs concatenated in emission order. -/

/-- Renderer output: accumulated text and collected error messages. -/
abbrev RResult := String × List String

/-- Plain text output. -/
def rstr (s : String) : RResult := (s, [])

/-- Empty output. -/
def rempty : RResult := ("", [])

/-- Concatenation of renderer outputs. -/
def rcat (a b : RResult) : RResult := (a.1 ++ b.1, a.2 ++ b.2)

/-- Concatenation of a list of renderer outputs. -/
def rcats (l : List RResult) : RResult := l.foldl rcat rempty

/-- A collected error message. -/
def rerr (m : String) : RResult := ("", [m])

/-- `renderer.renderIdentifier` (a nil identifier writes nothing). -/
def renderIdentifierOpt (id : Option (List String)) : RResult :=
  (String.intercalate "." (id.getD []), [])

/-- `renderer.renderIdentifier` on a present identifier. -/
def renderIdentifierParts (parts : List String) : RResult :=
  (String.intercalate "." parts, [])

/-- String literal rendering: double every single quote. -/
def sqlEscapeQuotes (v : String) : String :=
  String.mk (v.data.flatMap (fun c => if c == '\'' then [c, c] else [c]))

/-- `renderer.renderJoinType`. -/
def renderJoinTypeStr (j : JoinType) : String :=
  match j with
  | .inner => "INNER JOIN"
  | .left => "LEFT JOIN"
  | .right => "RIGHT JOIN"
  | .full => "FULL JOIN"
  | .cross => "CROSS JOIN"

/-- `string(op.Operator)`. -/
def setOperatorName : SetOperator → String
  | .union => "UNION"
  | .intersect => "INTERSECT"
  | .except => "EXCEPT"

/-- Comma-separated identifier list (CTE column lists). -/
def renderIdentList : Bool → List (List String) → RResult
  | _, [] => rempty
  | first, parts :: rest =>
    rcats [rstr (if first then "" else ", "), renderIdentifierParts parts,
      renderIdentList false rest]

mutual

/-- `renderer.renderExpr`. -/
def renderExpr : Expr → RResult
  | .ident parts => renderIdentifierParts parts
  | .numLit v => rstr v
  | .strLit v => rstr ("'" ++ (sqlEscapeQuotes v ++ "'"))
  | .boolLit b => rstr (if b then "TRUE" else "FALSE")
  | .nullLit => rstr ("NULL")
  | .placeholder sym => rstr sym
  | .binary l op r =>
    rcats [rstr ("("), renderExpr l, rstr (" " ++ (op ++ " ")), renderExpr r, rstr (")")]
  | .unary op e =>
    rcat (rstr (if op == "NOT" then "NOT " else op)) (renderExpr e)
  | .funcCall name dis args _ =>
    rcats [renderIdentifierParts name, rstr ("("), rstr (if dis then "DISTINCT " else ""),
      renderExprList true args, rstr (")")]
  | .star t =>
    (match t with
     | some id => rcat (renderIdentifierParts id) (rstr (".*"))
     | none => rstr ("*"))
  | .inE e isNot sub list =>
    rcats [renderExpr e, rstr (if isNot then " NOT" else ""), rstr (" IN ("),
      (match sub with
       | some s => renderSelect s
       | none => renderExprList true list),
      rstr (")")]
  | .betweenE e lo hi isNot =>
    rcats [renderExpr e, rstr (if isNot then " NOT" else ""), rstr (" BETWEEN "),
      renderExpr lo, rstr (" AND "), renderExpr hi]
  | .likeE e isNot pat =>
    rcats [renderExpr e, rstr (if isNot then " NOT" else ""), rstr (" LIKE "), renderExpr pat]
  | .isNullE e isNot =>
    rcats [renderExpr e, rstr (" IS"), rstr (if isNot then " NOT" else ""), rstr (" NULL")]
  | .existsE isNot sub =>
    rcats [rstr (if isNot then "NOT " else ""), rstr ("EXISTS ("), renderSelect sub, rstr (")")]
  | .subqueryE s => rcats [rstr ("("), renderSelect s, rstr (")")]
  | .caseE _ _ _ => rerr ("render: unsupported expression *ast.CaseExpr")

/-- Comma-separated expression list. -/
def renderExprList : Bool → List Expr → RResult
  | _, [] => rempty
  | first, e :: rest =>
    rcats [rstr (if first then "" else ", "), renderExpr e, renderExprList false rest]

/-- `renderer.renderSelect`. -/
def renderSelect : SelectStmt → RResult
  | .mk w d cols f wh g h o l so =>
    rcats [
      (match w with
       | some (.mk recFlag ctes) =>
         if ctes.isEmpty then rempty
         else rcat (rcat (rstr ("WITH " ++ (if recFlag then "RECURSIVE " else "")))
           (renderCTEList true ctes)) (rstr (" "))
       | none => rempty),
      rstr ("SELECT "),
      rstr (if d then "DISTINCT " else ""),
      renderSelectItemList true cols,
      (match f with
       | some tbl => rcat (rstr (" FROM ")) (renderTable tbl)
       | none => rempty),
      (match wh with
       | some e => rcat (rstr (" WHERE ")) (renderExpr e)
       | none => rempty),
      (if g.isEmpty then rempty else rcat (rstr (" GROUP BY ")) (renderExprList true g)),
      (match h with
       | some e => rcat (rstr (" HAVING ")) (renderExpr e)
       | none => rempty),
      (if o.isEmpty then rempty else rcat (rstr (" ORDER BY ")) (renderOrderItemList true o)),
      (match l with
       | some (.mk cnt off) =>
         rcat
           (match cnt with
            | some e => rcat (rstr (" LIMIT ")) (renderExpr e)
            | none => rempty)
           (match off with
            | some e => rcat (rstr (" OFFSET ")) (renderExpr e)
            | none => rempty)
       | none => rempty),
      renderSetOpList so]

/-- The CTE loop of `renderer.renderWith`. -/
def renderCTEList : Bool → List CTE → RResult
  | _, [] => rempty
  | first, .mk name cols sel :: rest =>
    rcats [rstr (if first then "" else ", "),
      renderIdentifierOpt name,
      (if cols.isEmpty then rempty
       else rcats [rstr (" ("), renderIdentList true cols, rstr (")")]),
      rstr (" AS ("),
      (match sel with
       | none => rerr ("render: CTE " ++ (String.intercalate "." (name.getD []) ++ " has nil select"))
       | some s => renderSelect s),
      rstr (")"),
      renderCTEList false rest]

/-- The set-operation loop at the end of `renderer.renderSelect`. -/
def renderSetOpList : List SetOp → RResult
  | [] => rempty
  | .mk op all sel :: rest =>
    rcats [rstr (" " ++ setOperatorName op),
      rstr (if all then " ALL" else ""),
      rstr (" "),
      renderSetOperand sel,
      renderSetOpList rest]

/-- `renderer.renderSetOperand`. -/
def renderSetOperand : Option SelectStmt → RResult
  | none => rerr ("render: nil set operand")
  | some s =>
    let needsParens :=
      (match s with
       | .mk w _ _ _ _ _ _ _ _ so =>
         (match w with
          | some (.mk _ ctes) => !ctes.isEmpty
          | none => false) || !so.isEmpty)
    if needsParens then rcats [rstr ("("), renderSelect s, rstr (")")]
    else renderSelect s

/-- `renderer.renderTable` (a nil subquery select, which would crash the
Go renderer, renders as nothing). -/
def renderTable : TableExpr → RResult
  | .tableName name aliasName =>
    rcat (renderIdentifierOpt name) (rstr (if aliasName == "" then "" else " AS " ++ aliasName))
  | .subqueryTable sel aliasName =>
    rcats [rstr ("("),
      (match sel with
       | some s => renderSelect s
       | none => rempty),
      rstr (")"),
      rstr (if aliasName == "" then "" else " AS " ++ aliasName)]
  | .joinE l r jt onC =>
    rcats [renderTable l, rstr (" "), rstr (renderJoinTypeStr jt), rstr (" "), renderTable r,
      (match onC with
       | some e =>
         if jt = JoinType.cross then rempty
         else rcat (rstr (" ON ")) (renderExpr e)
       | none => rempty)]

/-- The select-item loop of `renderer.renderSelect`. -/
def renderSelectItemList : Bool → List SelectItem → RResult
  | _, [] => rempty
  | first, .mk e aliasName :: rest =>
    rcats [rstr (if first then "" else ", "), renderExpr e,
      rstr (if aliasName == "" then "" else " AS " ++ aliasName),
      renderSelectItemList false rest]

/-- The order-item loop of `renderer.renderSelect`. -/
def renderOrderItemList : Bool → List OrderItem → RResult
  | _, [] => rempty
  | first, .mk e desc :: rest =>
    rcats [rstr (if first then "" else ", "), renderExpr e,
      rstr (if desc then " DESC" else " ASC"),
      renderOrderItemList false rest]

end

/-- `render.Render` as invoked by the translator on expressions. -/
def render (e : Expr) : Except GoError String :=
  let r := renderExpr e
  match r.2 with
  | [] => .ok (goTrimSpace r.1)
  | m :: _ => .error (.plain m)

/-! ## Translator state (the mutable fields of `selectTranslatorVisitor`) -/

/-- The translator's `filterComputation`. -/
structure FilterComp where
  aliasName : String
  rawAlias : String
  pipes : List String
deriving DecidableEq, Repr

/-- The mutable fields of `selectTranslatorVisitor`.  `bindings` keeps the
map's key set (the stored `tableBinding` values are never read);
`aggResults` and `groupExprAliases` keep Go's nil/non-nil distinction. -/
structure TransState where
  bindings : List String
  baseAlias : String
  pendingLeftFilter : List Expr
  aggResults : Option (List (String × String))
  groupExprAliases : Option (List (String × String))
  availableCTEs : List (String × String)
  baseUsesPipeline : Bool
  basePipeline : String
  baseFilter : String
  filterComputations : List (String × FilterComp)
  filterOrder : List String
  filterDelete : List String

/-- `store.Provider`: the table catalog plus the optional view store
(whose directory is the modelled file system). -/
structure Provider where
  tableStore : TableStore
  viewStore : Option FS

/-- `selectTranslatorVisitor.lookupTableSpec`. -/
def lookupTableSpec (sp : Provider) (nameLower : String) : Option TableSpec :=
  (sp.tableStore.getTableQuery nameLower).map newTableSpec

/-- `selectTranslatorVisitor.registerBinding`. -/
def registerBinding (st : TransState) (aliasName : String) : TransState :=
  let key := goToLower aliasName
  if key == "" then st
  else if st.bindings.contains key then st
  else { st with bindings := st.bindings ++ [key] }

/-- `selectTranslatorVisitor.normalizeIdentifier`. -/
def normalizeIdentifier (st : TransState) (parts : List String) : Except GoError String :=
  match parts with
  | [] => .error (badRequest ("translator: invalid identifier"))
  | first :: rest =>
    let parts' :=
      if !rest.isEmpty && st.bindings.contains (goToLower first) then rest
      else first :: rest
    let field := String.intercalate "." parts'
    if field == "" then .error (badRequest ("translator: invalid identifier"))
    else if safeBareLiteral field then .ok field
    else .ok (quoteString field)

/-- `selectTranslatorVisitor.rawFieldName`. -/
def rawFieldName (st : TransState) (parts : List String) : Except GoError String :=
  match parts with
  | [] => .error (badRequest ("translator: invalid identifier"))
  | first :: rest =>
    let parts' :=
      if !rest.isEmpty && st.bindings.contains (goToLower first) then rest
      else first :: rest
    match parts' with
    | [] => .error (badRequest ("translator: invalid identifier"))
    | _ =>
      let field := String.intercalate "." parts'
      if !safeFormatFieldLiteral field then
        .error (badRequest ("translator: field " ++ (field ++ " cannot be used in scalar function")))
      else .ok field

/-- `selectTranslatorVisitor.qualifierForIdentifier`. -/
def qualifierForIdentifier (st : TransState) (parts : List String) : String :=
  match parts with
  | [] => st.baseAlias
  | first :: _ =>
    let f := goToLower first
    if st.bindings.contains f then f else st.baseAlias

mutual

/-- Identifier part lists reached by `walkExpr` (its callback only acts
on `*ast.Identifier` nodes; the `SubqueryExpr` wrapper built for IN
subqueries has no case in `walkExpr` and is not entered). -/
def walkIdents : Expr → List (List String)
  | .ident parts => [parts]
  | .binary l _ r => walkIdents l ++ walkIdents r
  | .unary _ e => walkIdents e
  | .inE e _ _ list => walkIdents e ++ walkIdentsList list
  | .betweenE e lo hi _ => walkIdents e ++ (walkIdents lo ++ walkIdents hi)
  | .likeE e _ pat => walkIdents e ++ walkIdents pat
  | .isNullE e _ => walkIdents e
  | .funcCall _ _ args _ => walkIdentsList args
  | _ => []

/-- `walkExpr` over an argument list. -/
def walkIdentsList : List Expr → List (List String)
  | [] => []
  | e :: rest => walkIdents e ++ walkIdentsList rest

end

/-- Set insertion preserving first-seen order. -/
def dedupInsert (l : List String) (x : String) : List String :=
  if l.contains x then l else l ++ [x]

/-- `selectTranslatorVisitor.aliasesForExpr` (a set; the model keeps
first-seen order). -/
def aliasesForExpr (st : TransState) (e : Expr) : List String :=
  (((walkIdents e).map (qualifierForIdentifier st)).foldl dedupInsert []).filter
    (fun a => !(a == ""))

/-- `selectTranslatorVisitor.isAliasOnly`. -/
def isAliasOnly (aliases : List String) (aliasName : String) : Bool :=
  if aliases.isEmpty then false
  else if aliasName == "" then false
  else if aliases.length == 1 then aliases.contains aliasName
  else false

/-- `selectTranslatorVisitor.ensureAliases`. -/
def ensureAliases (st : TransState) (e : Expr) (allowed : List String) : Except GoError Unit :=
  match (aliasesForExpr st e).find? (fun a => !(a == "") && !allowed.contains a) with
  | some a =>
    .error (badRequest ("translator: expression references unsupported alias " ++ quoteString a))
  | none => .ok ()

/-- `selectTranslatorVisitor.ensureBaseAliasesOnly`. -/
def ensureBaseAliasesOnly (st : TransState) (e : Expr) : Except GoError Unit :=
  ensureAliases st e [st.baseAlias]

/-- `flattenAnd`. -/
def flattenAnd (e : Expr) : List Expr :=
  match e with
  | .binary l op r => if op == "AND" then flattenAnd l ++ flattenAnd r else [.binary l op r]
  | e => [e]

/-- `makeProjectionAlias`. -/
def makeProjectionAlias (provided pfx field : String) : Except GoError String :=
  if provided != "" then
    if !safeBareLiteral provided then
      .error (badRequest ("translator: alias " ++ (quoteString provided ++ " contains unsupported characters")))
    else .ok provided
  else
    let sanitized := sanitizeAliasFromField field
    let aliasName := pfx ++ ("_" ++ sanitized)
    if !safeBareLiteral aliasName then
      .error (badRequest ("translator: failed to build alias for " ++ field))
    else .ok aliasName

/-- `makeSimpleAlias`. -/
def makeSimpleAlias (provided fallback : String) : Except GoError String :=
  if provided != "" then
    if !safeBareLiteral provided then
      .error (badRequest ("translator: alias " ++ (quoteString provided ++ " contains unsupported characters")))
    else .ok provided
  else
    let fb := if fallback == "" then "expr" else fallback
    if !safeBareLiteral fb then
      .error (badRequest ("translator: alias " ++ (quoteString fb ++ " contains unsupported characters")))
    else .ok fb

/-- `buildTrimPattern` (`alias` is already interpolated). -/
def buildTrimPattern (kind aliasName : String) : Except GoError String :=
  let u := goToUpper kind
  if u == "TRIM" then
    .ok ("(?s)^\\s*(?P<" ++ (aliasName ++ (">" ++ (".*?\\S)?\\s*$"))))
  else if u == "LTRIM" then
    .ok ("(?s)^\\s*(?P<" ++ (aliasName ++ (">" ++ ".*)$")))
  else if u == "RTRIM" then
    .ok ("(?s)^(?P<" ++ (aliasName ++ (">" ++ (".*?\\S)?\\s*$"))))
  else
    .error (.plain ("translator: unsupported trim function " ++ kind))

/-- `isAggregateFunction`. -/
def isAggregateFunction (name : List String) : Bool :=
  match name.getLast? with
  | none => false
  | some n =>
    let u := goToUpper n
    u == "COUNT" || u == "SUM" || u == "AVG" || u == "MIN" || u == "MAX"

/-- `aggregateKey`. -/
def aggregateKey (name arg : String) : String :=
  if arg == "" || arg == "*" then goToUpper name ++ "(*)"
  else goToUpper name ++ ("(" ++ (goToLower arg ++ ")"))

/-- `formatAggregateArg`. -/
def formatAggregateArg (arg : String) : String :=
  if arg == "" || arg == "*" then "" else arg

/-! ## Math expressions -/

/-- `isMathOperator`. -/
def isMathOperator (op : String) : Bool :=
  op == "+" || op == "-" || op == "*" || op == "/" || op == "%" || op == "^"

mutual

/-- `selectTranslatorVisitor.mathExprToString`. -/
def mathExprToString (st : TransState) : Expr → Except GoError String
  | .numLit v => .ok v
  | .ident parts => rawFieldName st parts
  | .unary op e =>
    if !(goToUpper op == "-") then
      .error (badRequest ("translator: unsupported unary operator " ++
        (quoteString op ++ " in math expression")))
    else
      match mathExprToString st e with
      | .error err => .error err
      | .ok inner => .ok ("-(" ++ (inner ++ ")"))
  | .binary l op r =>
    if !isMathOperator (goToUpper op) then
      .error (badRequest ("translator: unsupported operator " ++
        (quoteString op ++ " in math expression")))
    else
      match mathExprToString st l with
      | .error err => .error err
      | .ok left =>
        match mathExprToString st r with
        | .error err => .error err
        | .ok right => .ok ("(" ++ (left ++ (" " ++ (op ++ (" " ++ (right ++ ")"))))))
  | .funcCall name _ args _ => mathFuncToString st name args
  | e => .error (badRequest ("translator: unsupported math expression " ++ exprTypeName e))

/-- `selectTranslatorVisitor.mathFuncToString`. -/
def mathFuncToString (st : TransState) (name : List String) (args : List Expr) :
    Except GoError String :=
  match name.getLast? with
  | none => .error (badRequest ("translator: invalid math function"))
  | some last =>
    let nameU := goToUpper last
    let lower := goToLower nameU
    if nameU == "ABS" || nameU == "CEIL" || nameU == "FLOOR" || nameU == "EXP" || nameU == "LN" then
      match args with
      | [a] =>
        match mathExprToString st a with
        | .error err => .error err
        | .ok s => .ok (lower ++ ("(" ++ (s ++ ")")))
      | _ => .error (badRequest ("translator: " ++ (lower ++ " expects single argument")))
    else if nameU == "ROUND" then
      match args with
      | [a] =>
        match mathExprToString st a with
        | .error err => .error err
        | .ok s => .ok ("round(" ++ (s ++ ")"))
      | [a, b] =>
        match mathExprToString st a with
        | .error err => .error err
        | .ok s =>
          match mathExprToString st b with
          | .error err => .error err
          | .ok n => .ok ("round(" ++ (s ++ (", " ++ (n ++ ")"))))
      | _ => .error (badRequest ("translator: round expects one or two arguments"))
    else if nameU == "POWER" || nameU == "POW" then
      match args with
      | [a, b] =>
        match mathExprToString st a with
        | .error err => .error err
        | .ok base =>
          match mathExprToString st b with
          | .error err => .error err
          | .ok exponent => .ok ("(" ++ (base ++ (" ^ " ++ (exponent ++ ")"))))
      | _ => .error (badRequest ("translator: " ++ (lower ++ " expects two arguments")))
    else if nameU == "MAX" || nameU == "MIN" || nameU == "GREATEST" || nameU == "LEAST" then
      match args with
      | [] =>
        .error (badRequest ("translator: " ++ (lower ++ " expects at least one argument")))
      | a :: rest =>
        match mathExprToString st a with
        | .error err => .error err
        | .ok s =>
          match mathArgsToStrings st rest with
          | .error err => .error err
          | .ok tail =>
            let parts := s :: tail
            let funcName := if nameU == "GREATEST" then "max" else if nameU == "LEAST" then "min" else lower
            .ok (funcName ++ ("(" ++ (String.intercalate ", " parts ++ ")")))
    else
      .error (badRequest ("translator: unsupported function " ++ (nameU ++ " in math expression")))

/-- The n-ary argument loop of `mathFuncToString`. -/
def mathArgsToStrings (st : TransState) : List Expr → Except GoError (List String)
  | [] => .ok []
  | a :: rest =>
    match mathExprToString st a with
    | .error err => .error err
    | .ok s =>
      match mathArgsToStrings st rest with
      | .error err => .error err
      | .ok tail => .ok (s :: tail)

end

/-- `selectTranslatorVisitor.translateMathProjection`: returns (pipe, alias). -/
def translateMathProjection (st : TransState) (e : Expr) (aliasArg : String) :
    Except GoError (String × String) := do
  let mathExpr ← mathExprToString st e
  let aliasName ← makeProjectionAlias (goTrimSpace aliasArg) ("expr") mathExpr
  .ok ("math " ++ (mathExpr ++ (" as " ++ aliasName)), aliasName)

/-! ## Scalar string functions -/

/-- `selectTranslatorVisitor.translateTrimFunction`. -/
def translateTrimFunction (st : TransState) (kind : String) (identParts : List String)
    (aliasArg : String) : Except GoError (List String × String) := do
  let rawField ← rawFieldName st identParts
  let aliasName ← makeProjectionAlias (goTrimSpace aliasArg) (goToLower kind) rawField
  let pattern ← buildTrimPattern kind aliasName
  .ok (["extract_regexp '" ++ (escapeSingleQuotes pattern ++ ("' from " ++ rawField))], aliasName)

/-- `parseSubstringIntArg`. -/
def parseSubstringIntArg (e : Expr) (name : String) : Except GoError Int :=
  match e with
  | .numLit v =>
    let clean := String.mk ((goTrimSpace v).data.filter (fun c => !(c == '_')))
    if clean == "" then
      .error (badRequest ("translator: substr " ++ (name ++ " must be integer literal")))
    else if clean.data.any (fun c => c == '.' || c == 'e' || c == 'E') then
      .error (badRequest ("translator: substr " ++ (name ++ " must be integer literal")))
    else
      match goAtoi clean with
      | some n => .ok n
      | none => .error (badRequest ("translator: substr " ++ (name ++ " must be integer literal")))
  | _ => .error (badRequest ("translator: substr " ++ (name ++ " must be integer literal")))

/-- `selectTranslatorVisitor.translateSubstringFunction`. -/
def translateSubstringFunction (st : TransState) (args : List Expr) (aliasArg : String) :
    Except GoError (List String × String) :=
  if args.length < 2 || args.length > 3 then
    .error (badRequest ("translator: substr expects two or three arguments"))
  else
    match args with
    | .ident parts :: arg1 :: rest => do
      let rawField ← rawFieldName st parts
      let start ← parseSubstringIntArg arg1 ("start")
      if start < 1 then
        .error (badRequest ("translator: substr start must be >= 1"))
      else do
        let aliasName ← makeProjectionAlias (goTrimSpace aliasArg) ("substr") rawField
        let startIndex := start - 1
        let pattern ←
          match rest with
          | [arg2] => do
            let length ← parseSubstringIntArg arg2 ("length")
            if length < 0 then
              .error (badRequest ("translator: substr length must be >= 0"))
            else
              .ok ("(?s)^.\x7b" ++ (toString startIndex ++ ("\x7d(?P<" ++ (aliasName ++
                (">.\x7b0," ++ (toString length ++ "\x7d)"))))))
          | _ =>
            .ok ("(?s)^.\x7b" ++ (toString startIndex ++ ("\x7d(?P<" ++ (aliasName ++ ">.*)$"))))
        .ok (["extract_regexp '" ++ (escapeSingleQuotes pattern ++ ("' from " ++ rawField))],
          aliasName)
    | _ => .error (badRequest ("translator: substr only supports identifiers as first argument"))

/-- `selectTranslatorVisitor.concatSegment`. -/
def concatSegment (st : TransState) : Expr → Except GoError String
  | .strLit v => .ok v
  | .numLit v => .ok v
  | .boolLit b => .ok (if b then "true" else "false")
  | .nullLit => .ok ""
  | .ident parts => do
    let field ← rawFieldName st parts
    .ok ("<" ++ (field ++ ">"))
  | e => .error (badRequest ("translator: CONCAT argument " ++ (exprTypeName e ++ " is not supported")))

/-- The argument loop of `translateConcatFunction`. -/
def concatSegments (st : TransState) : List Expr → Except GoError (List String)
  | [] => .ok []
  | a :: rest => do
    let s ← concatSegment st a
    let tail ← concatSegments st rest
    .ok (s :: tail)

/-- `selectTranslatorVisitor.translateConcatFunction`. -/
def translateConcatFunction (st : TransState) (args : List Expr) (aliasArg : String) :
    Except GoError (List String × String) :=
  if args.isEmpty then
    .error (badRequest ("translator: concat expects at least one argument"))
  else do
    let aliasSource ←
      match args with
      | .ident parts :: _ => rawFieldName st parts
      | _ => .ok "expr"
    let aliasName ← makeProjectionAlias (goTrimSpace aliasArg) ("concat") aliasSource
    let segments ← concatSegments st args
    let pattern := String.intercalate "" segments
    .ok (["format \"" ++ (escapeFormatPattern pattern ++ ("\" as " ++ aliasName))], aliasName)

/-- `selectTranslatorVisitor.translateReplaceFunction`. -/
def translateReplaceFunction (st : TransState) (args : List Expr) (aliasArg : String) :
    Except GoError (List String × String) :=
  match args with
  | [first, a1, a2] =>
    match first with
    | .ident parts => do
      let rawField ← rawFieldName st parts
      let searchLit ← literalFromExpr a1
      let replaceLit ← literalFromExpr a2
      let aliasName ← makeProjectionAlias (goTrimSpace aliasArg) ("replace") rawField
      let pattern := "<" ++ (rawField ++ ">")
      let copyPipe := "format \"" ++ (escapeFormatPattern pattern ++ ("\" as " ++ aliasName))
      let replacePipe := "replace ('" ++ (escapeSingleQuotes searchLit.value ++
        ("', '" ++ (escapeSingleQuotes replaceLit.value ++ ("') at " ++ aliasName))))
      .ok ([copyPipe, replacePipe], aliasName)
    | _ => .error (badRequest ("translator: replace only supports identifiers as first argument"))
  | _ => .error (badRequest ("translator: replace expects three arguments"))

/-- `selectTranslatorVisitor.translateCurrentTimestamp`. -/
def translateCurrentTimestamp (aliasArg : String) : Except GoError (List String × String) := do
  let aliasName ← makeSimpleAlias (goTrimSpace aliasArg) ("current_timestamp")
  let tmpField := aliasName ++ "_nanos"
  if !safeFormatFieldLiteral tmpField then
    .error (badRequest ("translator: alias " ++ (aliasName ++ " produces unsupported field name")))
  else
    .ok (["math now() as " ++ tmpField,
      "format '<time:" ++ (tmpField ++ (">' as " ++ aliasName)),
      "delete " ++ tmpField], aliasName)

/-- `selectTranslatorVisitor.translateCurrentDate`. -/
def translateCurrentDate (aliasArg : String) : Except GoError (List String × String) := do
  let aliasName ← makeSimpleAlias (goTrimSpace aliasArg) ("current_date")
  let nanosField := aliasName ++ "_nanos"
  let formattedField := aliasName ++ "_formatted"
  if !safeFormatFieldLiteral nanosField || !safeFormatFieldLiteral formattedField then
    .error (badRequest ("translator: alias " ++ (aliasName ++ " produces unsupported field name")))
  else
    let pattern := "^(?P<" ++ (aliasName ++ ">[0-9]\x7b4\x7d-[0-9]\x7b2\x7d-[0-9]\x7b2\x7d)")
    .ok (["math now() as " ++ nanosField,
      "format '<time:" ++ (nanosField ++ (">' as " ++ formattedField)),
      "extract_regexp '" ++ (escapeSingleQuotes pattern ++ ("' from " ++ formattedField)),
      "delete " ++ (nanosField ++ (", " ++ formattedField))], aliasName)

/-- `selectTranslatorVisitor.translateStringFunction`: the Bool is Go's
`supported` flag (`false` lets callers fall through to math lowering). -/
def translateStringFunction (st : TransState) (name : List String) (args : List Expr)
    (aliasArg : String) : Bool × Except GoError (List String × String) :=
  match name.getLast? with
  | none => (false, .error (badRequest ("translator: invalid function expression")))
  | some last =>
    let nameU := goToUpper last
    if nameU == "UPPER" || nameU == "LOWER" then
      (true,
        match args with
        | [.ident parts] => do
          let rawField ← rawFieldName st parts
          let aliasName ← makeProjectionAlias (goTrimSpace aliasArg) (goToLower nameU) rawField
          let modifier := if nameU == "LOWER" then "lc" else "uc"
          let pattern := "<" ++ (modifier ++ (":" ++ (rawField ++ ">")))
          .ok (["format \"" ++ (escapeFormatPattern pattern ++ ("\" as " ++ aliasName))], aliasName)
        | [_] =>
          .error (badRequest ("translator: " ++ (goToLower nameU ++ " only supports identifiers")))
        | _ =>
          .error (badRequest ("translator: " ++ (goToLower nameU ++ " expects single argument"))))
    else if nameU == "TRIM" || nameU == "LTRIM" || nameU == "RTRIM" then
      (true,
        match args with
        | [.ident parts] => translateTrimFunction st nameU parts aliasArg
        | [_] =>
          .error (badRequest ("translator: " ++ (goToLower nameU ++ " only supports identifiers")))
        | _ =>
          .error (badRequest ("translator: " ++ (goToLower nameU ++ " expects single argument"))))
    else if nameU == "SUBSTR" || nameU == "SUBSTRING" then
      (true, translateSubstringFunction st args aliasArg)
    else if nameU == "CONCAT" then
      (true, translateConcatFunction st args aliasArg)
    else if nameU == "REPLACE" then
      (true, translateReplaceFunction st args aliasArg)
    else if nameU == "CURRENT_TIMESTAMP" then
      (true, translateCurrentTimestamp aliasArg)
    else if nameU == "CURRENT_DATE" then
      (true, translateCurrentDate aliasArg)
    else
      (false, .ok ([], ""))

/-! ## Aggregates -/

/-- The translator's `aggItem`. -/
structure AggItem where
  key : String
  statsCall : String
  resultName : String
deriving DecidableEq, Repr

/-- `selectTranslatorVisitor.analyzeAggregate`. -/
def analyzeAggregate (st : TransState) (name : List String) (distinct : Bool)
    (args : List Expr) (aliasArg : String) : Except GoError AggItem :=
  if distinct then
    .error (badRequest ("translator: DISTINCT aggregates are not supported"))
  else
    match name.getLast? with
    | none => .error (badRequest ("translator: invalid aggregate function"))
    | some last => do
      let nameU := goToUpper last
      let arg ←
        if nameU == "COUNT" then
          match args with
          | [] => .ok "*"
          | [.star _] => .ok "*"
          | [.ident parts] => normalizeIdentifier st parts
          | [_] => .error (badRequest ("translator: COUNT only supports identifiers or *"))
          | _ => .error (badRequest ("translator: COUNT expects single argument"))
        else if nameU == "SUM" || nameU == "AVG" || nameU == "MIN" || nameU == "MAX" then
          match args with
          | [.ident parts] => normalizeIdentifier st parts
          | [_] =>
            .error (badRequest ("translator: " ++ (goToLower nameU ++ " only supports identifiers")))
          | _ =>
            .error (badRequest ("translator: " ++ (goToLower nameU ++ " expects single argument")))
        else
          .error (badRequest ("translator: unsupported aggregate " ++ nameU))
      let key := aggregateKey nameU arg
      let fnCall := goToLower nameU ++ ("(" ++ (formatAggregateArg arg ++ ")"))
      let aliasT := goTrimSpace aliasArg
      if aliasT == "" then
        .ok { key := key, statsCall := fnCall, resultName := fnCall }
      else
        let formattedAlias := formatFieldName aliasT
        .ok { key := key, statsCall := fnCall ++ (" " ++ formattedAlias),
              resultName := formattedAlias }

/-- `selectTranslatorVisitor.aggregateKeyFromFunc`. -/
def aggregateKeyFromFunc (st : TransState) (name : List String) (args : List Expr) :
    Except GoError String :=
  match name.getLast? with
  | none => .error (badRequest ("translator: invalid aggregate in ORDER BY"))
  | some last => do
    let nameU := goToUpper last
    let arg ←
      if nameU == "COUNT" then
        match args with
        | [] => .ok "*"
        | [.star _] => .ok "*"
        | [.ident parts] => normalizeIdentifier st parts
        | [_] => .error (badRequest ("translator: COUNT only supports identifiers or *"))
        | _ => .error (badRequest ("translator: COUNT expects single argument"))
      else if nameU == "SUM" || nameU == "AVG" || nameU == "MIN" || nameU == "MAX" then
        match args with
        | [.ident parts] => normalizeIdentifier st parts
        | [_] =>
          .error (badRequest ("translator: " ++ (goToLower nameU ++ " only supports identifiers")))
        | _ =>
          .error (badRequest ("translator: " ++ (goToLower nameU ++ " expects single argument")))
      else
        .error (badRequest ("translator: unsupported aggregate " ++ nameU))
    .ok (aggregateKey nameU arg)

/-! ## ORDER BY, windows, LIMIT, DISTINCT -/

/-- Lookup in the `aggResults` map (a nil map misses). -/
def aggLookup (st : TransState) (key : String) : Option String :=
  match st.aggResults with
  | none => none
  | some m => mapGet m key

/-- The item loop of `translateOrderBy`. -/
def translateOrderByItems (st : TransState) (aggregated : Bool) :
    List OrderItem → Except GoError (List String)
  | [] => .ok []
  | .mk e desc :: rest => do
    let field ←
      match e with
      | .ident parts => normalizeIdentifier st parts
      | .funcCall name _ args _ =>
        if !aggregated then
          .error (badRequest ("translator: ORDER BY function requires aggregation"))
        else do
          let key ← aggregateKeyFromFunc st name args
          match aggLookup st key with
          | none => .error (badRequest ("translator: ORDER BY references unknown aggregate"))
          | some n => .ok n
      | e =>
        .error (badRequest ("translator: ORDER BY expression " ++
          (exprTypeName e ++ " not supported")))
    let clause := if desc then field ++ " desc" else field
    let tail ← translateOrderByItems st aggregated rest
    .ok (clause :: tail)

/-- `selectTranslatorVisitor.translateOrderBy`. -/
def translateOrderBy (st : TransState) (items : List OrderItem) (aggregated : Bool) :
    Except GoError String := do
  let clauses ← translateOrderByItems st aggregated items
  .ok ("sort by (" ++ (String.intercalate ", " clauses ++ ")"))

/-- The PARTITION BY loop of `translateWindowFunction`. -/
def windowPartitionFields (st : TransState) : List Expr → Except GoError (List String)
  | [] => .ok []
  | e :: rest => do
    let _ ← ensureBaseAliasesOnly st e
    match e with
    | .ident parts => do
      let field ← normalizeIdentifier st parts
      let tail ← windowPartitionFields st rest
      .ok (field :: tail)
    | _ => .error (badRequest ("translator: PARTITION BY only supports identifiers"))

/-- The window ORDER BY alias check of `translateWindowFunction`. -/
def ensureOrderExprsBase (st : TransState) : List OrderItem → Except GoError Unit
  | [] => .ok ()
  | .mk e _ :: rest => do
    let _ ← ensureBaseAliasesOnly st e
    ensureOrderExprsBase st rest

/-- `selectTranslatorVisitor.translateWindowFunction` (a missing function
name would crash the Go code dereferencing `Parts[len-1]`; the model
reports the invalid-window error instead). -/
def translateWindowFunction (st : TransState) (name : List String) (distinct : Bool)
    (args : List Expr) (over : Option WindowSpec) (aliasArg : String) :
    Except GoError (List String × String) :=
  match over with
  | none => .error (badRequest ("translator: invalid window function"))
  | some (.mk partitionBy orderBy) =>
    if distinct then
      .error (badRequest ("translator: DISTINCT window functions are not supported"))
    else
      match name.getLast? with
      | none => .error (badRequest ("translator: invalid window function"))
      | some last => do
        let nameU := goToUpper last
        let (statsCall, aliasSource) ←
          if nameU == "SUM" || nameU == "MIN" || nameU == "MAX" then
            match args with
            | [a] => do
              let _ ← ensureBaseAliasesOnly st a
              match a with
              | .ident parts => do
                let field ← normalizeIdentifier st parts
                .ok (goToLower nameU ++ ("(" ++ (field ++ ")")), field)
              | _ =>
                .error (badRequest ("translator: " ++ (goToLower nameU ++
                  " window function requires identifier argument")))
            | _ =>
              .error (badRequest ("translator: " ++ (goToLower nameU ++
                " window function expects single argument")))
          else if nameU == "COUNT" then
            match args with
            | [] => .ok ("count()", goToLower nameU)
            | [.star _] => .ok ("count()", goToLower nameU)
            | [.ident parts] => do
              let _ ← ensureBaseAliasesOnly st (.ident parts)
              let field ← normalizeIdentifier st parts
              .ok ("count(" ++ (field ++ ")"), field)
            | [_] =>
              .error (badRequest ("translator: COUNT window function only supports identifiers or *"))
            | _ =>
              .error (badRequest ("translator: COUNT window function expects zero or one argument"))
          else
            .error (badRequest ("translator: window function " ++ (nameU ++ " is not supported")))
        let aliasSource := if goTrimSpace aliasSource == "" then goToLower nameU else aliasSource
        let aliasName ← makeProjectionAlias (goTrimSpace aliasArg) (goToLower nameU) aliasSource
        let partitionClause ←
          if partitionBy.isEmpty then .ok ""
          else do
            let fields ← windowPartitionFields st partitionBy
            .ok (" by (" ++ (String.intercalate ", " fields ++ ")"))
        let pipes ←
          if orderBy.isEmpty then .ok []
          else do
            let _ ← ensureOrderExprsBase st orderBy
            let orderPipe ← translateOrderBy st orderBy false
            .ok [orderPipe]
        let statsPipe := "running_stats" ++ (partitionClause ++ (" " ++ (statsCall ++
          (" as " ++ aliasName))))
        .ok (pipes ++ [statsPipe], aliasName)

/-- `selectTranslatorVisitor.translateLimit`. -/
def translateLimit : LimitClause → Except GoError (List String)
  | .mk cnt off => do
    let pipes ←
      match off with
      | some e =>
        match literalFromExpr e with
        | .error err =>
          .error (badRequest ("translator: OFFSET expects numeric literal: " ++ err.message))
        | .ok lit =>
          if !(lit.kind = LiteralKind.num) then
            .error (badRequest ("translator: OFFSET expects numeric literal"))
          else .ok ["offset " ++ lit.value]
      | none => .ok []
    let pipes ←
      match cnt with
      | some e =>
        match literalFromExpr e with
        | .error err =>
          .error (badRequest ("translator: LIMIT expects numeric literal: " ++ err.message))
        | .ok lit =>
          if !(lit.kind = LiteralKind.num) then
            .error (badRequest ("translator: LIMIT expects numeric literal"))
          else .ok (pipes ++ ["limit " ++ lit.value])
      | none => .ok pipes
    if pipes.isEmpty then
      .error (badRequest ("translator: LIMIT/OFFSET clause is empty"))
    else .ok pipes

/-- `selectTranslatorVisitor.buildDistinctPipe`. -/
def buildDistinctPipe (fields : List String) (aggregated : Bool) : Except GoError String :=
  if aggregated then
    .error (badRequest ("translator: DISTINCT with aggregates is not supported"))
  else if fields.isEmpty then
    .error (badRequest ("translator: DISTINCT requires explicit column list"))
  else
    .ok ("uniq by (" ++ (String.intercalate ", " fields ++ ")"))

/-! ## Filter lowering (`translateExpr` and helpers) -/

/-- `selectTranslatorVisitor.lookupGroupExpr` (nil map: not found without
rendering). -/
def lookupGroupExpr (st : TransState) (e : Expr) : Except GoError (Option String) :=
  match st.groupExprAliases with
  | none => .ok none
  | some m =>
    match render e with
    | .error err =>
      .error (badRequest ("translator: failed to normalize expression: " ++ err.message))
    | .ok key => .ok (mapGet m key)

/-- Lookup in `filterComputations`. -/
def fcGet (m : List (String × FilterComp)) (k : String) : Option FilterComp :=
  (m.find? (fun p => p.1 == k)).map (fun p => p.2)

/-- `selectTranslatorVisitor.ensureFilterFunctionAlias`. -/
def ensureFilterFunctionAlias (st : TransState) (name : List String) (distinct : Bool)
    (args : List Expr) (over : Option WindowSpec) : Except GoError (String × TransState) :=
  if name.isEmpty then
    .error (badRequest ("translator: invalid function expression"))
  else if isAggregateFunction name then
    .error (badRequest ("translator: aggregate function " ++
      (goToLower ((name.getLast?).getD "") ++ " is not supported in this context")))
  else
    match render (.funcCall name distinct args over) with
    | .error err =>
      .error (badRequest ("translator: failed to normalize function expression: " ++ err.message))
    | .ok key =>
      match fcGet st.filterComputations key with
      | some comp => .ok (comp.aliasName, st)
      | none =>
        let aliasBase := "__filter_expr_" ++ toString (st.filterOrder.length + 1)
        let (supported, res) := translateStringFunction st name args aliasBase
        if !supported then
          .error (badRequest ("translator: function " ++
            (goToLower ((name.getLast?).getD "") ++ " is not supported in filter")))
        else
          match res with
          | .error e => .error e
          | .ok (pipes, aliasName) =>
            let comp : FilterComp :=
              { aliasName := formatFieldName aliasName, rawAlias := aliasName, pipes := pipes }
            let st' := { st with
              filterComputations := st.filterComputations ++ [(key, comp)],
              filterOrder := st.filterOrder ++ [key],
              filterDelete :=
                if st.filterDelete.contains aliasName then st.filterDelete
                else st.filterDelete ++ [aliasName] }
            .ok (comp.aliasName, st')

/-- `selectTranslatorVisitor.fieldNameFromExpr`: `none` plays Go's
`ok = false`. -/
def fieldNameFromExpr (st : TransState) (e : Expr) : Except GoError (Option String × TransState) :=
  match e with
  | .ident parts => do
    let n ← normalizeIdentifier st parts
    .ok (some n, st)
  | .funcCall name dis args over =>
    match st.aggResults with
    | some m =>
      if isAggregateFunction name then do
        let key ← aggregateKeyFromFunc st name args
        match mapGet m key with
        | none => .error (badRequest ("translator: unknown aggregate referenced"))
        | some n => .ok (some n, st)
      else do
        let r ← lookupGroupExpr st (.funcCall name dis args over)
        match r with
        | some groupField => .ok (some (formatFieldName groupField), st)
        | none =>
          .error (badRequest ("translator: function *ast.FuncCall is not supported in aggregated context"))
    | none => do
      let (aliasName, st') ← ensureFilterFunctionAlias st name dis args over
      .ok (some aliasName, st')
  | _ => .ok (none, st)

/-- `selectTranslatorVisitor.filterFieldFromExpr`. -/
def filterFieldFromExpr (st : TransState) (e : Expr) : Except GoError (String × TransState) := do
  let (opt, st') ← fieldNameFromExpr st e
  match opt with
  | none => .error (badRequest ("translator: expected identifier, got " ++ exprTypeName e))
  | some field => .ok (field, st')

/-- The translator's `comparisonKind`. -/
inductive ComparisonKind where
  | eq
  | ne
  | gt
  | ge
  | lt
  | le
deriving DecidableEq, Repr

/-- `selectTranslatorVisitor.extractFieldAndLiteral`: returns
(field, literal, flipped, state). -/
def extractFieldAndLiteral (st : TransState) (l r : Expr) :
    Except GoError (String × LiteralValue × Bool × TransState) := do
  let (opt, st1) ← fieldNameFromExpr st l
  match opt with
  | some name => do
    let lit ← literalFromExpr r
    .ok (name, lit, false, st1)
  | none => do
    let (opt2, st2) ← fieldNameFromExpr st1 r
    match opt2 with
    | some name => do
      let lit ← literalFromExpr l
      .ok (name, lit, true, st2)
    | none => .error (badRequest ("translator: comparison requires identifier and literal"))

/-- `selectTranslatorVisitor.translateComparison`. -/
def translateComparison (st : TransState) (l r : Expr) (cmp : ComparisonKind) :
    Except GoError (String × TransState) := do
  let (field, lit, flipped, st') ← extractFieldAndLiteral st l r
  match cmp with
  | .eq => .ok (field ++ (":" ++ lit.format), st')
  | .ne => .ok ("-" ++ (field ++ (":" ++ lit.format)), st')
  | _ =>
    if flipped then
      .error (badRequest ("translator: comparisons must have identifier on left side"))
    else
      let op :=
        match cmp with
        | .gt => ">"
        | .ge => ">="
        | .lt => "<"
        | _ => "<="
      .ok (field ++ (":" ++ (op ++ lit.format)), st')

/-- `selectTranslatorVisitor.translateBetweenExpr`. -/
def translateBetweenExpr (st : TransState) (e lo hi : Expr) (isNot : Bool) :
    Except GoError (String × TransState) := do
  let (field, st') ← filterFieldFromExpr st e
  let lower ← literalFromExpr lo
  let upper ← literalFromExpr hi
  let clause := field ++ (":[" ++ (lower.format ++ (", " ++ (upper.format ++ "]"))))
  if isNot then .ok ("-" ++ clause, st') else .ok (clause, st')

/-- The value loop of `translateInExpr`. -/
def inListValues : List Expr → Except GoError (List String)
  | [] => .ok []
  | e :: rest => do
    let lit ← literalFromExpr e
    let tail ← inListValues rest
    .ok (lit.format :: tail)

/-- `selectTranslatorVisitor.translateInExpr`. -/
def translateInExpr (st : TransState) (e : Expr) (isNot : Bool) (sub : Option SelectStmt)
    (list : List Expr) : Except GoError (String × TransState) :=
  match sub with
  | some _ => .error (badRequest ("translator: IN subqueries are not supported yet"))
  | none => do
    let (field, st') ← filterFieldFromExpr st e
    if list.isEmpty then
      .error (badRequest ("translator: IN list cannot be empty"))
    else do
      let values ← inListValues list
      let clause := field ++ (":(" ++ (String.intercalate " OR " values ++ ")"))
      if isNot then .ok ("-" ++ clause, st') else .ok (clause, st')

/-- `selectTranslatorVisitor.translateLikeExpr`. -/
def translateLikeExpr (st : TransState) (e : Expr) (isNot : Bool) (pat : Expr) :
    Except GoError (String × TransState) := do
  let (field, st') ← filterFieldFromExpr st e
  let lit ← literalFromExpr pat
  if !(lit.kind = LiteralKind.str) then
    .error (badRequest ("translator: LIKE expects string literal"))
  else
    let translated := convertLikePattern lit.value
    let clause := field ++ (":" ++ translated)
    if isNot then .ok ("-" ++ clause, st') else .ok (clause, st')

/-- `selectTranslatorVisitor.translateIsNullExpr`. -/
def translateIsNullExpr (st : TransState) (e : Expr) (isNot : Bool) :
    Except GoError (String × TransState) := do
  let (field, st') ← filterFieldFromExpr st e
  if isNot then .ok (field ++ ":*", st')
  else .ok (field ++ ":\"\"", st')

/-- `selectTranslatorVisitor.translateExpr`. -/
def translateExpr (st : TransState) : Expr → Except GoError (String × TransState)
  | .binary l op r =>
    if op == "AND" || op == "OR" then do
      let (left, st1) ← translateExpr st l
      let (right, st2) ← translateExpr st1 r
      .ok ("(" ++ (left ++ (" " ++ (op ++ (" " ++ (right ++ ")"))))), st2)
    else if op == "=" then translateComparison st l r .eq
    else if op == "!=" || op == "<>" then translateComparison st l r .ne
    else if op == ">" then translateComparison st l r .gt
    else if op == ">=" then translateComparison st l r .ge
    else if op == "<" then translateComparison st l r .lt
    else if op == "<=" then translateComparison st l r .le
    else .error (badRequest ("translator: unsupported operator " ++ quoteString op))
  | .unary op e =>
    if goToUpper op == "NOT" then do
      let (inner, st1) ← translateExpr st e
      .ok ("-(" ++ (inner ++ ")"), st1)
    else .error (badRequest ("translator: unsupported unary operator " ++ quoteString op))
  | .inE e isNot sub list => translateInExpr st e isNot sub list
  | .likeE e isNot pat => translateLikeExpr st e isNot pat
  | .isNullE e isNot => translateIsNullExpr st e isNot
  | .betweenE e lo hi isNot => translateBetweenExpr st e lo hi isNot
  | .funcCall name _ args _ =>
    match st.aggResults with
    | some m => do
      let key ← aggregateKeyFromFunc st name args
      match mapGet m key with
      | some n => .ok (n, st)
      | none => .error (badRequest ("translator: unsupported function expression in filter"))
    | none => .error (badRequest ("translator: unsupported function expression in filter"))
  | .ident parts => do
    let n ← normalizeIdentifier st parts
    .ok (n, st)
  | .strLit v => .ok (formatString v, st)
  | .numLit v => .ok (v, st)
  | .boolLit b => .ok (if b then "true" else "false", st)
  | .nullLit => .error (badRequest ("translator: NULL literal is not supported in this context"))
  | e => .error (badRequest ("translator: unsupported expression " ++ exprTypeName e))

/-- `selectTranslatorVisitor.collectFilterPrefilters`. -/
def collectFilterPrefilters (st : TransState) : List String :=
  st.filterOrder.flatMap (fun key =>
    match fcGet st.filterComputations key with
    | some comp => comp.pipes
    | none => [])

/-- `selectTranslatorVisitor.collectFilterCleanup`. -/
def collectFilterCleanup (st : TransState) : List String :=
  if st.filterDelete.isEmpty then []
  else ["delete " ++ String.intercalate ", " st.filterDelete]

/-! ## GROUP BY and the stats stage -/

/-- `selectTranslatorVisitor.prepareGroupByField`: returns (field name,
materialisation pipes). -/
def prepareGroupByField (st : TransState) (e : Expr) (index : Nat) :
    Except GoError (String × List String) :=
  match e with
  | .ident parts => do
    let field ← normalizeIdentifier st parts
    .ok (field, [])
  | .funcCall name dis args over =>
    if isAggregateFunction name then
      .error (badRequest ("translator: aggregate functions are not allowed in GROUP BY"))
    else
      let aliasN := "group_" ++ toString (index + 1)
      let (supported, res) := translateStringFunction st name args aliasN
      if supported then
        match res with
        | .error err => .error err
        | .ok (pipes, aliasName) => .ok (aliasName, pipes)
      else do
        let (mathPipe, aliasName) ← translateMathProjection st (.funcCall name dis args over) aliasN
        .ok (aliasName, [mathPipe])
  | .binary l op r => do
    let (mathPipe, aliasName) ←
      translateMathProjection st (.binary l op r) ("group_" ++ toString (index + 1))
    .ok (aliasName, [mathPipe])
  | .unary op a => do
    let (mathPipe, aliasName) ←
      translateMathProjection st (.unary op a) ("group_" ++ toString (index + 1))
    .ok (aliasName, [mathPipe])
  | .numLit v => do
    let (mathPipe, aliasName) ←
      translateMathProjection st (.numLit v) ("group_" ++ toString (index + 1))
    .ok (aliasName, [mathPipe])
  | e => .error (badRequest ("translator: unsupported GROUP BY expression " ++ exprTypeName e))

/-- The GROUP BY loop of `buildStatsPipe`: accumulates (group fields,
group lookup set, materialisation pipes, fingerprint→field map). -/
def processGroupByExprs (st : TransState) (index : Nat) (exprs : List Expr)
    (groupFields groupLookup prePipes : List String) (aliasMap : List (String × String)) :
    Except GoError (List String × List String × List String × List (String × String)) :=
  match exprs with
  | [] => .ok (groupFields, groupLookup, prePipes, aliasMap)
  | e :: rest =>
    match render e with
    | .error err =>
      .error (badRequest ("translator: failed to normalize GROUP BY expression: " ++ err.message))
    | .ok exprKey =>
      match mapGet aliasMap exprKey with
      | some existing =>
        processGroupByExprs st (index + 1) rest (groupFields ++ [existing])
          (dedupInsert groupLookup existing) prePipes aliasMap
      | none => do
        let (fieldName, pipes) ← prepareGroupByField st e index
        processGroupByExprs st (index + 1) rest (groupFields ++ [fieldName])
          (dedupInsert groupLookup fieldName) (prePipes ++ pipes)
          (mapInsert aliasMap exprKey fieldName)

/-- The `%T`-or-rendered text used in GROUP BY diagnostics. -/
def renderedOrTypeName (e : Expr) : String :=
  match render e with
  | .ok s => s
  | .error _ => exprTypeName e

/-- The column loop of `buildStatsPipe`: `none` is the early
`SELECT *` return, otherwise the aggregate items in column order. -/
def statsColumnsLoop (st : TransState) (hasGroup : Bool) (groupLookup : List String)
    (columnsLen : Nat) : List SelectItem → Except GoError (Option (List AggItem))
  | [] => .ok (some [])
  | .mk e aliasArg :: rest =>
    match e with
    | .star _ =>
      if columnsLen > 1 then
        .error (badRequest ("translator: SELECT * cannot be mixed with other columns"))
      else if hasGroup then
        .error (badRequest ("translator: SELECT * not supported with GROUP BY"))
      else .ok none
    | .ident parts =>
      if !hasGroup then statsColumnsLoop st hasGroup groupLookup columnsLen rest
      else do
        let field ← normalizeIdentifier st parts
        if !groupLookup.contains field then
          .error (badRequest ("translator: column " ++ (field ++ " must appear in GROUP BY")))
        else statsColumnsLoop st hasGroup groupLookup columnsLen rest
    | .funcCall name dis args over =>
      if over.isSome then
        if hasGroup then
          .error (badRequest ("translator: window functions are not supported with GROUP BY"))
        else statsColumnsLoop st hasGroup groupLookup columnsLen rest
      else if isAggregateFunction name then do
        let item ← analyzeAggregate st name dis args aliasArg
        let r ← statsColumnsLoop st hasGroup groupLookup columnsLen rest
        match r with
        | none => .ok none
        | some items => .ok (some (item :: items))
      else if hasGroup then do
        let r ← lookupGroupExpr st (.funcCall name dis args over)
        match r with
        | some _ => statsColumnsLoop st hasGroup groupLookup columnsLen rest
        | none =>
          .error (badRequest ("translator: non-aggregate function " ++
            (renderedOrTypeName (.funcCall name dis args over) ++ " must appear in GROUP BY")))
      else statsColumnsLoop st hasGroup groupLookup columnsLen rest
    | .binary l op r =>
      if hasGroup then do
        let res ← lookupGroupExpr st (.binary l op r)
        match res with
        | some _ => statsColumnsLoop st hasGroup groupLookup columnsLen rest
        | none =>
          .error (badRequest ("translator: expression " ++
            (renderedOrTypeName (.binary l op r) ++ " must appear in GROUP BY")))
      else statsColumnsLoop st hasGroup groupLookup columnsLen rest
    | .unary op a =>
      if hasGroup then do
        let res ← lookupGroupExpr st (.unary op a)
        match res with
        | some _ => statsColumnsLoop st hasGroup groupLookup columnsLen rest
        | none =>
          .error (badRequest ("translator: expression " ++
            (renderedOrTypeName (.unary op a) ++ " must appear in GROUP BY")))
      else statsColumnsLoop st hasGroup groupLookup columnsLen rest
    | .numLit v =>
      if hasGroup then do
        let res ← lookupGroupExpr st (.numLit v)
        match res with
        | some _ => statsColumnsLoop st hasGroup groupLookup columnsLen rest
        | none =>
          .error (badRequest ("translator: expression " ++
            (renderedOrTypeName (.numLit v) ++ " must appear in GROUP BY")))
      else statsColumnsLoop st hasGroup groupLookup columnsLen rest
    | e =>
      if hasGroup then
        .error (badRequest ("translator: unsupported select expression " ++ exprTypeName e))
      else statsColumnsLoop st hasGroup groupLookup columnsLen rest

/-- `selectTranslatorVisitor.buildStatsPipe`: returns (pipes, aggregated,
state with `groupExprAliases` and `aggResults` updated). -/
def buildStatsPipe (st : TransState) (groupBy : List Expr) (columns : List SelectItem) :
    Except GoError (List String × Bool × TransState) := do
  let hasGroup := !groupBy.isEmpty
  let (groupFields, groupLookup, preGroupPipes, aliasMap) ←
    if hasGroup then processGroupByExprs st 0 groupBy [] [] [] []
    else .ok ([], [], [], [])
  let st' := { st with groupExprAliases := if hasGroup then some aliasMap else none }
  let r ← statsColumnsLoop st' hasGroup groupLookup columns.length columns
  match r with
  | none => .ok ([], false, st')
  | some aggregates =>
    if aggregates.isEmpty then
      if hasGroup then
        .error (badRequest ("translator: GROUP BY requires aggregate expressions"))
      else .ok ([], false, st')
    else
      let byClause :=
        if !groupFields.isEmpty then
          " by (" ++ (String.intercalate ", " groupFields ++ ")")
        else ""
      let funcs := aggregates.map (fun a => a.statsCall)
      let statsStr := "stats" ++ (byClause ++ (" " ++ String.intercalate ", " funcs))
      let aggResults := aggregates.foldl (fun m a => mapInsert m a.key a.resultName) []
      .ok (preGroupPipes ++ [statsStr], true, { st' with aggResults := some aggResults })

/-! ## Projection -/

/-- Shared rename handling for aggregated group-expression columns. -/
def groupFieldProjection (groupField aliasArg : String) : Option String × String :=
  let aliasT := goTrimSpace aliasArg
  if aliasT == "" then (none, groupField)
  else
    let formattedAlias := formatFieldName aliasT
    if formattedAlias == groupField then (none, groupField)
    else (some (groupField ++ (" as " ++ formattedAlias)), formattedAlias)

/-- The column loop of `buildProjectionPipes`: returns
(computation pipes, rename pairs, projected fields).  The Go switch case
`*ast.BinaryExpr, *ast.UnaryExpr, *ast.NumericLiteral` is inlined at the
three constructors. -/
def projectionLoop (st : TransState) (aggregated : Bool) :
    List SelectItem → Except GoError (List String × List String × List String)
  | [] => .ok ([], [], [])
  | .mk e aliasArg :: rest =>
    match e with
    | .ident parts =>
      let joined := goToUpper (String.intercalate "." parts)
      if joined == "CURRENT_TIMESTAMP" || joined == "CURRENT_DATE" then do
        let (pipes, aliasName) ←
          if joined == "CURRENT_TIMESTAMP" then translateCurrentTimestamp aliasArg
          else translateCurrentDate aliasArg
        let (cp, rp, fs) ← projectionLoop st aggregated rest
        .ok (pipes ++ cp, rp, formatFieldName aliasName :: fs)
      else do
        let field ← normalizeIdentifier st parts
        let aliasT := goTrimSpace aliasArg
        let (cp, rp, fs) ← projectionLoop st aggregated rest
        if aliasT == "" then .ok (cp, rp, field :: fs)
        else
          let formattedAlias := formatFieldName aliasT
          .ok (cp, (field ++ (" as " ++ formattedAlias)) :: rp, formattedAlias :: fs)
    | .funcCall name dis args over =>
      if over.isSome then
        if aggregated then
          .error (badRequest ("translator: window functions are not supported with GROUP BY"))
        else do
          let (windowPipes, aliasName) ← translateWindowFunction st name dis args over aliasArg
          let (cp, rp, fs) ← projectionLoop st aggregated rest
          .ok (windowPipes ++ cp, rp, formatFieldName aliasName :: fs)
      else if aggregated && isAggregateFunction name then do
        let field ←
          if !(goTrimSpace aliasArg == "") then .ok (formatFieldName (goTrimSpace aliasArg))
          else do
            let key ← aggregateKeyFromFunc st name args
            match aggLookup st key with
            | some n => .ok n
            | none => .ok key
        let (cp, rp, fs) ← projectionLoop st aggregated rest
        .ok (cp, rp, field :: fs)
      else if aggregated then do
        let r ← lookupGroupExpr st (.funcCall name dis args over)
        match r with
        | some groupField =>
          let (rename?, finalName) := groupFieldProjection groupField aliasArg
          let (cp, rp, fs) ← projectionLoop st aggregated rest
          .ok (cp, (match rename? with | some p => p :: rp | none => rp), finalName :: fs)
        | none =>
          .error (badRequest ("translator: unsupported function *ast.FuncCall in aggregated select"))
      else
        let (supported, res) := translateStringFunction st name args aliasArg
        if supported then
          match res with
          | .error err => .error err
          | .ok (pipes, aliasName) => do
            let (cp, rp, fs) ← projectionLoop st aggregated rest
            .ok (pipes ++ cp, rp, formatFieldName aliasName :: fs)
        else do
          let (mathPipe, aliasName) ←
            translateMathProjection st (.funcCall name dis args over) aliasArg
          let (cp, rp, fs) ← projectionLoop st aggregated rest
          .ok (mathPipe :: cp, rp, formatFieldName aliasName :: fs)
    | .binary l op r =>
      if aggregated then do
        let r' ← lookupGroupExpr st (.binary l op r)
        match r' with
        | none =>
          .error (badRequest ("translator: unsupported expression " ++
            (exprTypeName (.binary l op r) ++ " in aggregated select")))
        | some groupField =>
          let (rename?, finalName) := groupFieldProjection groupField aliasArg
          let (cp, rp, fs) ← projectionLoop st aggregated rest
          .ok (cp, (match rename? with | some p => p :: rp | none => rp), finalName :: fs)
      else do
        let (mathPipe, aliasName) ← translateMathProjection st (.binary l op r) aliasArg
        let (cp, rp, fs) ← projectionLoop st aggregated rest
        .ok (mathPipe :: cp, rp, formatFieldName aliasName :: fs)
    | .unary op a =>
      if aggregated then do
        let r' ← lookupGroupExpr st (.unary op a)
        match r' with
        | none =>
          .error (badRequest ("translator: unsupported expression " ++
            (exprTypeName (.unary op a) ++ " in aggregated select")))
        | some groupField =>
          let (rename?, finalName) := groupFieldProjection groupField aliasArg
          let (cp, rp, fs) ← projectionLoop st aggregated rest
          .ok (cp, (match rename? with | some p => p :: rp | none => rp), finalName :: fs)
      else do
        let (mathPipe, aliasName) ← translateMathProjection st (.unary op a) aliasArg
        let (cp, rp, fs) ← projectionLoop st aggregated rest
        .ok (mathPipe :: cp, rp, formatFieldName aliasName :: fs)
    | .numLit v =>
      if aggregated then do
        let r' ← lookupGroupExpr st (.numLit v)
        match r' with
        | none =>
          .error (badRequest ("translator: unsupported expression " ++
            (exprTypeName (.numLit v) ++ " in aggregated select")))
        | some groupField =>
          let (rename?, finalName) := groupFieldProjection groupField aliasArg
          let (cp, rp, fs) ← projectionLoop st aggregated rest
          .ok (cp, (match rename? with | some p => p :: rp | none => rp), finalName :: fs)
      else do
        let (mathPipe, aliasName) ← translateMathProjection st (.numLit v) aliasArg
        let (cp, rp, fs) ← projectionLoop st aggregated rest
        .ok (mathPipe :: cp, rp, formatFieldName aliasName :: fs)
    | .star _ =>
      .error (badRequest ("translator: SELECT * cannot be combined with other projections"))
    | e =>
      .error (badRequest ("translator: unsupported projection expression " ++ exprTypeName e))

/-- `selectTranslatorVisitor.buildProjectionPipes`: returns
(pipes, projected fields). -/
def buildProjectionPipes (st : TransState) (columns : List SelectItem) (aggregated : Bool) :
    Except GoError (List String × List String) :=
  match columns with
  | [.mk (.star _) _] => .ok ([], [])
  | _ => do
    let (computedPipes, renamePairs, fields) ← projectionLoop st aggregated columns
    let pipes := computedPipes ++
      ((if !renamePairs.isEmpty then ["rename " ++ String.intercalate ", " renamePairs] else []) ++
       (if !fields.isEmpty && !aggregated then ["fields " ++ String.intercalate ", " fields] else []))
    .ok (pipes, fields)

/-! ## FROM resolution and JOIN classification -/

/-- `selectTranslatorVisitor.registerBaseTable` (resolution order:
CTE, then view store, then table catalog). -/
def registerBaseTable (sp : Provider) (st : TransState) (name : Option (List String))
    (aliasRaw : String) : Except GoError TransState :=
  match name with
  | none => .error (badRequest ("translator: invalid table reference"))
  | some [] => .error (badRequest ("translator: invalid table reference"))
  | some parts =>
    match parts.getLast? with
    | none => .error (badRequest ("translator: invalid table reference"))
    | some nm =>
      let nameLower := goToLower nm
      let aliasT := goTrimSpace aliasRaw
      let aliasS := if aliasT == "" then nm else aliasT
      let aliasLower := goToLower aliasS
      if !(st.baseAlias == "") && !(st.baseAlias == aliasLower) then
        .error (badRequest ("translator: multiple base tables are not supported"))
      else
        match mapGet st.availableCTEs nameLower with
        | some query =>
          let st := { st with
            baseAlias := aliasLower, baseUsesPipeline := true, basePipeline := query }
          .ok (registerBinding (registerBinding st aliasLower) nameLower)
        | none =>
          let viewLoad :=
            match sp.viewStore with
            | some fs => some (viewStoreLoad fs parts)
            | none => none
          match viewLoad with
          | some (.error e) => .error e
          | some (.ok (viewQuery, display, found)) =>
            if found then
              let st := { st with
                baseAlias := aliasLower, baseUsesPipeline := true,
                basePipeline := viewQuery, baseFilter := "" }
              .ok (registerBinding (registerBinding st aliasLower) nameLower)
            else
              match lookupTableSpec sp nameLower with
              | none =>
                .error (.translation 404 ("translator: view " ++ (display ++ " not found")))
              | some spec =>
                let st := { st with
                  baseAlias := aliasLower, baseFilter := spec.filter,
                  baseUsesPipeline := !(spec.pipeline == ""), basePipeline := spec.pipeline }
                .ok (registerBinding (registerBinding st aliasLower) nameLower)
          | none =>
            match lookupTableSpec sp nameLower with
            | none =>
              .error (.translation 404 ("translator: table " ++
                (quoteString (String.intercalate "." parts) ++
                 (" is not configured (available: " ++
                  (String.intercalate ", " sp.tableStore.listTables ++ ")")))))
            | some spec =>
              let st := { st with
                baseAlias := aliasLower, baseFilter := spec.filter,
                baseUsesPipeline := !(spec.pipeline == ""), basePipeline := spec.pipeline }
              .ok (registerBinding (registerBinding st aliasLower) nameLower)

/-- Classification of one flattened JOIN `ON` conjunct. -/
inductive JoinConjunctClass where
  | key (field : String)
  | leftFilter
  | rightFilter
deriving DecidableEq, Repr

/-- The alias-based classification at the end of `extractJoinSpec`'s loop
(Go prints the offending condition with `%v`; the model names its type). -/
def classifyByAliases (st : TransState) (rightAlias : String) (l r e : Expr) :
    Except GoError JoinConjunctClass :=
  let leftAliases := aliasesForExpr st l
  let rightAliases := aliasesForExpr st r
  if isAliasOnly leftAliases st.baseAlias && rightAliases.isEmpty then .ok .leftFilter
  else if isAliasOnly rightAliases st.baseAlias && leftAliases.isEmpty then .ok .leftFilter
  else if isAliasOnly leftAliases rightAlias && rightAliases.isEmpty then .ok .rightFilter
  else if isAliasOnly rightAliases rightAlias && leftAliases.isEmpty then .ok .rightFilter
  else if isAliasOnly leftAliases st.baseAlias && isAliasOnly rightAliases rightAlias then
    .error (badRequest ("translator: JOIN condition " ++
      (exprTypeName e ++ " must be simple equality between tables")))
  else
    .error (badRequest ("translator: unsupported JOIN condition " ++ exprTypeName e))

/-- One conjunct of `extractJoinSpec`. -/
def classifyJoinConjunct (st : TransState) (rightAlias : String) (e : Expr) :
    Except GoError JoinConjunctClass :=
  match e with
  | .binary l op r =>
    if op == "=" then
      match l, r with
      | .ident lp, .ident rp =>
        let leftQual := qualifierForIdentifier st lp
        let rightQual := qualifierForIdentifier st rp
        if leftQual == st.baseAlias && rightQual == rightAlias then do
          let leftField ← normalizeIdentifier st lp
          let rightField ← normalizeIdentifier st rp
          if !(leftField == rightField) then
            .error (badRequest ("translator: JOIN keys must use identical field names (" ++
              (leftField ++ (" vs " ++ (rightField ++ ")")))))
          else .ok (.key leftField)
        else if leftQual == rightAlias && rightQual == st.baseAlias then do
          let leftField ← normalizeIdentifier st lp
          let rightField ← normalizeIdentifier st rp
          if !(leftField == rightField) then
            .error (badRequest ("translator: JOIN keys must use identical field names (" ++
              (leftField ++ (" vs " ++ (rightField ++ ")")))))
          else .ok (.key leftField)
        else classifyByAliases st rightAlias l r (.binary l op r)
      | _, _ => classifyByAliases st rightAlias l r (.binary l op r)
    else classifyByAliases st rightAlias l r (.binary l op r)
  | e => .error (badRequest ("translator: unsupported JOIN condition " ++ exprTypeName e))

/-- The conjunct loop of `extractJoinSpec`. -/
def extractJoinSpecLoop (st : TransState) (rightAlias : String) :
    List Expr → Except GoError (List String × List Expr × List Expr)
  | [] => .ok ([], [], [])
  | e :: rest => do
    let c ← classifyJoinConjunct st rightAlias e
    let (ks, ls, rs) ← extractJoinSpecLoop st rightAlias rest
    match c with
    | .key f => .ok (f :: ks, ls, rs)
    | .leftFilter => .ok (ks, e :: ls, rs)
    | .rightFilter => .ok (ks, ls, e :: rs)

/-- `selectTranslatorVisitor.extractJoinSpec`. -/
def extractJoinSpec (st : TransState) (onCond : Option Expr) (rightAlias : String) :
    Except GoError (List String × List Expr × List Expr) :=
  match onCond with
  | none => .error (badRequest ("translator: JOIN must include ON clause"))
  | some onExpr => extractJoinSpecLoop st rightAlias (flattenAnd onExpr)

/-- The pending-left-filter loop of `translateSimpleSelect`. -/
def translatePendingLeftFilters (st : TransState) (lfs : List Expr) (acc : List String) :
    Except GoError (List String × TransState) :=
  match lfs with
  | [] => .ok (acc, st)
  | lf :: rest => do
    let _ ← ensureBaseAliasesOnly st lf
    let (s, st') ← translateExpr st lf
    translatePendingLeftFilters st' rest (acc ++ [s])

/-- The right-filter loop of `processJoin`. -/
def translateRightFilters (st : TransState) (rightAlias : String) :
    List Expr → Except GoError (List String × TransState)
  | [] => .ok ([], st)
  | e :: rest => do
    let _ ← ensureAliases st e [rightAlias]
    let (part, st') ← translateExpr st e
    let (tail, st'') ← translateRightFilters st' rightAlias rest
    .ok (part :: tail, st'')

/-! ## The SELECT translator (statement-level recursion)

Go's translator recurses into sub-statements (CTE bodies, UNION
right-hand sides, JOIN subqueries).  The embedding makes that recursion
structural on an explicit fuel counter so that the definitions compute;
`modelFuelErr` is the embedding's out-of-fuel marker, unreachable for
any input when the entry point's fuel bound is used, and irrelevant to
every theorem about `.ok` results. -/

/-- Out-of-fuel marker of the embedding (not a Go error). -/
def modelFuelErr : GoError := .plain ("model: recursion fuel exhausted")

/-- The zero value of the visitor's mutable fields, as set by a fresh
visitor and by `translateSimpleSelect`'s reset. -/
def newVisitorState (ctes : List (String × String)) : TransState :=
  { bindings := [], baseAlias := "", pendingLeftFilter := [], aggResults := none,
    groupExprAliases := none, availableCTEs := ctes, baseUsesPipeline := false,
    basePipeline := "", baseFilter := "", filterComputations := [], filterOrder := [],
    filterDelete := [] }

/-- The table-catalog branch of `processJoin`'s right-hand side. -/
def joinRightFromSpec (st : TransState) (spec : TableSpec) (ralias rightAlias nameLower : String) :
    Except GoError (String × String × Bool × List String × TransState) :=
  if goTrimSpace ralias == "" then
    .error (badRequest ("translator: JOINed table requires alias"))
  else
    let st := registerBinding (registerBinding st rightAlias) nameLower
    if !(spec.pipeline == "") then .ok (rightAlias, spec.pipeline, false, [], st)
    else
      .ok (rightAlias, "", true,
        (if !(spec.filter == "") && !(spec.filter == "*") then [spec.filter] else []), st)

mutual

/-- `translateSelectStatementToLogsQLWithContext` on a select statement:
a fresh visitor carrying the supplied CTE map. -/
def translateSelectStatement : Nat → Provider → List (String × String) → SelectStmt →
    Except GoError String
  | 0, _, _, _ => .error modelFuelErr
  | fuel + 1, sp, ctes, stmt => translateSelect fuel sp (newVisitorState ctes) stmt

/-- `translateSelectStatementToLogsQLWithContext` including its nil check. -/
def translateOptStatement : Nat → Provider → List (String × String) → Option SelectStmt →
    Except GoError String
  | 0, _, _, _ => .error modelFuelErr
  | _ + 1, _, _, none => .error (.plain ("translator: nil statement"))
  | fuel + 1, sp, ctes, some s => translateSelectStatement fuel sp ctes s

/-- `selectTranslatorVisitor.translateSelect`. -/
def translateSelect : Nat → Provider → TransState → SelectStmt → Except GoError String
  | 0, _, _, _ => .error modelFuelErr
  | fuel + 1, sp, st, .mk w d cols f wh g h o l so =>
    match so with
    | [] => do
      let (s, _) ← translateSimpleSelect fuel sp st (.mk w d cols f wh g h o l [])
      .ok s
    | op :: rest => do
      let (base, st') ← translateSimpleSelect fuel sp st (.mk w d cols f wh g h o l [])
      translateSetOpsLoop fuel sp st'.availableCTEs base (op :: rest)

/-- The set-operation loop of `translateSelect`. -/
def translateSetOpsLoop : Nat → Provider → List (String × String) → String → List SetOp →
    Except GoError String
  | 0, _, _, _, _ => .error modelFuelErr
  | _ + 1, _, _, result, [] => .ok result
  | fuel + 1, sp, ctes, result, .mk op all sel :: rest =>
    if !(op = SetOperator.union) then
      .error (badRequest ("translator: set operator " ++
        (setOperatorName op ++ " is not supported")))
    else if !all then
      .error (badRequest ("translator: UNION without ALL is not supported"))
    else
      match sel with
      | none => .error (badRequest ("translator: UNION missing right-hand select"))
      | some s => do
        let rhs ← translateSelectStatement fuel sp ctes s
        translateSetOpsLoop fuel sp ctes (result ++ (" | union (" ++ (rhs ++ ")"))) rest

/-- The CTE loop of `translateSimpleSelect`. -/
def processCTEs : Nat → Provider → List (String × String) → List CTE →
    Except GoError (List (String × String))
  | 0, _, _, _ => .error modelFuelErr
  | _ + 1, _, avail, [] => .ok avail
  | fuel + 1, sp, avail, .mk name _ sel :: rest =>
    match name with
    | none => .error (badRequest ("translator: CTE missing name"))
    | some [] => .error (badRequest ("translator: CTE missing name"))
    | some parts =>
      match sel with
      | none =>
        .error (badRequest ("translator: CTE " ++
          (String.intercalate "." parts ++ " has nil select")))
      | some s =>
        match parts.getLast? with
        | none => .error (badRequest ("translator: CTE missing name"))
        | some lastPart =>
          let nm := goToLower lastPart
          if (mapGet avail nm).isSome then
            .error (badRequest ("translator: duplicate CTE name " ++ quoteString nm))
          else
            match translateSelectStatement fuel sp avail s with
            | .error err =>
              .error (badRequest ("translator: failed to translate CTE " ++
                (nm ++ (": " ++ err.message))))
            | .ok query => processCTEs fuel sp (mapInsert avail nm query) rest

/-- `selectTranslatorVisitor.processFrom`. -/
def processFrom : Nat → Provider → TransState → Option TableExpr →
    Except GoError (List String × TransState)
  | 0, _, _, _ => .error modelFuelErr
  | _ + 1, _, _, none => .error (badRequest ("translator: FROM clause is required"))
  | _ + 1, sp, st, some (.tableName name aliasName) => do
    let st' ← registerBaseTable sp st name aliasName
    .ok ([], st')
  | fuel + 1, sp, st, some (.joinE l r jt onC) => processJoin fuel sp st l r jt onC
  | _ + 1, _, _, some (.subqueryTable _ _) =>
    .error (badRequest ("translator: unsupported FROM clause *ast.SubqueryTable"))

/-- `selectTranslatorVisitor.processJoin`. -/
def processJoin : Nat → Provider → TransState → TableExpr → TableExpr → JoinType →
    Option Expr → Except GoError (List String × TransState)
  | 0, _, _, _, _, _, _ => .error modelFuelErr
  | fuel + 1, sp, st, left, right, jt, onC =>
    if !(jt = JoinType.inner) && !(jt = JoinType.left) then
      .error (badRequest ("translator: only INNER and LEFT JOIN are supported"))
    else
      match left with
      | .tableName lname lalias => do
        let st ← registerBaseTable sp st lname lalias
        let (rightAlias, rightQuery, rightSimple, rightBaseFilters, st) ←
          (match right with
           | .tableName rname ralias =>
             (match rname with
              | none => .error (badRequest ("translator: invalid JOIN table"))
              | some [] => .error (badRequest ("translator: invalid JOIN table"))
              | some parts =>
                match parts.getLast? with
                | none => .error (badRequest ("translator: invalid JOIN table"))
                | some nm =>
                  let nameLower := goToLower nm
                  let aliasT := goTrimSpace ralias
                  let aliasS := if aliasT == "" then nm else aliasT
                  let rightAlias := goToLower aliasS
                  if st.bindings.contains rightAlias then
                    .error (badRequest ("translator: duplicate table alias " ++
                      quoteString aliasS))
                  else
                    match mapGet st.availableCTEs nameLower with
                    | some query =>
                      let st := registerBinding (registerBinding st rightAlias) nameLower
                      .ok (rightAlias, query, false, ([] : List String), st)
                    | none =>
                      let viewLoad :=
                        match sp.viewStore with
                        | some fs => some (viewStoreLoad fs parts)
                        | none => none
                      match viewLoad with
                      | some (.error e) => .error e
                      | some (.ok (viewQuery, display, found)) =>
                        if found then
                          let st := registerBinding (registerBinding st rightAlias) nameLower
                          .ok (rightAlias, viewQuery, false, ([] : List String), st)
                        else
                          (match lookupTableSpec sp nameLower with
                           | none =>
                             .error (.translation 404 ("translator: view " ++
                               (display ++ " not found")))
                           | some spec => joinRightFromSpec st spec ralias rightAlias nameLower)
                      | none =>
                        (match lookupTableSpec sp nameLower with
                         | none =>
                           .error (.translation 404 ("translator: JOIN table " ++
                             (quoteString (String.intercalate "." parts) ++
                              (" is not configured (available: " ++
                               (String.intercalate ", " sp.tableStore.listTables ++ ")")))))
                         | some spec => joinRightFromSpec st spec ralias rightAlias nameLower))
           | .subqueryTable rsel ralias =>
             let aliasT := goTrimSpace ralias
             if aliasT == "" then
               .error (badRequest ("translator: JOIN subquery requires alias"))
             else
               let rightAlias := goToLower aliasT
               if st.bindings.contains rightAlias then
                 .error (badRequest ("translator: duplicate table alias " ++ quoteString aliasT))
               else
                 let st := registerBinding st rightAlias
                 match translateOptStatement fuel sp st.availableCTEs rsel with
                 | .error err =>
                   .error (badRequest ("translator: failed to translate JOIN subquery: " ++
                     err.message))
                 | .ok subQuery => .ok (rightAlias, subQuery, false, ([] : List String), st)
           | .joinE _ _ _ _ =>
             .error (badRequest ("translator: unsupported JOIN right side *ast.JoinExpr")))
        let (joinKeys, leftFilters, rightFilters) ← extractJoinSpec st onC rightAlias
        if joinKeys.isEmpty then
          .error (badRequest ("translator: JOIN requires equality condition between tables"))
        else do
          let st := { st with pendingLeftFilter := st.pendingLeftFilter ++ leftFilters }
          let (parts, st) ← translateRightFilters st rightAlias rightFilters
          let allParts := rightBaseFilters ++ parts
          let combined :=
            match allParts with
            | [] => "*"
            | [p] => p
            | ps => "(" ++ (String.intercalate " AND " ps ++ ")")
          let rightQuery :=
            if rightSimple then combined
            else if !(combined == "*") then rightQuery ++ (" | filter " ++ combined)
            else rightQuery
          let rightQuery := if rightSimple && combined == "*" then "*" else rightQuery
          let suffix := if jt = JoinType.inner then " inner" else ""
          .ok (["join by (" ++ (String.intercalate ", " joinKeys ++
            (") (" ++ (rightQuery ++ (")" ++ suffix))))], st)
      | _ => .error (badRequest ("translator: JOIN left side must be table reference"))

/-- `selectTranslatorVisitor.translateSimpleSelect`; the returned state
carries the CTE map for the enclosing set-operation loop. -/
def translateSimpleSelect : Nat → Provider → TransState → SelectStmt →
    Except GoError (String × TransState)
  | 0, _, _, _ => .error modelFuelErr
  | fuel + 1, sp, st0, stmt => do
    let (base, pipes, st) ← translateSimpleSelectCore fuel sp st0 stmt
    if pipes.isEmpty then .ok (base, st)
    else .ok (base ++ (" | " ++ String.intercalate " | " pipes), st)

/-- The body of `translateSimpleSelect` up to the final join of `base`
and the emitted stages. -/
def translateSimpleSelectCore : Nat → Provider → TransState → SelectStmt →
    Except GoError (String × List String × TransState)
  | 0, _, _, _ => .error modelFuelErr
  | fuel + 1, sp, st0, .mk w d cols f wh g h o l so => do
    let avail ←
      match w with
      | some (.mk recursiveFlag ctes) =>
        if !ctes.isEmpty then
          if recursiveFlag then
            .error (badRequest ("translator: recursive CTEs are not supported"))
          else processCTEs fuel sp st0.availableCTEs ctes
        else .ok st0.availableCTEs
      | none => .ok st0.availableCTEs
    if !so.isEmpty then
      .error (badRequest ("translator: set operations are not supported"))
    else do
      let distinct := d
      let st := newVisitorState avail
      let (joinPipes, st) ← processFrom fuel sp st f
      let (filters, st) ←
        match wh with
        | some e => do
          let _ ← ensureBaseAliasesOnly st e
          let (s, st') ← translateExpr st e
          .ok ([s], st')
        | none => .ok (([] : List String), st)
      let (filters, st) ← translatePendingLeftFilters st st.pendingLeftFilter filters
      let baseFilterT := goTrimSpace st.baseFilter
      let filters :=
        if !(baseFilterT == "") && !(baseFilterT == "*") then baseFilterT :: filters else filters
      let filter :=
        match filters with
        | [] => "*"
        | [x] => x
        | xs => "(" ++ (String.intercalate " AND " xs ++ ")")
      let preFilterPipes := collectFilterPrefilters st
      let needsFilterPipeline := st.baseUsesPipeline || !preFilterPipes.isEmpty
      let base :=
        if needsFilterPipeline then (if st.baseUsesPipeline then st.basePipeline else "*")
        else filter
      let pipes :=
        if needsFilterPipeline then
          preFilterPipes ++
            ((if !(filter == "*") then ["filter " ++ filter] else []) ++ collectFilterCleanup st)
        else []
      let pipes := pipes ++ joinPipes
      let (statsPipes, aggregated, st) ← buildStatsPipe st g cols
      let pipes := pipes ++ statsPipes
      let (pipes, st) ←
        match h with
        | some e =>
          if !aggregated then
            .error (badRequest ("translator: HAVING requires GROUP BY with aggregates"))
          else do
            let (s, st') ← translateExpr st e
            .ok (pipes ++ ["filter " ++ s], st')
        | none => .ok (pipes, st)
      let (projectionPipes, projectionFields) ← buildProjectionPipes st cols aggregated
      let pipes := pipes ++ projectionPipes
      let pipes ←
        if distinct then do
          let distinctPipe ← buildDistinctPipe projectionFields aggregated
          .ok (if !(distinctPipe == "") then pipes ++ [distinctPipe] else pipes)
        else .ok pipes
      let pipes ←
        if !o.isEmpty then do
          let orderPipe ← translateOrderBy st o aggregated
          .ok (pipes ++ [orderPipe])
        else .ok pipes
      let pipes ←
        match l with
        | some lc => do
          let limitPipes ← translateLimit lc
          .ok (pipes ++ limitPipes)
        | none => .ok pipes
      .ok (base, pipes, st)

end

mutual

/-- Fuel sufficient for a statement: statement nesting structure with
slack for the bounded number of calls per level. -/
def stmtFuel : SelectStmt → Nat
  | .mk w _ _ f _ _ _ _ _ so => 8 + (withFuel w + (fromFuel f + setOpsFuel so))

/-- Fuel for the WITH clause. -/
def withFuel : Option WithClause → Nat
  | none => 1
  | some (.mk _ ctes) => 1 + ctesFuel ctes

/-- Fuel for a CTE list. -/
def ctesFuel : List CTE → Nat
  | [] => 1
  | .mk _ _ sel :: rest => 2 + (optStmtFuel sel + ctesFuel rest)

/-- Fuel for an optional sub-statement. -/
def optStmtFuel : Option SelectStmt → Nat
  | none => 1
  | some s => 1 + stmtFuel s

/-- Fuel for the FROM clause. -/
def fromFuel : Option TableExpr → Nat
  | none => 1
  | some t => 1 + tableFuel t

/-- Fuel for a table expression. -/
def tableFuel : TableExpr → Nat
  | .tableName _ _ => 1
  | .subqueryTable sel _ => 2 + optStmtFuel sel
  | .joinE l r _ _ => 2 + (tableFuel l + tableFuel r)

/-- Fuel for the set-operation list. -/
def setOpsFuel : List SetOp → Nat
  | [] => 1
  | .mk _ _ sel :: rest => 2 + (optStmtFuel sel + setOpsFuel rest)

end

/-- Fuel used by the entry point. -/
def translatorFuel (stmt : SelectStmt) : Nat :=
  stmtFuel stmt

/-- `TranslateSelectStatementToLogsQL`. -/
def TranslateSelectStatementToLogsQL (sp : Provider) (stmt : SelectStmt) :
    Except GoError String :=
  translateSelectStatement (translatorFuel stmt) sp [] stmt

/-! ## File-system lemmas used by the view-store claims -/

theorem mapGet_cons (a : String × String) (t : FS) (k : String) :
    mapGet (a :: t) k = if a.1 == k then some a.2 else mapGet t k := by
  by_cases hk : a.1 = k
  · simp [mapGet, List.find?, hk]
  · simp [mapGet, List.find?, show (a.1 == k) = false by simpa using hk]
theorem mapGet_filter_ne (fs : FS) (k1 k2 : String) (h : ¬ k1 = k2) :
    mapGet (fs.filter (fun p => !(p.1 == k1))) k2 = mapGet fs k2 := by
  induction fs with
  | nil => rfl
  | cons a t ih =>
    rw [List.filter_cons]
    by_cases ha : a.1 = k1
    · have h1 : (!(a.1 == k1)) = false := by simp [ha]
      have hk2 : (a.1 == k2) = false := by
        simp only [beq_eq_false_iff_ne, ne_eq]
        intro hh; rw [ha] at hh; exact h hh
      rw [h1]
      simp only [Bool.false_eq_true, if_false]
      rw [ih, mapGet_cons, hk2]
      simp
    · have h1 : (!(a.1 == k1)) = true := by simp [ha]
      rw [h1]
      simp only [if_true]
      rw [mapGet_cons, mapGet_cons, ih]
theorem fsGet_fsSet_self (fs : FS) (p c : String) : fsGet (fsSet fs p c) p = some c := by
  simp [fsGet, fsSet, mapGet, mapInsert, List.find?]
theorem fsGet_fsSet_ne (fs : FS) (p1 p2 c : String) (h : ¬ p1 = p2) :
    fsGet (fsSet fs p1 c) p2 = fsGet fs p2 := by
  show mapGet ((p1, c) :: _) p2 = _
  rw [mapGet_cons, show (p1 == p2) = false by simpa using h]
  simp only [Bool.false_eq_true, if_false]
  exact mapGet_filter_ne fs p1 p2 h
theorem fsGet_fsRemove_self (fs : FS) (p : String) : fsGet (fsRemove fs p) p = none := by
  induction fs with
  | nil => rfl
  | cons a t ih =>
    show mapGet (List.filter _ (a :: t)) p = none
    rw [List.filter_cons]
    by_cases ha : a.1 = p
    · rw [show (!(a.1 == p)) = false by simp [ha]]
      simpa using ih
    · rw [show (!(a.1 == p)) = true by simp [ha]]
      simp only [if_true]
      rw [mapGet_cons, show (a.1 == p) = false by simpa using ha]
      simpa using ih
theorem fsGet_fsRemove_ne (fs : FS) (p1 p2 : String) (h : ¬ p1 = p2) :
    fsGet (fsRemove fs p1) p2 = fsGet fs p2 :=
  mapGet_filter_ne fs p1 p2 h
theorem lock_ne_view (fileName : String) :
    ¬ (fileName ++ ".lock" = fileName ++ ".logsql") := by
  intro hh
  have h2 := congrArg String.length hh
  simp only [String.length_append] at h2
  rw [show (".lock").length = 5 from by decide, show (".logsql").length = 7 from by decide] at h2
  omega
theorem append_empty (q : String) : q ++ "" = q := by
  cases q with
  | mk l => show String.mk (l ++ []) = String.mk l; rw [List.append_nil]
theorem trimRN_concat (q : String) :
    goTrimRightRN (q ++ "\n") = goTrimRightRN q := by
  cases q with
  | mk l =>
    show String.mk (dropRightWhile _ (l ++ ['\n'])) = _
    simp [goTrimRightRN, dropRightWhile, List.dropWhile_cons]

theorem mapGet_mapInsert_self (d : List (String × String)) (k v : String) :
    mapGet (mapInsert d k v) k = some v := by
  simp [mapGet, mapInsert, List.find?]
theorem mapGet_mapInsert_ne (d : List (String × String)) (k k' v : String) (h : ¬ k = k') :
    mapGet (mapInsert d k v) k' = mapGet d k' := by
  show mapGet ((k, v) :: _) k' = _
  rw [mapGet_cons, show (k == k') = false by simpa using h]
  simp only [Bool.false_eq_true, if_false]
  exact mapGet_filter_ne d k k' h
theorem ntmGo_preserves (src : List (String × String)) :
    ∀ (dst m : List (String × String)), normalizeTableMapGo src dst = .ok m →
      ∀ k v, mapGet dst k = some v → mapGet m k = some v := by
  induction src with
  | nil => intro dst m h k v hk; cases h; exact hk
  | cons a rest ih =>
    intro dst m h k v hk
    simp only [normalizeTableMapGo] at h
    split_ifs at h with h1 h2
    · refine ih _ m h k v ?_
      by_cases hkk : goToLower (goTrimSpace a.1) = k
      · rw [← hkk] at hk
        rw [hk] at h2
        exact absurd (show (some v).isSome = true from rfl) h2
      · rw [mapGet_mapInsert_ne _ _ _ _ hkk]
        exact hk
theorem ntmGo_mem_lookup (src : List (String × String)) :
    ∀ (dst m : List (String × String)), normalizeTableMapGo src dst = .ok m →
      ∀ p, p ∈ src → mapGet m (goToLower (goTrimSpace p.1)) = some (goTrimSpace p.2) := by
  induction src with
  | nil => intro dst m h p hp; cases hp
  | cons a rest ih =>
    intro dst m h p hp
    simp only [normalizeTableMapGo] at h
    split_ifs at h with h1 h2
    · rcases List.mem_cons.mp hp with hpa | hpr
      · subst hpa
        exact ntmGo_preserves rest _ m h _ _ (mapGet_mapInsert_self _ _ _)
      · exact ih _ m h p hpr
theorem ntmGo_no_empty (src : List (String × String)) :
    ∀ (dst m : List (String × String)), normalizeTableMapGo src dst = .ok m →
      ∀ p, p ∈ src → ¬ goTrimSpace p.1 = "" := by
  induction src with
  | nil => intro dst m h p hp; cases hp
  | cons a rest ih =>
    intro dst m h p hp
    simp only [normalizeTableMapGo] at h
    split_ifs at h with h1 h2
    · rcases List.mem_cons.mp hp with hpa | hpr
      · subst hpa
        intro hemp
        rw [hemp] at h1
        exact h1 (by rfl)
      · exact ih _ m h p hpr
theorem ntmGo_nodup (src : List (String × String)) :
    ∀ (dst m : List (String × String)), normalizeTableMapGo src dst = .ok m →
      (src.map (fun p => goToLower (goTrimSpace p.1))).Nodup ∧
      ∀ p, p ∈ src → mapGet dst (goToLower (goTrimSpace p.1)) = none := by
  induction src with
  | nil => intro dst m h; exact ⟨List.nodup_nil, fun p hp => absurd hp (List.not_mem_nil p)⟩
  | cons a rest ih =>
    intro dst m h
    simp only [normalizeTableMapGo] at h
    split_ifs at h with h1 h2
    · obtain ⟨hnd, hnone⟩ := ih _ m h
      constructor
      · rw [List.map_cons, List.nodup_cons]
        refine ⟨?_, hnd⟩
        intro hmem
        obtain ⟨p, hp, hkey⟩ := List.mem_map.mp hmem
        have := hnone p hp
        rw [hkey] at this
        rw [mapGet_mapInsert_self] at this
        cases this
      · intro p hp
        rcases List.mem_cons.mp hp with hpa | hpr
        · subst hpa
          exact Option.not_isSome_iff_eq_none.mp h2
        · have := hnone p hpr
          by_cases hkk : goToLower (goTrimSpace a.1) = goToLower (goTrimSpace p.1)
          · rw [← hkk] at this
            rw [mapGet_mapInsert_self] at this
            cases this
          · rw [mapGet_mapInsert_ne _ _ _ _ hkk] at this
            exact this

/-- Whether a select item is a top-level aggregate call (the only form
`statsColumnsLoop` treats as an aggregate). -/
def selectItemIsAggregate : SelectItem → Bool
  | .mk (.funcCall name _ _ over) _ => !over.isSome && isAggregateFunction name
  | _ => false
/-- With GROUP BY present, a column loop run over aggregate-free columns
can only succeed with an empty aggregate list. -/
theorem statsColumnsLoop_noAgg (columns : List SelectItem) :
    ∀ (st : TransState) (gl : List String) (len : Nat) (r : Option (List AggItem)),
      statsColumnsLoop st true gl len columns = .ok r →
      (∀ item ∈ columns, selectItemIsAggregate item = false) →
      r = some [] := by
  induction columns with
  | nil => intro st gl len r h _; cases h; rfl
  | cons item rest ih =>
    intro st gl len r h hna
    have hrest : ∀ it ∈ rest, selectItemIsAggregate it = false :=
      fun it hit => hna it (List.mem_cons_of_mem _ hit)
    obtain ⟨e, al⟩ := item
    have hhead := hna ⟨e, al⟩ (List.mem_cons_self _ _)
    cases e with
    | star t =>
      simp only [statsColumnsLoop] at h
      split_ifs at h
    | ident parts =>
      cases hn : normalizeIdentifier st parts with
      | error e2 =>
        simp only [statsColumnsLoop, Bool.not_true, Bool.false_eq_true, if_false,
          bind, Except.bind, hn] at h
        cases h
      | ok field =>
        simp only [statsColumnsLoop, Bool.not_true, Bool.false_eq_true, if_false,
          bind, Except.bind, hn] at h
        split_ifs at h
        exact ih st gl len r h hrest
    | funcCall name dis args over =>
      cases over with
      | some w =>
        simp only [statsColumnsLoop, Option.isSome_some, if_true] at h
        cases h
      | none =>
        have hagg : isAggregateFunction name = false := by
          simpa [selectItemIsAggregate] using hhead
        cases hl : lookupGroupExpr st (.funcCall name dis args none) with
        | error e2 =>
          simp only [statsColumnsLoop, Option.isSome_none, Bool.false_eq_true, if_false,
            hagg, if_true, bind, Except.bind, hl] at h
          cases h
        | ok opt =>
          simp only [statsColumnsLoop, Option.isSome_none, Bool.false_eq_true, if_false,
            hagg, if_true, bind, Except.bind, hl] at h
          cases opt with
          | some g => exact ih st gl len r h hrest
          | none => simp at h
    | binary l op rr =>
      cases hl : lookupGroupExpr st (.binary l op rr) with
      | error e2 =>
        simp only [statsColumnsLoop, if_true, bind, Except.bind, hl] at h
        cases h
      | ok opt =>
        simp only [statsColumnsLoop, if_true, bind, Except.bind, hl] at h
        cases opt with
        | some g => exact ih st gl len r h hrest
        | none => simp at h
    | unary op a =>
      cases hl : lookupGroupExpr st (.unary op a) with
      | error e2 =>
        simp only [statsColumnsLoop, if_true, bind, Except.bind, hl] at h
        cases h
      | ok opt =>
        simp only [statsColumnsLoop, if_true, bind, Except.bind, hl] at h
        cases opt with
        | some g => exact ih st gl len r h hrest
        | none => simp at h
    | numLit v =>
      cases hl : lookupGroupExpr st (.numLit v) with
      | error e2 =>
        simp only [statsColumnsLoop, if_true, bind, Except.bind, hl] at h
        cases h
      | ok opt =>
        simp only [statsColumnsLoop, if_true, bind, Except.bind, hl] at h
        cases opt with
        | some g => exact ih st gl len r h hrest
        | none => simp at h
    | strLit v => simp only [statsColumnsLoop, if_true] at h; cases h
    | boolLit b => simp only [statsColumnsLoop, if_true] at h; cases h
    | nullLit => simp only [statsColumnsLoop, if_true] at h; cases h
    | placeholder sy => simp only [statsColumnsLoop, if_true] at h; cases h
    | betweenE a b c dn => simp only [statsColumnsLoop, if_true] at h; cases h
    | inE a dn sub lst => simp only [statsColumnsLoop, if_true] at h; cases h
    | likeE a dn p => simp only [statsColumnsLoop, if_true] at h; cases h
    | isNullE a dn => simp only [statsColumnsLoop, if_true] at h; cases h
    | existsE dn sub => simp only [statsColumnsLoop, if_true] at h; cases h
    | subqueryE sub => simp only [statsColumnsLoop, if_true] at h; cases h
    | caseE operand whens els => simp only [statsColumnsLoop, if_true] at h; cases h

/-! ## Stage-shape analysis for the projection claim

`isFieldsStage` recognises a `fields` stage, `isTrailStage` the
stages the translator may emit after the projection (uniq, sort,
offset, limit).  `FCClean` states that every filter computation
recorded in the state carries only non-`fields` pipes; it is an
invariant of the whole filter-lowering pass. -/

def isFieldsStage (p : String) : Bool :=
  match p.data with
  | 'f' :: 'i' :: 'e' :: 'l' :: 'd' :: 's' :: ' ' :: _ => true
  | _ => false
def isTrailStage (p : String) : Bool :=
  match p.data with
  | 'u' :: 'n' :: 'i' :: 'q' :: ' ' :: _ => true
  | 's' :: 'o' :: 'r' :: 't' :: ' ' :: _ => true
  | 'o' :: 'f' :: 'f' :: 's' :: 'e' :: 't' :: ' ' :: _ => true
  | 'l' :: 'i' :: 'm' :: 'i' :: 't' :: ' ' :: _ => true
  | _ => false
def itemIsStar : SelectItem → Bool
  | .mk (.star _) _ => true
  | _ => false
def FCClean (st : TransState) : Prop :=
  ∀ kc ∈ st.filterComputations, ∀ p ∈ kc.2.pipes, isFieldsStage p = false
def pipesClean (l : List String) : Prop := ∀ p ∈ l, isFieldsStage p = false
theorem trimFunction_pipes_clean (st : TransState) (k : String) (parts : List String) (al : String)
    (ps : List String) (a : String) (h : translateTrimFunction st k parts al = .ok (ps, a)) :
    pipesClean ps := by
  simp only [translateTrimFunction, bind, Except.bind] at h
  cases h1 : rawFieldName st parts with
  | error e => simp only [h1] at h; cases h
  | ok rf =>
    simp only [h1] at h
    cases h2 : makeProjectionAlias (goTrimSpace al) (goToLower k) rf with
    | error e => simp only [h2] at h; cases h
    | ok an =>
      simp only [h2] at h
      cases h3 : buildTrimPattern k an with
      | error e => simp only [h3] at h; cases h
      | ok pt =>
        simp only [h3, Except.ok.injEq, Prod.mk.injEq] at h
        obtain ⟨hps, ha⟩ := h
        subst hps
        intro p hp
        simp only [List.mem_singleton] at hp
        subst hp
        rfl
theorem substringFunction_pipes_clean (st : TransState) (args : List Expr) (al : String)
    (ps : List String) (a : String)
    (h : translateSubstringFunction st args al = .ok (ps, a)) : pipesClean ps := by
  simp only [translateSubstringFunction, bind, Except.bind] at h
  repeat' split at h
  all_goals try cases h
  all_goals intro p hp
  all_goals simp only [List.mem_singleton] at hp
  all_goals subst hp
  all_goals rfl
theorem concatFunction_pipes_clean (st : TransState) (args : List Expr) (al : String)
    (ps : List String) (a : String)
    (h : translateConcatFunction st args al = .ok (ps, a)) : pipesClean ps := by
  simp only [translateConcatFunction, bind, Except.bind] at h
  repeat' split at h
  all_goals try cases h
  all_goals intro p hp
  all_goals simp only [List.mem_singleton] at hp
  all_goals subst hp
  all_goals rfl
theorem replaceFunction_pipes_clean (st : TransState) (args : List Expr) (al : String)
    (ps : List String) (a : String)
    (h : translateReplaceFunction st args al = .ok (ps, a)) : pipesClean ps := by
  simp only [translateReplaceFunction, bind, Except.bind] at h
  repeat' split at h
  all_goals try cases h
  all_goals intro p hp
  all_goals simp only [List.mem_cons, List.not_mem_nil, or_false] at hp
  all_goals rcases hp with rfl | rfl
  all_goals rfl
theorem currentTimestamp_pipes_clean (al : String) (ps : List String) (a : String)
    (h : translateCurrentTimestamp al = .ok (ps, a)) : pipesClean ps := by
  simp only [translateCurrentTimestamp, bind, Except.bind] at h
  repeat' split at h
  all_goals try cases h
  all_goals intro p hp
  all_goals simp only [List.mem_cons, List.not_mem_nil, or_false] at hp
  all_goals rcases hp with rfl | rfl | rfl
  all_goals rfl
theorem currentDate_pipes_clean (al : String) (ps : List String) (a : String)
    (h : translateCurrentDate al = .ok (ps, a)) : pipesClean ps := by
  simp only [translateCurrentDate, bind, Except.bind] at h
  repeat' split at h
  all_goals try cases h
  all_goals intro p hp
  all_goals simp only [List.mem_cons, List.not_mem_nil, or_false] at hp
  all_goals rcases hp with rfl | rfl | rfl | rfl
  all_goals rfl
theorem mathProjection_not_fields (st : TransState) (e : Expr) (al : String) (p : String) (a : String)
    (h : translateMathProjection st e al = .ok (p, a)) : isFieldsStage p = false := by
  simp only [translateMathProjection, bind, Except.bind] at h
  repeat' split at h
  all_goals try cases h
  all_goals rfl
theorem translateOrderBy_shape (st : TransState) (items : List OrderItem) (agg : Bool) (s : String)
    (h : translateOrderBy st items agg = .ok s) :
    isFieldsStage s = false ∧ isTrailStage s = true := by
  simp only [translateOrderBy, bind, Except.bind] at h
  cases hc : translateOrderByItems st agg items with
  | error e => simp only [hc] at h; cases h
  | ok cl => simp only [hc] at h; cases h; exact ⟨rfl, rfl⟩
theorem windowFunction_pipes_clean (st : TransState) (name : List String) (dis : Bool) (args : List Expr)
    (over : Option WindowSpec) (al : String) (ps : List String) (a : String)
    (h : translateWindowFunction st name dis args over al = .ok (ps, a)) : pipesClean ps := by
  simp only [translateWindowFunction, bind, Except.bind] at h
  repeat' split at h
  all_goals try cases h
  all_goals intro p hp
  all_goals simp only [List.nil_append, List.cons_append, List.mem_cons, List.mem_singleton,
    List.not_mem_nil, or_false, false_or] at hp
  all_goals first
    | (subst hp; rfl)
    | (rcases hp with rfl | rfl
       · exact (translateOrderBy_shape _ _ _ _ (by assumption)).1
       · rfl)
theorem stringFunction_pipes_clean (st : TransState) (name : List String) (args : List Expr)
    (al : String) (b : Bool) (ps : List String) (a : String)
    (h : translateStringFunction st name args al = (b, .ok (ps, a))) : pipesClean ps := by
  simp only [translateStringFunction, bind, Except.bind] at h
  repeat' split at h
  all_goals simp only [Prod.mk.injEq] at h
  all_goals obtain ⟨hb, hr⟩ := h
  all_goals first
    | cases hr
    | exact trimFunction_pipes_clean _ _ _ _ _ _ hr
    | exact substringFunction_pipes_clean _ _ _ _ _ hr
    | exact concatFunction_pipes_clean _ _ _ _ _ hr
    | exact replaceFunction_pipes_clean _ _ _ _ _ hr
    | exact currentTimestamp_pipes_clean _ _ _ hr
    | exact currentDate_pipes_clean _ _ _ hr
  all_goals intro p hp
  all_goals simp only [List.mem_singleton, List.not_mem_nil] at hp
  all_goals first
    | exact hp.elim
    | (subst hp; rfl)
theorem ensureFilterFunctionAlias_clean (st : TransState) (name : List String) (dis : Bool) (args : List Expr)
    (over : Option WindowSpec) (s : String) (st' : TransState)
    (hc : FCClean st)
    (h : ensureFilterFunctionAlias st name dis args over = .ok (s, st')) : FCClean st' := by
  simp only [ensureFilterFunctionAlias] at h
  split_ifs at h with h1 h2 h3
  · cases hrender : render (.funcCall name dis args over) with
    | error e => simp only [hrender] at h; cases h
    | ok key =>
      simp only [hrender] at h
      cases hfc : fcGet st.filterComputations key with
      | some comp =>
        simp only [hfc] at h
        cases h
        exact hc
      | none =>
        simp only [hfc] at h
        cases h
  · cases hrender : render (.funcCall name dis args over) with
    | error e => simp only [hrender] at h; cases h
    | ok key =>
      simp only [hrender] at h
      cases hfc : fcGet st.filterComputations key with
      | some comp =>
        simp only [hfc] at h
        cases h
        exact hc
      | none =>
        simp only [hfc] at h
        split at h
        · cases h
        · rename_i pipes aliasName heq
          cases h
          intro kc hkc
          simp only [List.mem_append, List.mem_singleton] at hkc
          rcases hkc with hkc | rfl
          · exact hc kc hkc
          · exact stringFunction_pipes_clean st name args
              ("__filter_expr_" ++ toString (st.filterOrder.length + 1))
              (translateStringFunction st name args
                ("__filter_expr_" ++ toString (st.filterOrder.length + 1))).1
              pipes aliasName (Prod.ext rfl heq)
theorem fieldNameFromExpr_clean (st : TransState) (e : Expr) (r : Option String) (st' : TransState)
    (hc : FCClean st) (h : fieldNameFromExpr st e = .ok (r, st')) : FCClean st' := by
  cases e with
  | ident parts =>
    simp only [fieldNameFromExpr, bind, Except.bind] at h
    cases hn : normalizeIdentifier st parts with
    | error e2 => simp only [hn] at h; cases h
    | ok n => simp only [hn] at h; cases h; exact hc
  | funcCall name dis args over =>
    simp only [fieldNameFromExpr, bind, Except.bind] at h
    cases hagg : st.aggResults with
    | some m =>
      simp only [hagg] at h
      split_ifs at h with h1
      · cases hk : aggregateKeyFromFunc st name args with
        | error e2 => simp only [hk] at h; cases h
        | ok key =>
          simp only [hk] at h
          cases hm : mapGet m key with
          | none => simp only [hm] at h; cases h
          | some n => simp only [hm] at h; cases h; exact hc
      · cases hl : lookupGroupExpr st (.funcCall name dis args over) with
        | error e2 => simp only [hl] at h; cases h
        | ok ropt =>
          simp only [hl] at h
          cases ropt with
          | some gf => cases h; exact hc
          | none => cases h
    | none =>
      simp only [hagg] at h
      cases heffa : ensureFilterFunctionAlias st name dis args over with
      | error e2 => simp only [heffa] at h; cases h
      | ok pr =>
        obtain ⟨an, st2⟩ := pr
        simp only [heffa] at h
        cases h
        exact ensureFilterFunctionAlias_clean _ _ _ _ _ _ _ hc heffa
  | numLit v => simp only [fieldNameFromExpr] at h; cases h; exact hc
  | strLit v => simp only [fieldNameFromExpr] at h; cases h; exact hc
  | boolLit b => simp only [fieldNameFromExpr] at h; cases h; exact hc
  | nullLit => simp only [fieldNameFromExpr] at h; cases h; exact hc
  | placeholder sy => simp only [fieldNameFromExpr] at h; cases h; exact hc
  | binary l op rr => simp only [fieldNameFromExpr] at h; cases h; exact hc
  | unary op a => simp only [fieldNameFromExpr] at h; cases h; exact hc
  | star t => simp only [fieldNameFromExpr] at h; cases h; exact hc
  | betweenE a b c dn => simp only [fieldNameFromExpr] at h; cases h; exact hc
  | inE a dn sub lst => simp only [fieldNameFromExpr] at h; cases h; exact hc
  | likeE a dn p => simp only [fieldNameFromExpr] at h; cases h; exact hc
  | isNullE a dn => simp only [fieldNameFromExpr] at h; cases h; exact hc
  | existsE dn sub => simp only [fieldNameFromExpr] at h; cases h; exact hc
  | subqueryE sub => simp only [fieldNameFromExpr] at h; cases h; exact hc
  | caseE operand whens els => simp only [fieldNameFromExpr] at h; cases h; exact hc
theorem filterFieldFromExpr_clean (st : TransState) (e : Expr) (f : String) (st' : TransState)
    (hc : FCClean st) (h : filterFieldFromExpr st e = .ok (f, st')) : FCClean st' := by
  simp only [filterFieldFromExpr, bind, Except.bind] at h
  cases hf : fieldNameFromExpr st e with
  | error e2 => simp only [hf] at h; cases h
  | ok pr =>
    obtain ⟨opt, st2⟩ := pr
    simp only [hf] at h
    cases opt with
    | none => cases h
    | some field => cases h; exact fieldNameFromExpr_clean _ _ _ _ hc hf
theorem extractFieldAndLiteral_clean (st : TransState) (l r : Expr) (f : String) (lit : LiteralValue)
    (fl : Bool) (st' : TransState) (hc : FCClean st)
    (h : extractFieldAndLiteral st l r = .ok (f, lit, fl, st')) : FCClean st' := by
  simp only [extractFieldAndLiteral, bind, Except.bind] at h
  cases hf1 : fieldNameFromExpr st l with
  | error e2 => simp only [hf1] at h; cases h
  | ok pr1 =>
    obtain ⟨opt1, st1⟩ := pr1
    simp only [hf1] at h
    cases opt1 with
    | some name =>
      cases hl : literalFromExpr r with
      | error e2 => simp only [hl] at h; cases h
      | ok litv => simp only [hl] at h; cases h; exact fieldNameFromExpr_clean _ _ _ _ hc hf1
    | none =>
      cases hf2 : fieldNameFromExpr st1 r with
      | error e2 => simp only [hf2] at h; cases h
      | ok pr2 =>
        obtain ⟨opt2, st2⟩ := pr2
        simp only [hf2] at h
        cases opt2 with
        | some name =>
          cases hl : literalFromExpr l with
          | error e2 => simp only [hl] at h; cases h
          | ok litv =>
            simp only [hl] at h
            cases h
            exact fieldNameFromExpr_clean _ _ _ _ (fieldNameFromExpr_clean _ _ _ _ hc hf1) hf2
        | none => cases h
theorem translateComparison_clean (st : TransState) (l r : Expr) (cmp : ComparisonKind) (s : String)
    (st' : TransState) (hc : FCClean st)
    (h : translateComparison st l r cmp = .ok (s, st')) : FCClean st' := by
  simp only [translateComparison, bind, Except.bind] at h
  cases he : extractFieldAndLiteral st l r with
  | error e2 => simp only [he] at h; cases h
  | ok q =>
    obtain ⟨f, lit, fl, st1⟩ := q
    simp only [he] at h
    have h1 := extractFieldAndLiteral_clean _ _ _ _ _ _ _ hc he
    cases cmp with
    | eq => cases h; exact h1
    | ne => cases h; exact h1
    | gt => split_ifs at h <;> (try cases h) <;> exact h1
    | ge => split_ifs at h <;> (try cases h) <;> exact h1
    | lt => split_ifs at h <;> (try cases h) <;> exact h1
    | le => split_ifs at h <;> (try cases h) <;> exact h1
theorem translateBetweenExpr_clean (st : TransState) (e lo hi : Expr) (isNot : Bool) (s : String)
    (st' : TransState) (hc : FCClean st)
    (h : translateBetweenExpr st e lo hi isNot = .ok (s, st')) : FCClean st' := by
  simp only [translateBetweenExpr, bind, Except.bind] at h
  cases hf : filterFieldFromExpr st e with
  | error e2 => simp only [hf] at h; cases h
  | ok pr =>
    obtain ⟨field, st1⟩ := pr
    simp only [hf] at h
    have h1 := filterFieldFromExpr_clean _ _ _ _ hc hf
    cases hlo : literalFromExpr lo with
    | error e2 => simp only [hlo] at h; cases h
    | ok l1 =>
      simp only [hlo] at h
      cases hhi : literalFromExpr hi with
      | error e2 => simp only [hhi] at h; cases h
      | ok l2 =>
        simp only [hhi] at h
        cases isNot with
        | true => cases h; exact h1
        | false => cases h; exact h1
theorem translateInExpr_clean (st : TransState) (e : Expr) (isNot : Bool) (sub : Option SelectStmt)
    (list : List Expr) (s : String) (st' : TransState) (hc : FCClean st)
    (h : translateInExpr st e isNot sub list = .ok (s, st')) : FCClean st' := by
  cases sub with
  | some q => simp only [translateInExpr] at h; cases h
  | none =>
    simp only [translateInExpr, bind, Except.bind] at h
    cases hf : filterFieldFromExpr st e with
    | error e2 => simp only [hf] at h; cases h
    | ok pr =>
      obtain ⟨field, st1⟩ := pr
      simp only [hf] at h
      have h1 := filterFieldFromExpr_clean _ _ _ _ hc hf
      split_ifs at h <;>
        (cases hv : inListValues list with
         | error e2 => simp only [hv] at h; cases h
         | ok vals => simp only [hv] at h; cases h; exact h1)
theorem translateLikeExpr_clean (st : TransState) (e : Expr) (isNot : Bool) (pat : Expr) (s : String)
    (st' : TransState) (hc : FCClean st)
    (h : translateLikeExpr st e isNot pat = .ok (s, st')) : FCClean st' := by
  simp only [translateLikeExpr, bind, Except.bind] at h
  cases hf : filterFieldFromExpr st e with
  | error e2 => simp only [hf] at h; cases h
  | ok pr =>
    obtain ⟨field, st1⟩ := pr
    simp only [hf] at h
    have h1 := filterFieldFromExpr_clean _ _ _ _ hc hf
    cases hl : literalFromExpr pat with
    | error e2 => simp only [hl] at h; cases h
    | ok lit =>
      simp only [hl] at h
      split_ifs at h <;> cases h <;> exact h1
theorem translateIsNullExpr_clean (st : TransState) (e : Expr) (isNot : Bool) (s : String)
    (st' : TransState) (hc : FCClean st)
    (h : translateIsNullExpr st e isNot = .ok (s, st')) : FCClean st' := by
  simp only [translateIsNullExpr, bind, Except.bind] at h
  cases hf : filterFieldFromExpr st e with
  | error e2 => simp only [hf] at h; cases h
  | ok pr =>
    obtain ⟨field, st1⟩ := pr
    simp only [hf] at h
    have h1 := filterFieldFromExpr_clean _ _ _ _ hc hf
    cases isNot with
    | true => cases h; exact h1
    | false => cases h; exact h1
theorem translateExpr_clean (e : Expr) (st : TransState) (s : String) (st' : TransState)
    (hc : FCClean st) (h : translateExpr st e = .ok (s, st')) : FCClean st' := by
  cases e with
  | binary l op r =>
    simp only [translateExpr, bind, Except.bind] at h
    split_ifs at h with h1
    · cases htl : translateExpr st l with
      | error e2 => simp only [htl] at h; cases h
      | ok pr1 =>
        obtain ⟨left, st1⟩ := pr1
        simp only [htl] at h
        cases htr : translateExpr st1 r with
        | error e2 => simp only [htr] at h; cases h
        | ok pr2 =>
          obtain ⟨right, st2⟩ := pr2
          simp only [htr] at h
          cases h
          exact translateExpr_clean r st1 _ _ (translateExpr_clean l st _ _ hc htl) htr
    all_goals first
      | cases h
      | exact translateComparison_clean _ _ _ _ _ _ hc h
  | unary op a =>
    simp only [translateExpr, bind, Except.bind] at h
    split_ifs at h with h1
    · cases hta : translateExpr st a with
      | error e2 => simp only [hta] at h; cases h
      | ok pr =>
        obtain ⟨inner, st1⟩ := pr
        simp only [hta] at h
        cases h
        exact translateExpr_clean a st _ _ hc hta
  | inE a isNot sub lst =>
    simp only [translateExpr] at h
    exact translateInExpr_clean _ _ _ _ _ _ _ hc h
  | likeE a isNot p =>
    simp only [translateExpr] at h
    exact translateLikeExpr_clean _ _ _ _ _ _ hc h
  | isNullE a isNot =>
    simp only [translateExpr] at h
    exact translateIsNullExpr_clean _ _ _ _ _ hc h
  | betweenE a lo hi isNot =>
    simp only [translateExpr] at h
    exact translateBetweenExpr_clean _ _ _ _ _ _ _ hc h
  | funcCall name dis args over =>
    simp only [translateExpr, bind, Except.bind] at h
    cases hagg : st.aggResults with
    | none => simp only [hagg] at h; cases h
    | some m =>
      simp only [hagg] at h
      cases hk : aggregateKeyFromFunc st name args with
      | error e2 => simp only [hk] at h; cases h
      | ok key =>
        simp only [hk] at h
        cases hm : mapGet m key with
        | none => simp only [hm] at h; cases h
        | some n => simp only [hm] at h; cases h; exact hc
  | ident parts =>
    simp only [translateExpr, bind, Except.bind] at h
    cases hn : normalizeIdentifier st parts with
    | error e2 => simp only [hn] at h; cases h
    | ok n => simp only [hn] at h; cases h; exact hc
  | strLit v => simp only [translateExpr] at h; cases h; exact hc
  | numLit v => simp only [translateExpr] at h; cases h; exact hc
  | boolLit b => simp only [translateExpr] at h; cases h; exact hc
  | nullLit => simp only [translateExpr] at h; cases h
  | placeholder sy => simp only [translateExpr] at h; cases h
  | star t => simp only [translateExpr] at h; cases h
  | existsE dn sub => simp only [translateExpr] at h; cases h
  | subqueryE sub => simp only [translateExpr] at h; cases h
  | caseE operand whens els => simp only [translateExpr] at h; cases h
termination_by sizeOf e
theorem registerBinding_comps (st : TransState) (al : String) :
    (registerBinding st al).filterComputations = st.filterComputations := by
  simp only [registerBinding]
  split_ifs <;> rfl
theorem pendingLeftFilters_clean (lfs : List Expr) : ∀ (st : TransState) (acc fl : List String)
    (st' : TransState), FCClean st →
    translatePendingLeftFilters st lfs acc = .ok (fl, st') → FCClean st' := by
  induction lfs with
  | nil => intro st acc fl st' hc h; cases h; exact hc
  | cons lf rest ih =>
    intro st acc fl st' hc h
    simp only [translatePendingLeftFilters, bind, Except.bind] at h
    cases hb : ensureBaseAliasesOnly st lf with
    | error e2 => simp only [hb] at h; cases h
    | ok u =>
      simp only [hb] at h
      cases ht : translateExpr st lf with
      | error e2 => simp only [ht] at h; cases h
      | ok pr =>
        obtain ⟨s1, st1⟩ := pr
        simp only [ht] at h
        exact ih st1 _ _ _ (translateExpr_clean lf st _ _ hc ht) h
theorem rightFilters_clean (es : List Expr) : ∀ (st : TransState) (ra : String)
    (out : List String) (st' : TransState), FCClean st →
    translateRightFilters st ra es = .ok (out, st') → FCClean st' := by
  induction es with
  | nil => intro st ra out st' hc h; cases h; exact hc
  | cons e rest ih =>
    intro st ra out st' hc h
    simp only [translateRightFilters, bind, Except.bind] at h
    cases hb : ensureAliases st e [ra] with
    | error e2 => simp only [hb] at h; cases h
    | ok u =>
      simp only [hb] at h
      cases ht : translateExpr st e with
      | error e2 => simp only [ht] at h; cases h
      | ok pr =>
        obtain ⟨s1, st1⟩ := pr
        simp only [ht] at h
        cases hr : translateRightFilters st1 ra rest with
        | error e2 => simp only [hr] at h; cases h
        | ok pr2 =>
          obtain ⟨tail, st2⟩ := pr2
          simp only [hr] at h
          cases h
          exact ih st1 _ _ _ (translateExpr_clean e st _ _ hc ht) hr
theorem registerBaseTable_comps (sp : Provider) (st : TransState) (name : Option (List String))
    (al : String) (st' : TransState) (h : registerBaseTable sp st name al = .ok st') :
    st'.filterComputations = st.filterComputations := by
  simp only [registerBaseTable] at h
  repeat' split at h
  all_goals try cases h
  all_goals rw [registerBinding_comps, registerBinding_comps]
theorem rightFiltersPair_clean (es : List Expr) (st : TransState) (ra : String)
    (pr : List String × TransState) (hc : FCClean st)
    (h : translateRightFilters st ra es = .ok pr) : FCClean pr.2 := by
  obtain ⟨out, st2⟩ := pr
  exact rightFilters_clean es st ra out st2 hc h
theorem joinRightFromSpec_comps (st : TransState) (spec : TableSpec) (ra ral nl : String)
    (q1 q2 : String) (bb : Bool) (fl : List String) (stx : TransState)
    (h : joinRightFromSpec st spec ra ral nl = .ok (q1, q2, bb, fl, stx)) :
    stx.filterComputations = st.filterComputations := by
  simp only [joinRightFromSpec] at h
  repeat' split at h
  all_goals try cases h
  all_goals rw [registerBinding_comps, registerBinding_comps]
theorem processJoin_clean (fuel : Nat) (sp : Provider) (st : TransState) (l r : TableExpr)
    (jt : JoinType) (onC : Option Expr) (jp : List String) (st' : TransState)
    (hc : FCClean st) (h : processJoin fuel sp st l r jt onC = .ok (jp, st')) :
    FCClean st' ∧ pipesClean jp := by
  cases fuel with
  | zero => cases h
  | succ n =>
    simp only [processJoin, bind, Except.bind] at h
    cases hjt : (!decide (jt = JoinType.inner) && !decide (jt = JoinType.left)) with
    | true => simp only [hjt, if_true] at h; cases h
    | false =>
    simp only [hjt, Bool.false_eq_true, if_false] at h
    cases l with
    | subqueryTable q a => cases h
    | joinE a b c d => cases h
    | tableName lname lalias =>
      cases hrbt : registerBaseTable sp st lname lalias with
      | error e => simp only [hrbt] at h; cases h
      | ok st1 =>
        simp only [hrbt] at h
        have hc1 : FCClean st1 := by
          intro kc hkc
          rw [registerBaseTable_comps _ _ _ _ _ hrbt] at hkc
          exact hc kc hkc
        cases r with
        | joinE a b c d => simp only [] at h; cases h
        | subqueryTable rsel ralias =>
          cases halias : (goTrimSpace ralias == "") with
          | true => simp only [halias, if_true] at h; cases h
          | false =>
          simp only [halias, Bool.false_eq_true, if_false] at h
          cases hdup : st1.bindings.contains (goToLower (goTrimSpace ralias)) with
          | true => simp only [hdup, if_true] at h; cases h
          | false =>
          simp only [hdup, Bool.false_eq_true, if_false] at h
          cases hts : translateOptStatement n sp
              (registerBinding st1 (goToLower (goTrimSpace ralias))).availableCTEs rsel with
          | error e => simp only [hts] at h; cases h
          | ok subQuery =>
            simp only [hts] at h
            repeat' split at h
            all_goals try cases h
            all_goals refine ⟨?_, ?_⟩
            all_goals try (intro p hp; simp only [List.mem_singleton] at hp; subst hp; rfl)
            all_goals refine rightFiltersPair_clean _ _ _ _ ?_ (by assumption)
            all_goals intro kc hkc
            all_goals simp only [registerBinding_comps] at hkc
            all_goals exact hc1 kc hkc
        | tableName rname ralias =>
          cases rname with
          | none => simp only [] at h; cases h
          | some parts =>
            cases parts with
            | nil => simp only [] at h; cases h
            | cons p0 prest =>
              cases hg : (p0 :: prest).getLast? with
              | none => simp only [hg] at h; cases h
              | some nm =>
                simp only [hg] at h
                cases hdup : st1.bindings.contains
                    (goToLower (if (goTrimSpace ralias == "") = true then nm
                      else goTrimSpace ralias)) with
                | true => simp only [hdup, if_true] at h; cases h
                | false =>
                simp only [hdup, Bool.false_eq_true, if_false] at h
                cases hcte : mapGet st1.availableCTEs (goToLower nm) with
                | some query =>
                  simp only [hcte] at h
                  repeat' split at h
                  all_goals try cases h
                  all_goals refine ⟨?_, ?_⟩
                  all_goals try (intro p hp; simp only [List.mem_singleton] at hp; subst hp; rfl)
                  all_goals refine rightFiltersPair_clean _ _ _ _ ?_ (by assumption)
                  all_goals intro kc hkc
                  all_goals simp only [registerBinding_comps] at hkc
                  all_goals exact hc1 kc hkc
                | none =>
                  simp only [hcte] at h
                  cases hvs : sp.viewStore with
                  | some fs =>
                    simp only [hvs] at h
                    cases hvl : viewStoreLoad fs (p0 :: prest) with
                    | error e => simp only [hvl] at h; cases h
                    | ok tr =>
                      obtain ⟨vq, disp, found⟩ := tr
                      simp only [hvl] at h
                      cases found with
                      | true =>
                        simp only [if_true] at h
                        repeat' split at h
                        all_goals try cases h
                        all_goals refine ⟨?_, ?_⟩
                        all_goals try (intro p hp; simp only [List.mem_singleton] at hp; subst hp; rfl)
                        all_goals refine rightFiltersPair_clean _ _ _ _ ?_ (by assumption)
                        all_goals intro kc hkc
                        all_goals simp only [registerBinding_comps] at hkc
                        all_goals exact hc1 kc hkc
                      | false =>
                        simp only [Bool.false_eq_true, if_false] at h
                        cases hlts : lookupTableSpec sp (goToLower nm) with
                        | none => simp only [hlts] at h; cases h
                        | some spec =>
                          simp only [hlts] at h
                          cases hjr : joinRightFromSpec st1 spec ralias
                              (goToLower (if (goTrimSpace ralias == "") = true then nm
                                else goTrimSpace ralias)) (goToLower nm) with
                          | error e => simp only [hjr] at h; cases h
                          | ok quint =>
                            obtain ⟨ra2, rq2, rs2, rbf2, stx⟩ := quint
                            simp only [hjr] at h
                            repeat' split at h
                            all_goals try cases h
                            all_goals refine ⟨?_, ?_⟩
                            all_goals try (intro p hp; simp only [List.mem_singleton] at hp; subst hp; rfl)
                            all_goals refine rightFiltersPair_clean _ _ _ _ ?_ (by assumption)
                            all_goals intro kc hkc
                            all_goals rw [joinRightFromSpec_comps _ _ _ _ _ _ _ _ _ _ hjr] at hkc
                            all_goals exact hc1 kc hkc
                  | none =>
                    simp only [hvs] at h
                    cases hlts : lookupTableSpec sp (goToLower nm) with
                    | none => simp only [hlts] at h; cases h
                    | some spec =>
                      simp only [hlts] at h
                      cases hjr : joinRightFromSpec st1 spec ralias
                          (goToLower (if (goTrimSpace ralias == "") = true then nm
                            else goTrimSpace ralias)) (goToLower nm) with
                      | error e => simp only [hjr] at h; cases h
                      | ok quint =>
                        obtain ⟨ra2, rq2, rs2, rbf2, stx⟩ := quint
                        simp only [hjr] at h
                        repeat' split at h
                        all_goals try cases h
                        all_goals refine ⟨?_, ?_⟩
                        all_goals try (intro p hp; simp only [List.mem_singleton] at hp; subst hp; rfl)
                        all_goals refine rightFiltersPair_clean _ _ _ _ ?_ (by assumption)
                        all_goals intro kc hkc
                        all_goals rw [joinRightFromSpec_comps _ _ _ _ _ _ _ _ _ _ hjr] at hkc
                        all_goals exact hc1 kc hkc
theorem processFrom_clean (fuel : Nat) (sp : Provider) (st : TransState) (f : Option TableExpr)
    (jp : List String) (st' : TransState) (hc : FCClean st)
    (h : processFrom fuel sp st f = .ok (jp, st')) : FCClean st' ∧ pipesClean jp := by
  cases fuel with
  | zero => cases h
  | succ n =>
    cases f with
    | none => cases h
    | some te =>
      cases te with
      | tableName name al =>
        simp only [processFrom, bind, Except.bind] at h
        cases hr : registerBaseTable sp st name al with
        | error e => simp only [hr] at h; cases h
        | ok st1 =>
          simp only [hr] at h
          cases h
          refine ⟨?_, ?_⟩
          · intro kc hkc
            rw [registerBaseTable_comps _ _ _ _ _ hr] at hkc
            exact hc kc hkc
          · intro p hp
            cases hp
      | joinE lte rte jtp onc =>
        simp only [processFrom] at h
        exact processJoin_clean _ _ _ _ _ _ _ _ _ hc h
      | subqueryTable a b => cases h
theorem statsColumnsLoop_noGroup (columns : List SelectItem) :
    ∀ (st : TransState) (gl : List String) (len : Nat) (r : Option (List AggItem)),
      statsColumnsLoop st false gl len columns = .ok r →
      (∀ item ∈ columns, selectItemIsAggregate item = false) →
      (∀ item ∈ columns, itemIsStar item = false) →
      r = some [] := by
  induction columns with
  | nil => intro st gl len r h _ _; cases h; rfl
  | cons item rest ih =>
    intro st gl len r h hna hns
    have hrest : ∀ it ∈ rest, selectItemIsAggregate it = false :=
      fun it hit => hna it (List.mem_cons_of_mem _ hit)
    have hrest2 : ∀ it ∈ rest, itemIsStar it = false :=
      fun it hit => hns it (List.mem_cons_of_mem _ hit)
    obtain ⟨e, al⟩ := item
    have hhead := hna ⟨e, al⟩ (List.mem_cons_self _ _)
    have hhead2 := hns ⟨e, al⟩ (List.mem_cons_self _ _)
    cases e with
    | star t => cases hhead2
    | ident parts =>
      simp only [statsColumnsLoop, Bool.not_false, if_true] at h
      exact ih st gl len r h hrest hrest2
    | funcCall name dis args over =>
      cases over with
      | some w =>
        simp only [statsColumnsLoop, Option.isSome_some, if_true, Bool.false_eq_true,
          if_false] at h
        exact ih st gl len r h hrest hrest2
      | none =>
        have hagg : isAggregateFunction name = false := by
          simpa [selectItemIsAggregate] using hhead
        simp only [statsColumnsLoop, Option.isSome_none, Bool.false_eq_true, if_false,
          hagg, if_true] at h
        exact ih st gl len r h hrest hrest2
    | binary l op rr =>
      simp only [statsColumnsLoop, Bool.false_eq_true, if_false] at h
      exact ih st gl len r h hrest hrest2
    | unary op a =>
      simp only [statsColumnsLoop, Bool.false_eq_true, if_false] at h
      exact ih st gl len r h hrest hrest2
    | numLit v =>
      simp only [statsColumnsLoop, Bool.false_eq_true, if_false] at h
      exact ih st gl len r h hrest hrest2
    | strLit v =>
      simp only [statsColumnsLoop, Bool.false_eq_true, if_false] at h
      exact ih st gl len r h hrest hrest2
    | boolLit b =>
      simp only [statsColumnsLoop, Bool.false_eq_true, if_false] at h
      exact ih st gl len r h hrest hrest2
    | nullLit =>
      simp only [statsColumnsLoop, Bool.false_eq_true, if_false] at h
      exact ih st gl len r h hrest hrest2
    | placeholder sy =>
      simp only [statsColumnsLoop, Bool.false_eq_true, if_false] at h
      exact ih st gl len r h hrest hrest2
    | betweenE a b c dn =>
      simp only [statsColumnsLoop, Bool.false_eq_true, if_false] at h
      exact ih st gl len r h hrest hrest2
    | inE a dn sub lst =>
      simp only [statsColumnsLoop, Bool.false_eq_true, if_false] at h
      exact ih st gl len r h hrest hrest2
    | likeE a dn p =>
      simp only [statsColumnsLoop, Bool.false_eq_true, if_false] at h
      exact ih st gl len r h hrest hrest2
    | isNullE a dn =>
      simp only [statsColumnsLoop, Bool.false_eq_true, if_false] at h
      exact ih st gl len r h hrest hrest2
    | existsE dn sub =>
      simp only [statsColumnsLoop, Bool.false_eq_true, if_false] at h
      exact ih st gl len r h hrest hrest2
    | subqueryE sub =>
      simp only [statsColumnsLoop, Bool.false_eq_true, if_false] at h
      exact ih st gl len r h hrest hrest2
    | caseE operand whens els =>
      simp only [statsColumnsLoop, Bool.false_eq_true, if_false] at h
      exact ih st gl len r h hrest hrest2
theorem buildStatsPipe_noAgg (st : TransState) (cols : List SelectItem)
    (out : List String × Bool × TransState)
    (hna : ∀ item ∈ cols, selectItemIsAggregate item = false)
    (hns : ∀ item ∈ cols, itemIsStar item = false)
    (h : buildStatsPipe st [] cols = .ok out) :
    out = ([], false, { st with groupExprAliases := none }) := by
  simp only [buildStatsPipe, bind, Except.bind, List.isEmpty_nil, Bool.not_true,
    Bool.false_eq_true, if_false] at h
  cases hsl : statsColumnsLoop { st with groupExprAliases := none } false [] cols.length cols with
  | error e => simp only [hsl] at h; cases h
  | ok r =>
    have hr := statsColumnsLoop_noGroup cols _ _ _ _ hsl hna hns
    subst hr
    simp only [hsl, List.isEmpty_nil, if_true] at h
    cases h
    rfl
theorem projectionLoop_clean (cols : List SelectItem) :
    ∀ (st : TransState) (cp rp fs : List String),
      projectionLoop st false cols = .ok (cp, rp, fs) →
      pipesClean cp ∧ fs.length = cols.length := by
  induction cols with
  | nil =>
    intro st cp rp fs h
    cases h
    exact ⟨fun p hp => absurd hp (List.not_mem_nil p), rfl⟩
  | cons item rest ih =>
    intro st cp rp fs h
    obtain ⟨e, al⟩ := item
    cases e with
    | ident parts =>
      simp only [projectionLoop, bind, Except.bind] at h
      split_ifs at h with h1 h2
      · cases hg : translateCurrentTimestamp al with
        | error e2 => simp only [hg] at h; cases h
        | ok pr =>
          obtain ⟨pipes, an⟩ := pr
          simp only [hg] at h
          cases hrec : projectionLoop st false rest with
          | error e2 => simp only [hrec] at h; cases h
          | ok tri =>
            obtain ⟨cp1, rp1, fs1⟩ := tri
            simp only [hrec] at h
            cases h
            obtain ⟨ihc, ihl⟩ := ih st _ _ _ hrec
            refine ⟨?_, by simp [ihl]⟩
            intro p hp
            rcases List.mem_append.mp hp with hp | hp
            · exact currentTimestamp_pipes_clean _ _ _ hg p hp
            · exact ihc p hp
      · cases hg : translateCurrentDate al with
        | error e2 => simp only [hg] at h; cases h
        | ok pr =>
          obtain ⟨pipes, an⟩ := pr
          simp only [hg] at h
          cases hrec : projectionLoop st false rest with
          | error e2 => simp only [hrec] at h; cases h
          | ok tri =>
            obtain ⟨cp1, rp1, fs1⟩ := tri
            simp only [hrec] at h
            cases h
            obtain ⟨ihc, ihl⟩ := ih st _ _ _ hrec
            refine ⟨?_, by simp [ihl]⟩
            intro p hp
            rcases List.mem_append.mp hp with hp | hp
            · exact currentDate_pipes_clean _ _ _ hg p hp
            · exact ihc p hp
      all_goals
        (cases hn : normalizeIdentifier st parts with
        | error e2 => simp only [hn] at h; cases h
        | ok field =>
          simp only [hn] at h
          cases hrec : projectionLoop st false rest with
          | error e2 => simp only [hrec] at h; cases h
          | ok tri =>
            obtain ⟨cp1, rp1, fs1⟩ := tri
            simp only [hrec] at h
            obtain ⟨ihc, ihl⟩ := ih st _ _ _ hrec
            cases h
            exact ⟨ihc, by simp [ihl]⟩)
    | funcCall name dis args over =>
      simp only [projectionLoop, bind, Except.bind] at h
      cases hov : over.isSome with
      | true =>
        simp only [hov, if_true, Bool.false_eq_true, if_false] at h
        cases hw : translateWindowFunction st name dis args over al with
        | error e2 => simp only [hw] at h; cases h
        | ok pr =>
          obtain ⟨wpipes, an⟩ := pr
          simp only [hw] at h
          cases hrec : projectionLoop st false rest with
          | error e2 => simp only [hrec] at h; cases h
          | ok tri =>
            obtain ⟨cp1, rp1, fs1⟩ := tri
            simp only [hrec] at h
            cases h
            obtain ⟨ihc, ihl⟩ := ih st _ _ _ hrec
            refine ⟨?_, by simp [ihl]⟩
            intro p hp
            rcases List.mem_append.mp hp with hp | hp
            · exact windowFunction_pipes_clean _ _ _ _ _ _ _ _ hw p hp
            · exact ihc p hp
      | false =>
        simp only [hov, Bool.false_eq_true, if_false, Bool.false_and, if_true] at h
        cases hsf : translateStringFunction st name args al with
        | mk supported res =>
          simp only [hsf] at h
          cases supported with
          | true =>
            simp only [if_true] at h
            cases res with
            | error e2 => cases h
            | ok pr =>
              obtain ⟨pipes, an⟩ := pr
              cases hrec : projectionLoop st false rest with
              | error e2 => simp only [hrec] at h; cases h
              | ok tri =>
                obtain ⟨cp1, rp1, fs1⟩ := tri
                simp only [hrec] at h
                cases h
                obtain ⟨ihc, ihl⟩ := ih st _ _ _ hrec
                refine ⟨?_, by simp [ihl]⟩
                intro p hp
                rcases List.mem_append.mp hp with hp | hp
                · exact stringFunction_pipes_clean _ _ _ _ _ _ _ hsf p hp
                · exact ihc p hp
          | false =>
            simp only [Bool.false_eq_true, if_false] at h
            cases hm : translateMathProjection st (.funcCall name dis args over) al with
            | error e2 => simp only [hm] at h; cases h
            | ok pr =>
              obtain ⟨mp, an⟩ := pr
              simp only [hm] at h
              cases hrec : projectionLoop st false rest with
              | error e2 => simp only [hrec] at h; cases h
              | ok tri =>
                obtain ⟨cp1, rp1, fs1⟩ := tri
                simp only [hrec] at h
                cases h
                obtain ⟨ihc, ihl⟩ := ih st _ _ _ hrec
                refine ⟨?_, by simp [ihl]⟩
                intro p hp
                rcases List.mem_cons.mp hp with rfl | hp
                · exact mathProjection_not_fields _ _ _ _ _ hm
                · exact ihc p hp
    | binary l op rr =>
      simp only [projectionLoop, bind, Except.bind, Bool.false_eq_true, if_false] at h
      cases hm : translateMathProjection st (.binary l op rr) al with
      | error e2 => simp only [hm] at h; cases h
      | ok pr =>
        obtain ⟨mp, an⟩ := pr
        simp only [hm] at h
        cases hrec : projectionLoop st false rest with
        | error e2 => simp only [hrec] at h; cases h
        | ok tri =>
          obtain ⟨cp1, rp1, fs1⟩ := tri
          simp only [hrec] at h
          cases h
          obtain ⟨ihc, ihl⟩ := ih st _ _ _ hrec
          refine ⟨?_, by simp [ihl]⟩
          intro p hp
          rcases List.mem_cons.mp hp with rfl | hp
          · exact mathProjection_not_fields _ _ _ _ _ hm
          · exact ihc p hp
    | unary op a =>
      simp only [projectionLoop, bind, Except.bind, Bool.false_eq_true, if_false] at h
      cases hm : translateMathProjection st (.unary op a) al with
      | error e2 => simp only [hm] at h; cases h
      | ok pr =>
        obtain ⟨mp, an⟩ := pr
        simp only [hm] at h
        cases hrec : projectionLoop st false rest with
        | error e2 => simp only [hrec] at h; cases h
        | ok tri =>
          obtain ⟨cp1, rp1, fs1⟩ := tri
          simp only [hrec] at h
          cases h
          obtain ⟨ihc, ihl⟩ := ih st _ _ _ hrec
          refine ⟨?_, by simp [ihl]⟩
          intro p hp
          rcases List.mem_cons.mp hp with rfl | hp
          · exact mathProjection_not_fields _ _ _ _ _ hm
          · exact ihc p hp
    | numLit v =>
      simp only [projectionLoop, bind, Except.bind, Bool.false_eq_true, if_false] at h
      cases hm : translateMathProjection st (.numLit v) al with
      | error e2 => simp only [hm] at h; cases h
      | ok pr =>
        obtain ⟨mp, an⟩ := pr
        simp only [hm] at h
        cases hrec : projectionLoop st false rest with
        | error e2 => simp only [hrec] at h; cases h
        | ok tri =>
          obtain ⟨cp1, rp1, fs1⟩ := tri
          simp only [hrec] at h
          cases h
          obtain ⟨ihc, ihl⟩ := ih st _ _ _ hrec
          refine ⟨?_, by simp [ihl]⟩
          intro p hp
          rcases List.mem_cons.mp hp with rfl | hp
          · exact mathProjection_not_fields _ _ _ _ _ hm
          · exact ihc p hp
    | star t => simp only [projectionLoop] at h; cases h
    | strLit v => simp only [projectionLoop] at h; cases h
    | boolLit b => simp only [projectionLoop] at h; cases h
    | nullLit => simp only [projectionLoop] at h; cases h
    | placeholder sy => simp only [projectionLoop] at h; cases h
    | betweenE a b c dn => simp only [projectionLoop] at h; cases h
    | inE a dn sub lst => simp only [projectionLoop] at h; cases h
    | likeE a dn p => simp only [projectionLoop] at h; cases h
    | isNullE a dn => simp only [projectionLoop] at h; cases h
    | existsE dn sub => simp only [projectionLoop] at h; cases h
    | subqueryE sub => simp only [projectionLoop] at h; cases h
    | caseE operand whens els => simp only [projectionLoop] at h; cases h
theorem buildProjectionPipes_decomp (st : TransState) (cols : List SelectItem) (pipes fields : List String)
    (hne : cols ≠ [])
    (hns : ∀ item ∈ cols, itemIsStar item = false)
    (h : buildProjectionPipes st cols false = .ok (pipes, fields)) :
    ∃ pre, pipes = pre ++ ["fields " ++ String.intercalate ", " fields] ∧ pipesClean pre := by
  cases cols with
  | nil => exact absurd rfl hne
  | cons it rest =>
    obtain ⟨e, al⟩ := it
    have hstar := hns ⟨e, al⟩ (List.mem_cons_self _ _)
    cases rest with
    | cons it2 rest2 =>
      simp only [buildProjectionPipes, bind, Except.bind] at h
      cases hpl : projectionLoop st false (⟨e, al⟩ :: it2 :: rest2) with
      | error e2 => simp only [hpl] at h; cases h
      | ok tri =>
        obtain ⟨cp1, rp1, fs1⟩ := tri
        simp only [hpl] at h
        obtain ⟨hclean, hlen⟩ := projectionLoop_clean _ _ _ _ _ hpl
        have hfne : fs1.isEmpty = false := by
          cases fs1 with
          | nil => simp at hlen
          | cons a l => rfl
        cases hrp : rp1.isEmpty with
        | true =>
          simp only [hrp, hfne, Bool.not_true, Bool.not_false, Bool.false_eq_true, if_false,
            Bool.and_self, if_true, List.nil_append] at h
          cases h
          exact ⟨cp1, by simp, hclean⟩
        | false =>
          simp only [hrp, hfne, Bool.not_true, Bool.not_false, Bool.false_eq_true, if_false,
            Bool.and_self, if_true] at h
          cases h
          refine ⟨cp1 ++ ["rename " ++ String.intercalate ", " rp1], by simp, ?_⟩
          intro p hp
          rcases List.mem_append.mp hp with hp | hp
          · exact hclean p hp
          · simp only [List.mem_singleton] at hp; subst hp; rfl
    | nil =>
      cases e with
      | star t => cases hstar
      | ident parts =>
        simp only [buildProjectionPipes, bind, Except.bind] at h
        cases hpl : projectionLoop st false [⟨.ident parts, al⟩] with
        | error e2 => simp only [hpl] at h; cases h
        | ok tri =>
          obtain ⟨cp1, rp1, fs1⟩ := tri
          simp only [hpl] at h
          obtain ⟨hclean, hlen⟩ := projectionLoop_clean _ _ _ _ _ hpl
          have hfne : fs1.isEmpty = false := by
            cases fs1 with
            | nil => simp at hlen
            | cons a l => rfl
          cases hrp : rp1.isEmpty with
          | true =>
            simp only [hrp, hfne, Bool.not_true, Bool.not_false, Bool.false_eq_true, if_false,
              Bool.and_self, if_true, List.nil_append] at h
            cases h
            exact ⟨cp1, by simp, hclean⟩
          | false =>
            simp only [hrp, hfne, Bool.not_true, Bool.not_false, Bool.false_eq_true, if_false,
              Bool.and_self, if_true] at h
            cases h
            refine ⟨cp1 ++ ["rename " ++ String.intercalate ", " rp1], by simp, ?_⟩
            intro p hp
            rcases List.mem_append.mp hp with hp | hp
            · exact hclean p hp
            · simp only [List.mem_singleton] at hp; subst hp; rfl
      | numLit v =>
        simp only [buildProjectionPipes, bind, Except.bind] at h
        cases hpl : projectionLoop st false [⟨.numLit v, al⟩] with
        | error e2 => simp only [hpl] at h; cases h
        | ok tri =>
          obtain ⟨cp1, rp1, fs1⟩ := tri
          simp only [hpl] at h
          obtain ⟨hclean, hlen⟩ := projectionLoop_clean _ _ _ _ _ hpl
          have hfne : fs1.isEmpty = false := by
            cases fs1 with
            | nil => simp at hlen
            | cons a l => rfl
          cases hrp : rp1.isEmpty with
          | true =>
            simp only [hrp, hfne, Bool.not_true, Bool.not_false, Bool.false_eq_true, if_false,
              Bool.and_self, if_true, List.nil_append] at h
            cases h
            exact ⟨cp1, by simp, hclean⟩
          | false =>
            simp only [hrp, hfne, Bool.not_true, Bool.not_false, Bool.false_eq_true, if_false,
              Bool.and_self, if_true] at h
            cases h
            refine ⟨cp1 ++ ["rename " ++ String.intercalate ", " rp1], by simp, ?_⟩
            intro p hp
            rcases List.mem_append.mp hp with hp | hp
            · exact hclean p hp
            · simp only [List.mem_singleton] at hp; subst hp; rfl
      | strLit v =>
        simp only [buildProjectionPipes, bind, Except.bind] at h
        cases hpl : projectionLoop st false [⟨.strLit v, al⟩] with
        | error e2 => simp only [hpl] at h; cases h
        | ok tri =>
          obtain ⟨cp1, rp1, fs1⟩ := tri
          simp only [hpl] at h
          obtain ⟨hclean, hlen⟩ := projectionLoop_clean _ _ _ _ _ hpl
          have hfne : fs1.isEmpty = false := by
            cases fs1 with
            | nil => simp at hlen
            | cons a l => rfl
          cases hrp : rp1.isEmpty with
          | true =>
            simp only [hrp, hfne, Bool.not_true, Bool.not_false, Bool.false_eq_true, if_false,
              Bool.and_self, if_true, List.nil_append] at h
            cases h
            exact ⟨cp1, by simp, hclean⟩
          | false =>
            simp only [hrp, hfne, Bool.not_true, Bool.not_false, Bool.false_eq_true, if_false,
              Bool.and_self, if_true] at h
            cases h
            refine ⟨cp1 ++ ["rename " ++ String.intercalate ", " rp1], by simp, ?_⟩
            intro p hp
            rcases List.mem_append.mp hp with hp | hp
            · exact hclean p hp
            · simp only [List.mem_singleton] at hp; subst hp; rfl
      | boolLit b =>
        simp only [buildProjectionPipes, bind, Except.bind] at h
        cases hpl : projectionLoop st false [⟨.boolLit b, al⟩] with
        | error e2 => simp only [hpl] at h; cases h
        | ok tri =>
          obtain ⟨cp1, rp1, fs1⟩ := tri
          simp only [hpl] at h
          obtain ⟨hclean, hlen⟩ := projectionLoop_clean _ _ _ _ _ hpl
          have hfne : fs1.isEmpty = false := by
            cases fs1 with
            | nil => simp at hlen
            | cons a l => rfl
          cases hrp : rp1.isEmpty with
          | true =>
            simp only [hrp, hfne, Bool.not_true, Bool.not_false, Bool.false_eq_true, if_false,
              Bool.and_self, if_true, List.nil_append] at h
            cases h
            exact ⟨cp1, by simp, hclean⟩
          | false =>
            simp only [hrp, hfne, Bool.not_true, Bool.not_false, Bool.false_eq_true, if_false,
              Bool.and_self, if_true] at h
            cases h
            refine ⟨cp1 ++ ["rename " ++ String.intercalate ", " rp1], by simp, ?_⟩
            intro p hp
            rcases List.mem_append.mp hp with hp | hp
            · exact hclean p hp
            · simp only [List.mem_singleton] at hp; subst hp; rfl
      | nullLit =>
        simp only [buildProjectionPipes, bind, Except.bind] at h
        cases hpl : projectionLoop st false [⟨.nullLit, al⟩] with
        | error e2 => simp only [hpl] at h; cases h
        | ok tri =>
          obtain ⟨cp1, rp1, fs1⟩ := tri
          simp only [hpl] at h
          obtain ⟨hclean, hlen⟩ := projectionLoop_clean _ _ _ _ _ hpl
          have hfne : fs1.isEmpty = false := by
            cases fs1 with
            | nil => simp at hlen
            | cons a l => rfl
          cases hrp : rp1.isEmpty with
          | true =>
            simp only [hrp, hfne, Bool.not_true, Bool.not_false, Bool.false_eq_true, if_false,
              Bool.and_self, if_true, List.nil_append] at h
            cases h
            exact ⟨cp1, by simp, hclean⟩
          | false =>
            simp only [hrp, hfne, Bool.not_true, Bool.not_false, Bool.false_eq_true, if_false,
              Bool.and_self, if_true] at h
            cases h
            refine ⟨cp1 ++ ["rename " ++ String.intercalate ", " rp1], by simp, ?_⟩
            intro p hp
            rcases List.mem_append.mp hp with hp | hp
            · exact hclean p hp
            · simp only [List.mem_singleton] at hp; subst hp; rfl
      | placeholder sy =>
        simp only [buildProjectionPipes, bind, Except.bind] at h
        cases hpl : projectionLoop st false [⟨.placeholder sy, al⟩] with
        | error e2 => simp only [hpl] at h; cases h
        | ok tri =>
          obtain ⟨cp1, rp1, fs1⟩ := tri
          simp only [hpl] at h
          obtain ⟨hclean, hlen⟩ := projectionLoop_clean _ _ _ _ _ hpl
          have hfne : fs1.isEmpty = false := by
            cases fs1 with
            | nil => simp at hlen
            | cons a l => rfl
          cases hrp : rp1.isEmpty with
          | true =>
            simp only [hrp, hfne, Bool.not_true, Bool.not_false, Bool.false_eq_true, if_false,
              Bool.and_self, if_true, List.nil_append] at h
            cases h
            exact ⟨cp1, by simp, hclean⟩
          | false =>
            simp only [hrp, hfne, Bool.not_true, Bool.not_false, Bool.false_eq_true, if_false,
              Bool.and_self, if_true] at h
            cases h
            refine ⟨cp1 ++ ["rename " ++ String.intercalate ", " rp1], by simp, ?_⟩
            intro p hp
            rcases List.mem_append.mp hp with hp | hp
            · exact hclean p hp
            · simp only [List.mem_singleton] at hp; subst hp; rfl
      | binary bl bop brr =>
        simp only [buildProjectionPipes, bind, Except.bind] at h
        cases hpl : projectionLoop st false [⟨.binary bl bop brr, al⟩] with
        | error e2 => simp only [hpl] at h; cases h
        | ok tri =>
          obtain ⟨cp1, rp1, fs1⟩ := tri
          simp only [hpl] at h
          obtain ⟨hclean, hlen⟩ := projectionLoop_clean _ _ _ _ _ hpl
          have hfne : fs1.isEmpty = false := by
            cases fs1 with
            | nil => simp at hlen
            | cons a l => rfl
          cases hrp : rp1.isEmpty with
          | true =>
            simp only [hrp, hfne, Bool.not_true, Bool.not_false, Bool.false_eq_true, if_false,
              Bool.and_self, if_true, List.nil_append] at h
            cases h
            exact ⟨cp1, by simp, hclean⟩
          | false =>
            simp only [hrp, hfne, Bool.not_true, Bool.not_false, Bool.false_eq_true, if_false,
              Bool.and_self, if_true] at h
            cases h
            refine ⟨cp1 ++ ["rename " ++ String.intercalate ", " rp1], by simp, ?_⟩
            intro p hp
            rcases List.mem_append.mp hp with hp | hp
            · exact hclean p hp
            · simp only [List.mem_singleton] at hp; subst hp; rfl
      | unary uop ua =>
        simp only [buildProjectionPipes, bind, Except.bind] at h
        cases hpl : projectionLoop st false [⟨.unary uop ua, al⟩] with
        | error e2 => simp only [hpl] at h; cases h
        | ok tri =>
          obtain ⟨cp1, rp1, fs1⟩ := tri
          simp only [hpl] at h
          obtain ⟨hclean, hlen⟩ := projectionLoop_clean _ _ _ _ _ hpl
          have hfne : fs1.isEmpty = false := by
            cases fs1 with
            | nil => simp at hlen
            | cons a l => rfl
          cases hrp : rp1.isEmpty with
          | true =>
            simp only [hrp, hfne, Bool.not_true, Bool.not_false, Bool.false_eq_true, if_false,
              Bool.and_self, if_true, List.nil_append] at h
            cases h
            exact ⟨cp1, by simp, hclean⟩
          | false =>
            simp only [hrp, hfne, Bool.not_true, Bool.not_false, Bool.false_eq_true, if_false,
              Bool.and_self, if_true] at h
            cases h
            refine ⟨cp1 ++ ["rename " ++ String.intercalate ", " rp1], by simp, ?_⟩
            intro p hp
            rcases List.mem_append.mp hp with hp | hp
            · exact hclean p hp
            · simp only [List.mem_singleton] at hp; subst hp; rfl
      | funcCall fname fdis fargs fover =>
        simp only [buildProjectionPipes, bind, Except.bind] at h
        cases hpl : projectionLoop st false [⟨.funcCall fname fdis fargs fover, al⟩] with
        | error e2 => simp only [hpl] at h; cases h
        | ok tri =>
          obtain ⟨cp1, rp1, fs1⟩ := tri
          simp only [hpl] at h
          obtain ⟨hclean, hlen⟩ := projectionLoop_clean _ _ _ _ _ hpl
          have hfne : fs1.isEmpty = false := by
            cases fs1 with
            | nil => simp at hlen
            | cons a l => rfl
          cases hrp : rp1.isEmpty with
          | true =>
            simp only [hrp, hfne, Bool.not_true, Bool.not_false, Bool.false_eq_true, if_false,
              Bool.and_self, if_true, List.nil_append] at h
            cases h
            exact ⟨cp1, by simp, hclean⟩
          | false =>
            simp only [hrp, hfne, Bool.not_true, Bool.not_false, Bool.false_eq_true, if_false,
              Bool.and_self, if_true] at h
            cases h
            refine ⟨cp1 ++ ["rename " ++ String.intercalate ", " rp1], by simp, ?_⟩
            intro p hp
            rcases List.mem_append.mp hp with hp | hp
            · exact hclean p hp
            · simp only [List.mem_singleton] at hp; subst hp; rfl
      | betweenE ba bb bc bdn =>
        simp only [buildProjectionPipes, bind, Except.bind] at h
        cases hpl : projectionLoop st false [⟨.betweenE ba bb bc bdn, al⟩] with
        | error e2 => simp only [hpl] at h; cases h
        | ok tri =>
          obtain ⟨cp1, rp1, fs1⟩ := tri
          simp only [hpl] at h
          obtain ⟨hclean, hlen⟩ := projectionLoop_clean _ _ _ _ _ hpl
          have hfne : fs1.isEmpty = false := by
            cases fs1 with
            | nil => simp at hlen
            | cons a l => rfl
          cases hrp : rp1.isEmpty with
          | true =>
            simp only [hrp, hfne, Bool.not_true, Bool.not_false, Bool.false_eq_true, if_false,
              Bool.and_self, if_true, List.nil_append] at h
            cases h
            exact ⟨cp1, by simp, hclean⟩
          | false =>
            simp only [hrp, hfne, Bool.not_true, Bool.not_false, Bool.false_eq_true, if_false,
              Bool.and_self, if_true] at h
            cases h
            refine ⟨cp1 ++ ["rename " ++ String.intercalate ", " rp1], by simp, ?_⟩
            intro p hp
            rcases List.mem_append.mp hp with hp | hp
            · exact hclean p hp
            · simp only [List.mem_singleton] at hp; subst hp; rfl
      | inE ia idn isub ilst =>
        simp only [buildProjectionPipes, bind, Except.bind] at h
        cases hpl : projectionLoop st false [⟨.inE ia idn isub ilst, al⟩] with
        | error e2 => simp only [hpl] at h; cases h
        | ok tri =>
          obtain ⟨cp1, rp1, fs1⟩ := tri
          simp only [hpl] at h
          obtain ⟨hclean, hlen⟩ := projectionLoop_clean _ _ _ _ _ hpl
          have hfne : fs1.isEmpty = false := by
            cases fs1 with
            | nil => simp at hlen
            | cons a l => rfl
          cases hrp : rp1.isEmpty with
          | true =>
            simp only [hrp, hfne, Bool.not_true, Bool.not_false, Bool.false_eq_true, if_false,
              Bool.and_self, if_true, List.nil_append] at h
            cases h
            exact ⟨cp1, by simp, hclean⟩
          | false =>
            simp only [hrp, hfne, Bool.not_true, Bool.not_false, Bool.false_eq_true, if_false,
              Bool.and_self, if_true] at h
            cases h
            refine ⟨cp1 ++ ["rename " ++ String.intercalate ", " rp1], by simp, ?_⟩
            intro p hp
            rcases List.mem_append.mp hp with hp | hp
            · exact hclean p hp
            · simp only [List.mem_singleton] at hp; subst hp; rfl
      | likeE la ldn lp =>
        simp only [buildProjectionPipes, bind, Except.bind] at h
        cases hpl : projectionLoop st false [⟨.likeE la ldn lp, al⟩] with
        | error e2 => simp only [hpl] at h; cases h
        | ok tri =>
          obtain ⟨cp1, rp1, fs1⟩ := tri
          simp only [hpl] at h
          obtain ⟨hclean, hlen⟩ := projectionLoop_clean _ _ _ _ _ hpl
          have hfne : fs1.isEmpty = false := by
            cases fs1 with
            | nil => simp at hlen
            | cons a l => rfl
          cases hrp : rp1.isEmpty with
          | true =>
            simp only [hrp, hfne, Bool.not_true, Bool.not_false, Bool.false_eq_true, if_false,
              Bool.and_self, if_true, List.nil_append] at h
            cases h
            exact ⟨cp1, by simp, hclean⟩
          | false =>
            simp only [hrp, hfne, Bool.not_true, Bool.not_false, Bool.false_eq_true, if_false,
              Bool.and_self, if_true] at h
            cases h
            refine ⟨cp1 ++ ["rename " ++ String.intercalate ", " rp1], by simp, ?_⟩
            intro p hp
            rcases List.mem_append.mp hp with hp | hp
            · exact hclean p hp
            · simp only [List.mem_singleton] at hp; subst hp; rfl
      | isNullE na ndn =>
        simp only [buildProjectionPipes, bind, Except.bind] at h
        cases hpl : projectionLoop st false [⟨.isNullE na ndn, al⟩] with
        | error e2 => simp only [hpl] at h; cases h
        | ok tri =>
          obtain ⟨cp1, rp1, fs1⟩ := tri
          simp only [hpl] at h
          obtain ⟨hclean, hlen⟩ := projectionLoop_clean _ _ _ _ _ hpl
          have hfne : fs1.isEmpty = false := by
            cases fs1 with
            | nil => simp at hlen
            | cons a l => rfl
          cases hrp : rp1.isEmpty with
          | true =>
            simp only [hrp, hfne, Bool.not_true, Bool.not_false, Bool.false_eq_true, if_false,
              Bool.and_self, if_true, List.nil_append] at h
            cases h
            exact ⟨cp1, by simp, hclean⟩
          | false =>
            simp only [hrp, hfne, Bool.not_true, Bool.not_false, Bool.false_eq_true, if_false,
              Bool.and_self, if_true] at h
            cases h
            refine ⟨cp1 ++ ["rename " ++ String.intercalate ", " rp1], by simp, ?_⟩
            intro p hp
            rcases List.mem_append.mp hp with hp | hp
            · exact hclean p hp
            · simp only [List.mem_singleton] at hp; subst hp; rfl
      | existsE edn esub =>
        simp only [buildProjectionPipes, bind, Except.bind] at h
        cases hpl : projectionLoop st false [⟨.existsE edn esub, al⟩] with
        | error e2 => simp only [hpl] at h; cases h
        | ok tri =>
          obtain ⟨cp1, rp1, fs1⟩ := tri
          simp only [hpl] at h
          obtain ⟨hclean, hlen⟩ := projectionLoop_clean _ _ _ _ _ hpl
          have hfne : fs1.isEmpty = false := by
            cases fs1 with
            | nil => simp at hlen
            | cons a l => rfl
          cases hrp : rp1.isEmpty with
          | true =>
            simp only [hrp, hfne, Bool.not_true, Bool.not_false, Bool.false_eq_true, if_false,
              Bool.and_self, if_true, List.nil_append] at h
            cases h
            exact ⟨cp1, by simp, hclean⟩
          | false =>
            simp only [hrp, hfne, Bool.not_true, Bool.not_false, Bool.false_eq_true, if_false,
              Bool.and_self, if_true] at h
            cases h
            refine ⟨cp1 ++ ["rename " ++ String.intercalate ", " rp1], by simp, ?_⟩
            intro p hp
            rcases List.mem_append.mp hp with hp | hp
            · exact hclean p hp
            · simp only [List.mem_singleton] at hp; subst hp; rfl
      | subqueryE ssub =>
        simp only [buildProjectionPipes, bind, Except.bind] at h
        cases hpl : projectionLoop st false [⟨.subqueryE ssub, al⟩] with
        | error e2 => simp only [hpl] at h; cases h
        | ok tri =>
          obtain ⟨cp1, rp1, fs1⟩ := tri
          simp only [hpl] at h
          obtain ⟨hclean, hlen⟩ := projectionLoop_clean _ _ _ _ _ hpl
          have hfne : fs1.isEmpty = false := by
            cases fs1 with
            | nil => simp at hlen
            | cons a l => rfl
          cases hrp : rp1.isEmpty with
          | true =>
            simp only [hrp, hfne, Bool.not_true, Bool.not_false, Bool.false_eq_true, if_false,
              Bool.and_self, if_true, List.nil_append] at h
            cases h
            exact ⟨cp1, by simp, hclean⟩
          | false =>
            simp only [hrp, hfne, Bool.not_true, Bool.not_false, Bool.false_eq_true, if_false,
              Bool.and_self, if_true] at h
            cases h
            refine ⟨cp1 ++ ["rename " ++ String.intercalate ", " rp1], by simp, ?_⟩
            intro p hp
            rcases List.mem_append.mp hp with hp | hp
            · exact hclean p hp
            · simp only [List.mem_singleton] at hp; subst hp; rfl
      | caseE copd cwh cel =>
        simp only [buildProjectionPipes, bind, Except.bind] at h
        cases hpl : projectionLoop st false [⟨.caseE copd cwh cel, al⟩] with
        | error e2 => simp only [hpl] at h; cases h
        | ok tri =>
          obtain ⟨cp1, rp1, fs1⟩ := tri
          simp only [hpl] at h
          obtain ⟨hclean, hlen⟩ := projectionLoop_clean _ _ _ _ _ hpl
          have hfne : fs1.isEmpty = false := by
            cases fs1 with
            | nil => simp at hlen
            | cons a l => rfl
          cases hrp : rp1.isEmpty with
          | true =>
            simp only [hrp, hfne, Bool.not_true, Bool.not_false, Bool.false_eq_true, if_false,
              Bool.and_self, if_true, List.nil_append] at h
            cases h
            exact ⟨cp1, by simp, hclean⟩
          | false =>
            simp only [hrp, hfne, Bool.not_true, Bool.not_false, Bool.false_eq_true, if_false,
              Bool.and_self, if_true] at h
            cases h
            refine ⟨cp1 ++ ["rename " ++ String.intercalate ", " rp1], by simp, ?_⟩
            intro p hp
            rcases List.mem_append.mp hp with hp | hp
            · exact hclean p hp
            · simp only [List.mem_singleton] at hp; subst hp; rfl
theorem translateLimit_shape (lc : LimitClause) (ps : List String)
    (h : translateLimit lc = .ok ps) :
    ∀ p ∈ ps, isTrailStage p = true ∧ isFieldsStage p = false := by
  obtain ⟨cnt, off⟩ := lc
  simp only [translateLimit, bind, Except.bind] at h
  repeat' split at h
  all_goals try cases h
  all_goals intro p hp
  all_goals fin_cases hp
  all_goals exact ⟨rfl, rfl⟩
theorem buildDistinctPipe_shape (fields : List String) (s : String)
    (h : buildDistinctPipe fields false = .ok s) :
    (s == "") = false ∧ isTrailStage s = true ∧ isFieldsStage s = false := by
  simp only [buildDistinctPipe, Bool.false_eq_true, if_false] at h
  split_ifs at h with h1
  cases h
  refine ⟨?_, rfl, rfl⟩
  simp only [beq_eq_false_iff_ne, ne_eq]
  intro hh
  have := congrArg String.data hh
  simp at this
theorem collectFilterPrefilters_clean (st : TransState) (hc : FCClean st) :
    pipesClean (collectFilterPrefilters st) := by
  intro p hp
  simp only [collectFilterPrefilters, List.mem_flatMap] at hp
  obtain ⟨key, hkey, hp⟩ := hp
  cases hfc : fcGet st.filterComputations key with
  | none => rw [hfc] at hp; cases hp
  | some comp =>
    rw [hfc] at hp
    cases hfind : List.find? (fun q => q.1 == key) st.filterComputations with
    | none => simp [fcGet, hfind] at hfc
    | some pr =>
      have hmem := List.mem_of_find?_eq_some hfind
      simp [fcGet, hfind] at hfc
      simp only [] at hp
      rw [← hfc] at hp
      exact hc pr hmem p hp
theorem collectFilterCleanup_clean (st : TransState) : pipesClean (collectFilterCleanup st) := by
  intro p hp
  simp only [collectFilterCleanup] at hp
  split_ifs at hp
  · cases hp
  · simp only [List.mem_singleton] at hp
    subst hp
    rfl
def FieldsDecomp (pipes : List String) : Prop :=
  ∃ pre fstr post, pipes = pre ++ (("fields " ++ fstr) :: post) ∧
    (∀ p ∈ pre, isFieldsStage p = false) ∧
    (∀ p ∈ post, isTrailStage p = true ∧ isFieldsStage p = false)
theorem FieldsDecomp_append (Q add : List String) (hd : FieldsDecomp Q)
    (hadd : ∀ p ∈ add, isTrailStage p = true ∧ isFieldsStage p = false) :
    FieldsDecomp (Q ++ add) := by
  obtain ⟨pre, fstr, post, rfl, hpre, hpost⟩ := hd
  refine ⟨pre, fstr, post ++ add, by simp, hpre, ?_⟩
  intro p hp
  rcases List.mem_append.mp hp with hp | hp
  · exact hpost p hp
  · exact hadd p hp
theorem pipesClean_nil : pipesClean [] :=
  fun p hp => absurd hp (List.not_mem_nil p)
theorem pipesClean_append (A B : List String) (hA : pipesClean A) (hB : pipesClean B) :
    pipesClean (A ++ B) :=
  fun p hp => (List.mem_append.mp hp).elim (hA p) (hB p)
theorem pipesClean_ite (c : Prop) [Decidable c] (A B : List String)
    (hA : pipesClean A) (hB : pipesClean B) : pipesClean (if c then A else B) := by
  split_ifs <;> assumption
theorem pipesClean_singleton (x : String) (hx : isFieldsStage x = false) : pipesClean [x] := by
  intro p hp
  simp only [List.mem_singleton] at hp
  subst hp
  exact hx
theorem FieldsDecomp_base (X pre0 : List String) (fstr : String)
    (hX : pipesClean X) (hpre0 : pipesClean pre0) :
    FieldsDecomp (X ++ (pre0 ++ ["fields " ++ fstr])) :=
  ⟨X ++ pre0, fstr, [], by simp, pipesClean_append _ _ hX hpre0,
   fun p hp => absurd hp (List.not_mem_nil p)⟩
set_option maxHeartbeats 4000000 in
theorem translateSimpleSelectCore_decomp (fuel : Nat) (sp : Provider) (st0 : TransState) (w : Option WithClause)
    (d : Bool) (cols : List SelectItem) (f : Option TableExpr) (wh : Option Expr)
    (hv : Option Expr) (o : List OrderItem) (lim : Option LimitClause) (so : List SetOp)
    (B : String) (pipes : List String) (stF : TransState)
    (hna : ∀ item ∈ cols, selectItemIsAggregate item = false)
    (hns : ∀ item ∈ cols, itemIsStar item = false)
    (hcne : cols ≠ [])
    (h : translateSimpleSelectCore fuel sp st0 (.mk w d cols f wh [] hv o lim so) =
      .ok (B, pipes, stF)) :
    FieldsDecomp pipes := by
  cases fuel with
  | zero => cases h
  | succ n =>
  simp only [translateSimpleSelectCore, bind, Except.bind] at h
  cases w with
  | none =>
    cases hso : so.isEmpty with
    | false => simp only [hso, Bool.not_false, if_true] at h; cases h
    | true =>
    simp only [hso, Bool.not_true, Bool.false_eq_true, if_false] at h
    split at h
    · cases h
    · rename_i prF hpf
      obtain ⟨joinPipes, st1⟩ := prF
      obtain ⟨hc1, hjclean⟩ :=
        processFrom_clean _ _ _ _ _ _ (fun kc hkc => absurd hkc (List.not_mem_nil kc)) hpf
      cases wh with
      | some e =>
        cases hbao : ensureBaseAliasesOnly st1 e with
        | error e2 => simp only [hbao] at h; cases h
        | ok u =>
          simp only [hbao] at h
          cases hte : translateExpr st1 e with
          | error e2 => simp only [hte] at h; cases h
          | ok prW =>
            obtain ⟨ws, st2⟩ := prW
            simp only [hte] at h
            have hc2 : FCClean st2 := translateExpr_clean e st1 _ _ hc1 hte
            cases hplf : translatePendingLeftFilters st2 st2.pendingLeftFilter [ws] with
            | error e2 => simp only [hplf] at h; cases h
            | ok prf =>
              obtain ⟨filters2, st3⟩ := prf
              simp only [hplf] at h
              have hc3 : FCClean st3 := pendingLeftFilters_clean _ _ _ _ _ hc2 hplf
              cases hbs : buildStatsPipe st3 [] cols with
              | error e2 => simp only [hbs] at h; cases h
              | ok outS =>
                have houtS := buildStatsPipe_noAgg st3 cols outS hna hns hbs
                subst houtS
                simp only [hbs] at h
                cases hv with
                | some e2 =>
                  simp only [Bool.not_false, if_true] at h
                  cases h
                | none =>
                cases hproj : buildProjectionPipes { st3 with groupExprAliases := none }
                    cols false with
                | error e2 => simp only [hproj] at h; cases h
                | ok prj =>
                  obtain ⟨projPipes, projFields⟩ := prj
                  simp only [hproj] at h
                  obtain ⟨pre0, hpeq, hpre0⟩ := buildProjectionPipes_decomp _ _ _ _ hcne hns hproj
                  subst hpeq
                  cases d with
                  | true =>
                    cases hdp : buildDistinctPipe projFields false with
                    | error e2 => simp only [hdp, if_true] at h; cases h
                    | ok ds =>
                      obtain ⟨hdne, hdtrail, hdnf⟩ := buildDistinctPipe_shape _ _ hdp
                      simp only [hdp, if_true, hdne, Bool.not_false] at h
                      cases hoe : o.isEmpty with
                      | true =>
                        simp only [hoe, Bool.not_true, Bool.false_eq_true, if_false] at h
                        cases lim with
                        | none =>
                          cases h
                          exact FieldsDecomp_append _ _ (FieldsDecomp_base _ _ _ (by (repeat first
                        | exact pipesClean_nil
                        | exact hjclean
                        | exact collectFilterPrefilters_clean _ hc3
                        | exact collectFilterCleanup_clean _
                        | (apply pipesClean_singleton; rfl)
                        | apply pipesClean_append
                        | apply pipesClean_ite)) hpre0) (fun p hp => by
                        simp only [List.mem_singleton] at hp
                        subst hp
                        exact ⟨hdtrail, hdnf⟩)
                        | some lc =>
                          cases hlim : translateLimit lc with
                          | error e2 => simp only [hlim] at h; cases h
                          | ok lps =>
                            simp only [hlim] at h
                            cases h
                            exact FieldsDecomp_append _ _ (FieldsDecomp_append _ _ (FieldsDecomp_base _ _ _ (by (repeat first
                        | exact pipesClean_nil
                        | exact hjclean
                        | exact collectFilterPrefilters_clean _ hc3
                        | exact collectFilterCleanup_clean _
                        | (apply pipesClean_singleton; rfl)
                        | apply pipesClean_append
                        | apply pipesClean_ite)) hpre0) (fun p hp => by
                        simp only [List.mem_singleton] at hp
                        subst hp
                        exact ⟨hdtrail, hdnf⟩)) (translateLimit_shape _ _ hlim)
                      | false =>
                        simp only [hoe, Bool.not_false, if_true] at h
                        cases hor : translateOrderBy { st3 with groupExprAliases := none } o false with
                        | error e2 => simp only [hor] at h; cases h
                        | ok ops =>
                          simp only [hor] at h
                          obtain ⟨honf, hotrail⟩ := translateOrderBy_shape _ _ _ _ hor
                          cases lim with
                          | none =>
                            cases h
                            exact FieldsDecomp_append _ _ (FieldsDecomp_append _ _ (FieldsDecomp_base _ _ _ (by (repeat first
                        | exact pipesClean_nil
                        | exact hjclean
                        | exact collectFilterPrefilters_clean _ hc3
                        | exact collectFilterCleanup_clean _
                        | (apply pipesClean_singleton; rfl)
                        | apply pipesClean_append
                        | apply pipesClean_ite)) hpre0) (fun p hp => by
                        simp only [List.mem_singleton] at hp
                        subst hp
                        exact ⟨hdtrail, hdnf⟩)) (fun p hp => by
                        simp only [List.mem_singleton] at hp
                        subst hp
                        exact ⟨hotrail, honf⟩)
                          | some lc =>
                            cases hlim : translateLimit lc with
                            | error e2 => simp only [hlim] at h; cases h
                            | ok lps =>
                              simp only [hlim] at h
                              cases h
                              exact FieldsDecomp_append _ _
                                (FieldsDecomp_append _ _ (FieldsDecomp_append _ _ (FieldsDecomp_base _ _ _ (by (repeat first
                        | exact pipesClean_nil
                        | exact hjclean
                        | exact collectFilterPrefilters_clean _ hc3
                        | exact collectFilterCleanup_clean _
                        | (apply pipesClean_singleton; rfl)
                        | apply pipesClean_append
                        | apply pipesClean_ite)) hpre0) (fun p hp => by
                        simp only [List.mem_singleton] at hp
                        subst hp
                        exact ⟨hdtrail, hdnf⟩)) (fun p hp => by
                        simp only [List.mem_singleton] at hp
                        subst hp
                        exact ⟨hotrail, honf⟩)) (translateLimit_shape _ _ hlim)
                  | false =>
                    simp only [Bool.false_eq_true, if_false] at h
                    cases hoe : o.isEmpty with
                    | true =>
                      simp only [hoe, Bool.not_true, Bool.false_eq_true, if_false] at h
                      cases lim with
                      | none =>
                        cases h
                        exact (FieldsDecomp_base _ _ _ (by (repeat first
                        | exact pipesClean_nil
                        | exact hjclean
                        | exact collectFilterPrefilters_clean _ hc3
                        | exact collectFilterCleanup_clean _
                        | (apply pipesClean_singleton; rfl)
                        | apply pipesClean_append
                        | apply pipesClean_ite)) hpre0)
                      | some lc =>
                        cases hlim : translateLimit lc with
                        | error e2 => simp only [hlim] at h; cases h
                        | ok lps =>
                          simp only [hlim] at h
                          cases h
                          exact FieldsDecomp_append _ _ (FieldsDecomp_base _ _ _ (by (repeat first
                        | exact pipesClean_nil
                        | exact hjclean
                        | exact collectFilterPrefilters_clean _ hc3
                        | exact collectFilterCleanup_clean _
                        | (apply pipesClean_singleton; rfl)
                        | apply pipesClean_append
                        | apply pipesClean_ite)) hpre0) (translateLimit_shape _ _ hlim)
                    | false =>
                      simp only [hoe, Bool.not_false, if_true] at h
                      cases hor : translateOrderBy { st3 with groupExprAliases := none } o false with
                      | error e2 => simp only [hor] at h; cases h
                      | ok ops =>
                        simp only [hor] at h
                        obtain ⟨honf, hotrail⟩ := translateOrderBy_shape _ _ _ _ hor
                        cases lim with
                        | none =>
                          cases h
                          exact FieldsDecomp_append _ _ (FieldsDecomp_base _ _ _ (by (repeat first
                        | exact pipesClean_nil
                        | exact hjclean
                        | exact collectFilterPrefilters_clean _ hc3
                        | exact collectFilterCleanup_clean _
                        | (apply pipesClean_singleton; rfl)
                        | apply pipesClean_append
                        | apply pipesClean_ite)) hpre0) (fun p hp => by
                        simp only [List.mem_singleton] at hp
                        subst hp
                        exact ⟨hotrail, honf⟩)
                        | some lc =>
                          cases hlim : translateLimit lc with
                          | error e2 => simp only [hlim] at h; cases h
                          | ok lps =>
                            simp only [hlim] at h
                            cases h
                            exact FieldsDecomp_append _ _ (FieldsDecomp_append _ _ (FieldsDecomp_base _ _ _ (by (repeat first
                        | exact pipesClean_nil
                        | exact hjclean
                        | exact collectFilterPrefilters_clean _ hc3
                        | exact collectFilterCleanup_clean _
                        | (apply pipesClean_singleton; rfl)
                        | apply pipesClean_append
                        | apply pipesClean_ite)) hpre0) (fun p hp => by
                        simp only [List.mem_singleton] at hp
                        subst hp
                        exact ⟨hotrail, honf⟩)) (translateLimit_shape _ _ hlim)
      | none =>
            cases hplf : translatePendingLeftFilters st1 st1.pendingLeftFilter ([] : List String) with
            | error e2 => simp only [hplf] at h; cases h
            | ok prf =>
              obtain ⟨filters2, st3⟩ := prf
              simp only [hplf] at h
              have hc3 : FCClean st3 := pendingLeftFilters_clean _ _ _ _ _ hc1 hplf
              cases hbs : buildStatsPipe st3 [] cols with
              | error e2 => simp only [hbs] at h; cases h
              | ok outS =>
                have houtS := buildStatsPipe_noAgg st3 cols outS hna hns hbs
                subst houtS
                simp only [hbs] at h
                cases hv with
                | some e2 =>
                  simp only [Bool.not_false, if_true] at h
                  cases h
                | none =>
                cases hproj : buildProjectionPipes { st3 with groupExprAliases := none }
                    cols false with
                | error e2 => simp only [hproj] at h; cases h
                | ok prj =>
                  obtain ⟨projPipes, projFields⟩ := prj
                  simp only [hproj] at h
                  obtain ⟨pre0, hpeq, hpre0⟩ := buildProjectionPipes_decomp _ _ _ _ hcne hns hproj
                  subst hpeq
                  cases d with
                  | true =>
                    cases hdp : buildDistinctPipe projFields false with
                    | error e2 => simp only [hdp, if_true] at h; cases h
                    | ok ds =>
                      obtain ⟨hdne, hdtrail, hdnf⟩ := buildDistinctPipe_shape _ _ hdp
                      simp only [hdp, if_true, hdne, Bool.not_false] at h
                      cases hoe : o.isEmpty with
                      | true =>
                        simp only [hoe, Bool.not_true, Bool.false_eq_true, if_false] at h
                        cases lim with
                        | none =>
                          cases h
                          exact FieldsDecomp_append _ _ (FieldsDecomp_base _ _ _ (by (repeat first
                        | exact pipesClean_nil
                        | exact hjclean
                        | exact collectFilterPrefilters_clean _ hc3
                        | exact collectFilterCleanup_clean _
                        | (apply pipesClean_singleton; rfl)
                        | apply pipesClean_append
                        | apply pipesClean_ite)) hpre0) (fun p hp => by
                        simp only [List.mem_singleton] at hp
                        subst hp
                        exact ⟨hdtrail, hdnf⟩)
                        | some lc =>
                          cases hlim : translateLimit lc with
                          | error e2 => simp only [hlim] at h; cases h
                          | ok lps =>
                            simp only [hlim] at h
                            cases h
                            exact FieldsDecomp_append _ _ (FieldsDecomp_append _ _ (FieldsDecomp_base _ _ _ (by (repeat first
                        | exact pipesClean_nil
                        | exact hjclean
                        | exact collectFilterPrefilters_clean _ hc3
                        | exact collectFilterCleanup_clean _
                        | (apply pipesClean_singleton; rfl)
                        | apply pipesClean_append
                        | apply pipesClean_ite)) hpre0) (fun p hp => by
                        simp only [List.mem_singleton] at hp
                        subst hp
                        exact ⟨hdtrail, hdnf⟩)) (translateLimit_shape _ _ hlim)
                      | false =>
                        simp only [hoe, Bool.not_false, if_true] at h
                        cases hor : translateOrderBy { st3 with groupExprAliases := none } o false with
                        | error e2 => simp only [hor] at h; cases h
                        | ok ops =>
                          simp only [hor] at h
                          obtain ⟨honf, hotrail⟩ := translateOrderBy_shape _ _ _ _ hor
                          cases lim with
                          | none =>
                            cases h
                            exact FieldsDecomp_append _ _ (FieldsDecomp_append _ _ (FieldsDecomp_base _ _ _ (by (repeat first
                        | exact pipesClean_nil
                        | exact hjclean
                        | exact collectFilterPrefilters_clean _ hc3
                        | exact collectFilterCleanup_clean _
                        | (apply pipesClean_singleton; rfl)
                        | apply pipesClean_append
                        | apply pipesClean_ite)) hpre0) (fun p hp => by
                        simp only [List.mem_singleton] at hp
                        subst hp
                        exact ⟨hdtrail, hdnf⟩)) (fun p hp => by
                        simp only [List.mem_singleton] at hp
                        subst hp
                        exact ⟨hotrail, honf⟩)
                          | some lc =>
                            cases hlim : translateLimit lc with
                            | error e2 => simp only [hlim] at h; cases h
                            | ok lps =>
                              simp only [hlim] at h
                              cases h
                              exact FieldsDecomp_append _ _
                                (FieldsDecomp_append _ _ (FieldsDecomp_append _ _ (FieldsDecomp_base _ _ _ (by (repeat first
                        | exact pipesClean_nil
                        | exact hjclean
                        | exact collectFilterPrefilters_clean _ hc3
                        | exact collectFilterCleanup_clean _
                        | (apply pipesClean_singleton; rfl)
                        | apply pipesClean_append
                        | apply pipesClean_ite)) hpre0) (fun p hp => by
                        simp only [List.mem_singleton] at hp
                        subst hp
                        exact ⟨hdtrail, hdnf⟩)) (fun p hp => by
                        simp only [List.mem_singleton] at hp
                        subst hp
                        exact ⟨hotrail, honf⟩)) (translateLimit_shape _ _ hlim)
                  | false =>
                    simp only [Bool.false_eq_true, if_false] at h
                    cases hoe : o.isEmpty with
                    | true =>
                      simp only [hoe, Bool.not_true, Bool.false_eq_true, if_false] at h
                      cases lim with
                      | none =>
                        cases h
                        exact (FieldsDecomp_base _ _ _ (by (repeat first
                        | exact pipesClean_nil
                        | exact hjclean
                        | exact collectFilterPrefilters_clean _ hc3
                        | exact collectFilterCleanup_clean _
                        | (apply pipesClean_singleton; rfl)
                        | apply pipesClean_append
                        | apply pipesClean_ite)) hpre0)
                      | some lc =>
                        cases hlim : translateLimit lc with
                        | error e2 => simp only [hlim] at h; cases h
                        | ok lps =>
                          simp only [hlim] at h
                          cases h
                          exact FieldsDecomp_append _ _ (FieldsDecomp_base _ _ _ (by (repeat first
                        | exact pipesClean_nil
                        | exact hjclean
                        | exact collectFilterPrefilters_clean _ hc3
                        | exact collectFilterCleanup_clean _
                        | (apply pipesClean_singleton; rfl)
                        | apply pipesClean_append
                        | apply pipesClean_ite)) hpre0) (translateLimit_shape _ _ hlim)
                    | false =>
                      simp only [hoe, Bool.not_false, if_true] at h
                      cases hor : translateOrderBy { st3 with groupExprAliases := none } o false with
                      | error e2 => simp only [hor] at h; cases h
                      | ok ops =>
                        simp only [hor] at h
                        obtain ⟨honf, hotrail⟩ := translateOrderBy_shape _ _ _ _ hor
                        cases lim with
                        | none =>
                          cases h
                          exact FieldsDecomp_append _ _ (FieldsDecomp_base _ _ _ (by (repeat first
                        | exact pipesClean_nil
                        | exact hjclean
                        | exact collectFilterPrefilters_clean _ hc3
                        | exact collectFilterCleanup_clean _
                        | (apply pipesClean_singleton; rfl)
                        | apply pipesClean_append
                        | apply pipesClean_ite)) hpre0) (fun p hp => by
                        simp only [List.mem_singleton] at hp
                        subst hp
                        exact ⟨hotrail, honf⟩)
                        | some lc =>
                          cases hlim : translateLimit lc with
                          | error e2 => simp only [hlim] at h; cases h
                          | ok lps =>
                            simp only [hlim] at h
                            cases h
                            exact FieldsDecomp_append _ _ (FieldsDecomp_append _ _ (FieldsDecomp_base _ _ _ (by (repeat first
                        | exact pipesClean_nil
                        | exact hjclean
                        | exact collectFilterPrefilters_clean _ hc3
                        | exact collectFilterCleanup_clean _
                        | (apply pipesClean_singleton; rfl)
                        | apply pipesClean_append
                        | apply pipesClean_ite)) hpre0) (fun p hp => by
                        simp only [List.mem_singleton] at hp
                        subst hp
                        exact ⟨hotrail, honf⟩)) (translateLimit_shape _ _ hlim)
  | some wc =>
    obtain ⟨rf, ctes⟩ := wc
    cases hce : ctes.isEmpty with
    | true =>
      simp only [hce, Bool.not_true, Bool.false_eq_true, if_false] at h
      cases hso : so.isEmpty with
      | false => simp only [hso, Bool.not_false, if_true] at h; cases h
      | true =>
      simp only [hso, Bool.not_true, Bool.false_eq_true, if_false] at h
      split at h
      · cases h
      · rename_i prF hpf
        obtain ⟨joinPipes, st1⟩ := prF
        obtain ⟨hc1, hjclean⟩ :=
          processFrom_clean _ _ _ _ _ _ (fun kc hkc => absurd hkc (List.not_mem_nil kc)) hpf
        cases wh with
        | some e =>
          cases hbao : ensureBaseAliasesOnly st1 e with
          | error e2 => simp only [hbao] at h; cases h
          | ok u =>
            simp only [hbao] at h
            cases hte : translateExpr st1 e with
            | error e2 => simp only [hte] at h; cases h
            | ok prW =>
              obtain ⟨ws, st2⟩ := prW
              simp only [hte] at h
              have hc2 : FCClean st2 := translateExpr_clean e st1 _ _ hc1 hte
              cases hplf : translatePendingLeftFilters st2 st2.pendingLeftFilter [ws] with
              | error e2 => simp only [hplf] at h; cases h
              | ok prf =>
                obtain ⟨filters2, st3⟩ := prf
                simp only [hplf] at h
                have hc3 : FCClean st3 := pendingLeftFilters_clean _ _ _ _ _ hc2 hplf
                cases hbs : buildStatsPipe st3 [] cols with
                | error e2 => simp only [hbs] at h; cases h
                | ok outS =>
                  have houtS := buildStatsPipe_noAgg st3 cols outS hna hns hbs
                  subst houtS
                  simp only [hbs] at h
                  cases hv with
                  | some e2 =>
                    simp only [Bool.not_false, if_true] at h
                    cases h
                  | none =>
                  cases hproj : buildProjectionPipes { st3 with groupExprAliases := none }
                      cols false with
                  | error e2 => simp only [hproj] at h; cases h
                  | ok prj =>
                    obtain ⟨projPipes, projFields⟩ := prj
                    simp only [hproj] at h
                    obtain ⟨pre0, hpeq, hpre0⟩ := buildProjectionPipes_decomp _ _ _ _ hcne hns hproj
                    subst hpeq
                    cases d with
                    | true =>
                      cases hdp : buildDistinctPipe projFields false with
                      | error e2 => simp only [hdp, if_true] at h; cases h
                      | ok ds =>
                        obtain ⟨hdne, hdtrail, hdnf⟩ := buildDistinctPipe_shape _ _ hdp
                        simp only [hdp, if_true, hdne, Bool.not_false] at h
                        cases hoe : o.isEmpty with
                        | true =>
                          simp only [hoe, Bool.not_true, Bool.false_eq_true, if_false] at h
                          cases lim with
                          | none =>
                            cases h
                            exact FieldsDecomp_append _ _ (FieldsDecomp_base _ _ _ (by (repeat first
                          | exact pipesClean_nil
                          | exact hjclean
                          | exact collectFilterPrefilters_clean _ hc3
                          | exact collectFilterCleanup_clean _
                          | (apply pipesClean_singleton; rfl)
                          | apply pipesClean_append
                          | apply pipesClean_ite)) hpre0) (fun p hp => by
                          simp only [List.mem_singleton] at hp
                          subst hp
                          exact ⟨hdtrail, hdnf⟩)
                          | some lc =>
                            cases hlim : translateLimit lc with
                            | error e2 => simp only [hlim] at h; cases h
                            | ok lps =>
                              simp only [hlim] at h
                              cases h
                              exact FieldsDecomp_append _ _ (FieldsDecomp_append _ _ (FieldsDecomp_base _ _ _ (by (repeat first
                          | exact pipesClean_nil
                          | exact hjclean
                          | exact collectFilterPrefilters_clean _ hc3
                          | exact collectFilterCleanup_clean _
                          | (apply pipesClean_singleton; rfl)
                          | apply pipesClean_append
                          | apply pipesClean_ite)) hpre0) (fun p hp => by
                          simp only [List.mem_singleton] at hp
                          subst hp
                          exact ⟨hdtrail, hdnf⟩)) (translateLimit_shape _ _ hlim)
                        | false =>
                          simp only [hoe, Bool.not_false, if_true] at h
                          cases hor : translateOrderBy { st3 with groupExprAliases := none } o false with
                          | error e2 => simp only [hor] at h; cases h
                          | ok ops =>
                            simp only [hor] at h
                            obtain ⟨honf, hotrail⟩ := translateOrderBy_shape _ _ _ _ hor
                            cases lim with
                            | none =>
                              cases h
                              exact FieldsDecomp_append _ _ (FieldsDecomp_append _ _ (FieldsDecomp_base _ _ _ (by (repeat first
                          | exact pipesClean_nil
                          | exact hjclean
                          | exact collectFilterPrefilters_clean _ hc3
                          | exact collectFilterCleanup_clean _
                          | (apply pipesClean_singleton; rfl)
                          | apply pipesClean_append
                          | apply pipesClean_ite)) hpre0) (fun p hp => by
                          simp only [List.mem_singleton] at hp
                          subst hp
                          exact ⟨hdtrail, hdnf⟩)) (fun p hp => by
                          simp only [List.mem_singleton] at hp
                          subst hp
                          exact ⟨hotrail, honf⟩)
                            | some lc =>
                              cases hlim : translateLimit lc with
                              | error e2 => simp only [hlim] at h; cases h
                              | ok lps =>
                                simp only [hlim] at h
                                cases h
                                exact FieldsDecomp_append _ _
                                  (FieldsDecomp_append _ _ (FieldsDecomp_append _ _ (FieldsDecomp_base _ _ _ (by (repeat first
                          | exact pipesClean_nil
                          | exact hjclean
                          | exact collectFilterPrefilters_clean _ hc3
                          | exact collectFilterCleanup_clean _
                          | (apply pipesClean_singleton; rfl)
                          | apply pipesClean_append
                          | apply pipesClean_ite)) hpre0) (fun p hp => by
                          simp only [List.mem_singleton] at hp
                          subst hp
                          exact ⟨hdtrail, hdnf⟩)) (fun p hp => by
                          simp only [List.mem_singleton] at hp
                          subst hp
                          exact ⟨hotrail, honf⟩)) (translateLimit_shape _ _ hlim)
                    | false =>
                      simp only [Bool.false_eq_true, if_false] at h
                      cases hoe : o.isEmpty with
                      | true =>
                        simp only [hoe, Bool.not_true, Bool.false_eq_true, if_false] at h
                        cases lim with
                        | none =>
                          cases h
                          exact (FieldsDecomp_base _ _ _ (by (repeat first
                          | exact pipesClean_nil
                          | exact hjclean
                          | exact collectFilterPrefilters_clean _ hc3
                          | exact collectFilterCleanup_clean _
                          | (apply pipesClean_singleton; rfl)
                          | apply pipesClean_append
                          | apply pipesClean_ite)) hpre0)
                        | some lc =>
                          cases hlim : translateLimit lc with
                          | error e2 => simp only [hlim] at h; cases h
                          | ok lps =>
                            simp only [hlim] at h
                            cases h
                            exact FieldsDecomp_append _ _ (FieldsDecomp_base _ _ _ (by (repeat first
                          | exact pipesClean_nil
                          | exact hjclean
                          | exact collectFilterPrefilters_clean _ hc3
                          | exact collectFilterCleanup_clean _
                          | (apply pipesClean_singleton; rfl)
                          | apply pipesClean_append
                          | apply pipesClean_ite)) hpre0) (translateLimit_shape _ _ hlim)
                      | false =>
                        simp only [hoe, Bool.not_false, if_true] at h
                        cases hor : translateOrderBy { st3 with groupExprAliases := none } o false with
                        | error e2 => simp only [hor] at h; cases h
                        | ok ops =>
                          simp only [hor] at h
                          obtain ⟨honf, hotrail⟩ := translateOrderBy_shape _ _ _ _ hor
                          cases lim with
                          | none =>
                            cases h
                            exact FieldsDecomp_append _ _ (FieldsDecomp_base _ _ _ (by (repeat first
                          | exact pipesClean_nil
                          | exact hjclean
                          | exact collectFilterPrefilters_clean _ hc3
                          | exact collectFilterCleanup_clean _
                          | (apply pipesClean_singleton; rfl)
                          | apply pipesClean_append
                          | apply pipesClean_ite)) hpre0) (fun p hp => by
                          simp only [List.mem_singleton] at hp
                          subst hp
                          exact ⟨hotrail, honf⟩)
                          | some lc =>
                            cases hlim : translateLimit lc with
                            | error e2 => simp only [hlim] at h; cases h
                            | ok lps =>
                              simp only [hlim] at h
                              cases h
                              exact FieldsDecomp_append _ _ (FieldsDecomp_append _ _ (FieldsDecomp_base _ _ _ (by (repeat first
                          | exact pipesClean_nil
                          | exact hjclean
                          | exact collectFilterPrefilters_clean _ hc3
                          | exact collectFilterCleanup_clean _
                          | (apply pipesClean_singleton; rfl)
                          | apply pipesClean_append
                          | apply pipesClean_ite)) hpre0) (fun p hp => by
                          simp only [List.mem_singleton] at hp
                          subst hp
                          exact ⟨hotrail, honf⟩)) (translateLimit_shape _ _ hlim)
        | none =>
              cases hplf : translatePendingLeftFilters st1 st1.pendingLeftFilter ([] : List String) with
              | error e2 => simp only [hplf] at h; cases h
              | ok prf =>
                obtain ⟨filters2, st3⟩ := prf
                simp only [hplf] at h
                have hc3 : FCClean st3 := pendingLeftFilters_clean _ _ _ _ _ hc1 hplf
                cases hbs : buildStatsPipe st3 [] cols with
                | error e2 => simp only [hbs] at h; cases h
                | ok outS =>
                  have houtS := buildStatsPipe_noAgg st3 cols outS hna hns hbs
                  subst houtS
                  simp only [hbs] at h
                  cases hv with
                  | some e2 =>
                    simp only [Bool.not_false, if_true] at h
                    cases h
                  | none =>
                  cases hproj : buildProjectionPipes { st3 with groupExprAliases := none }
                      cols false with
                  | error e2 => simp only [hproj] at h; cases h
                  | ok prj =>
                    obtain ⟨projPipes, projFields⟩ := prj
                    simp only [hproj] at h
                    obtain ⟨pre0, hpeq, hpre0⟩ := buildProjectionPipes_decomp _ _ _ _ hcne hns hproj
                    subst hpeq
                    cases d with
                    | true =>
                      cases hdp : buildDistinctPipe projFields false with
                      | error e2 => simp only [hdp, if_true] at h; cases h
                      | ok ds =>
                        obtain ⟨hdne, hdtrail, hdnf⟩ := buildDistinctPipe_shape _ _ hdp
                        simp only [hdp, if_true, hdne, Bool.not_false] at h
                        cases hoe : o.isEmpty with
                        | true =>
                          simp only [hoe, Bool.not_true, Bool.false_eq_true, if_false] at h
                          cases lim with
                          | none =>
                            cases h
                            exact FieldsDecomp_append _ _ (FieldsDecomp_base _ _ _ (by (repeat first
                          | exact pipesClean_nil
                          | exact hjclean
                          | exact collectFilterPrefilters_clean _ hc3
                          | exact collectFilterCleanup_clean _
                          | (apply pipesClean_singleton; rfl)
                          | apply pipesClean_append
                          | apply pipesClean_ite)) hpre0) (fun p hp => by
                          simp only [List.mem_singleton] at hp
                          subst hp
                          exact ⟨hdtrail, hdnf⟩)
                          | some lc =>
                            cases hlim : translateLimit lc with
                            | error e2 => simp only [hlim] at h; cases h
                            | ok lps =>
                              simp only [hlim] at h
                              cases h
                              exact FieldsDecomp_append _ _ (FieldsDecomp_append _ _ (FieldsDecomp_base _ _ _ (by (repeat first
                          | exact pipesClean_nil
                          | exact hjclean
                          | exact collectFilterPrefilters_clean _ hc3
                          | exact collectFilterCleanup_clean _
                          | (apply pipesClean_singleton; rfl)
                          | apply pipesClean_append
                          | apply pipesClean_ite)) hpre0) (fun p hp => by
                          simp only [List.mem_singleton] at hp
                          subst hp
                          exact ⟨hdtrail, hdnf⟩)) (translateLimit_shape _ _ hlim)
                        | false =>
                          simp only [hoe, Bool.not_false, if_true] at h
                          cases hor : translateOrderBy { st3 with groupExprAliases := none } o false with
                          | error e2 => simp only [hor] at h; cases h
                          | ok ops =>
                            simp only [hor] at h
                            obtain ⟨honf, hotrail⟩ := translateOrderBy_shape _ _ _ _ hor
                            cases lim with
                            | none =>
                              cases h
                              exact FieldsDecomp_append _ _ (FieldsDecomp_append _ _ (FieldsDecomp_base _ _ _ (by (repeat first
                          | exact pipesClean_nil
                          | exact hjclean
                          | exact collectFilterPrefilters_clean _ hc3
                          | exact collectFilterCleanup_clean _
                          | (apply pipesClean_singleton; rfl)
                          | apply pipesClean_append
                          | apply pipesClean_ite)) hpre0) (fun p hp => by
                          simp only [List.mem_singleton] at hp
                          subst hp
                          exact ⟨hdtrail, hdnf⟩)) (fun p hp => by
                          simp only [List.mem_singleton] at hp
                          subst hp
                          exact ⟨hotrail, honf⟩)
                            | some lc =>
                              cases hlim : translateLimit lc with
                              | error e2 => simp only [hlim] at h; cases h
                              | ok lps =>
                                simp only [hlim] at h
                                cases h
                                exact FieldsDecomp_append _ _
                                  (FieldsDecomp_append _ _ (FieldsDecomp_append _ _ (FieldsDecomp_base _ _ _ (by (repeat first
                          | exact pipesClean_nil
                          | exact hjclean
                          | exact collectFilterPrefilters_clean _ hc3
                          | exact collectFilterCleanup_clean _
                          | (apply pipesClean_singleton; rfl)
                          | apply pipesClean_append
                          | apply pipesClean_ite)) hpre0) (fun p hp => by
                          simp only [List.mem_singleton] at hp
                          subst hp
                          exact ⟨hdtrail, hdnf⟩)) (fun p hp => by
                          simp only [List.mem_singleton] at hp
                          subst hp
                          exact ⟨hotrail, honf⟩)) (translateLimit_shape _ _ hlim)
                    | false =>
                      simp only [Bool.false_eq_true, if_false] at h
                      cases hoe : o.isEmpty with
                      | true =>
                        simp only [hoe, Bool.not_true, Bool.false_eq_true, if_false] at h
                        cases lim with
                        | none =>
                          cases h
                          exact (FieldsDecomp_base _ _ _ (by (repeat first
                          | exact pipesClean_nil
                          | exact hjclean
                          | exact collectFilterPrefilters_clean _ hc3
                          | exact collectFilterCleanup_clean _
                          | (apply pipesClean_singleton; rfl)
                          | apply pipesClean_append
                          | apply pipesClean_ite)) hpre0)
                        | some lc =>
                          cases hlim : translateLimit lc with
                          | error e2 => simp only [hlim] at h; cases h
                          | ok lps =>
                            simp only [hlim] at h
                            cases h
                            exact FieldsDecomp_append _ _ (FieldsDecomp_base _ _ _ (by (repeat first
                          | exact pipesClean_nil
                          | exact hjclean
                          | exact collectFilterPrefilters_clean _ hc3
                          | exact collectFilterCleanup_clean _
                          | (apply pipesClean_singleton; rfl)
                          | apply pipesClean_append
                          | apply pipesClean_ite)) hpre0) (translateLimit_shape _ _ hlim)
                      | false =>
                        simp only [hoe, Bool.not_false, if_true] at h
                        cases hor : translateOrderBy { st3 with groupExprAliases := none } o false with
                        | error e2 => simp only [hor] at h; cases h
                        | ok ops =>
                          simp only [hor] at h
                          obtain ⟨honf, hotrail⟩ := translateOrderBy_shape _ _ _ _ hor
                          cases lim with
                          | none =>
                            cases h
                            exact FieldsDecomp_append _ _ (FieldsDecomp_base _ _ _ (by (repeat first
                          | exact pipesClean_nil
                          | exact hjclean
                          | exact collectFilterPrefilters_clean _ hc3
                          | exact collectFilterCleanup_clean _
                          | (apply pipesClean_singleton; rfl)
                          | apply pipesClean_append
                          | apply pipesClean_ite)) hpre0) (fun p hp => by
                          simp only [List.mem_singleton] at hp
                          subst hp
                          exact ⟨hotrail, honf⟩)
                          | some lc =>
                            cases hlim : translateLimit lc with
                            | error e2 => simp only [hlim] at h; cases h
                            | ok lps =>
                              simp only [hlim] at h
                              cases h
                              exact FieldsDecomp_append _ _ (FieldsDecomp_append _ _ (FieldsDecomp_base _ _ _ (by (repeat first
                          | exact pipesClean_nil
                          | exact hjclean
                          | exact collectFilterPrefilters_clean _ hc3
                          | exact collectFilterCleanup_clean _
                          | (apply pipesClean_singleton; rfl)
                          | apply pipesClean_append
                          | apply pipesClean_ite)) hpre0) (fun p hp => by
                          simp only [List.mem_singleton] at hp
                          subst hp
                          exact ⟨hotrail, honf⟩)) (translateLimit_shape _ _ hlim)
    | false =>
      simp only [hce, Bool.not_false, if_true] at h
      cases rf with
      | true => simp only [if_true] at h; cases h
      | false =>
        simp only [Bool.false_eq_true, if_false] at h
        cases hcp : processCTEs n sp st0.availableCTEs ctes with
        | error e => simp only [hcp] at h; cases h
        | ok avail =>
          simp only [hcp] at h
          cases hso : so.isEmpty with
          | false => simp only [hso, Bool.not_false, if_true] at h; cases h
          | true =>
          simp only [hso, Bool.not_true, Bool.false_eq_true, if_false] at h
          split at h
          · cases h
          · rename_i prF hpf
            obtain ⟨joinPipes, st1⟩ := prF
            obtain ⟨hc1, hjclean⟩ :=
              processFrom_clean _ _ _ _ _ _ (fun kc hkc => absurd hkc (List.not_mem_nil kc)) hpf
            cases wh with
            | some e =>
              cases hbao : ensureBaseAliasesOnly st1 e with
              | error e2 => simp only [hbao] at h; cases h
              | ok u =>
                simp only [hbao] at h
                cases hte : translateExpr st1 e with
                | error e2 => simp only [hte] at h; cases h
                | ok prW =>
                  obtain ⟨ws, st2⟩ := prW
                  simp only [hte] at h
                  have hc2 : FCClean st2 := translateExpr_clean e st1 _ _ hc1 hte
                  cases hplf : translatePendingLeftFilters st2 st2.pendingLeftFilter [ws] with
                  | error e2 => simp only [hplf] at h; cases h
                  | ok prf =>
                    obtain ⟨filters2, st3⟩ := prf
                    simp only [hplf] at h
                    have hc3 : FCClean st3 := pendingLeftFilters_clean _ _ _ _ _ hc2 hplf
                    cases hbs : buildStatsPipe st3 [] cols with
                    | error e2 => simp only [hbs] at h; cases h
                    | ok outS =>
                      have houtS := buildStatsPipe_noAgg st3 cols outS hna hns hbs
                      subst houtS
                      simp only [hbs] at h
                      cases hv with
                      | some e2 =>
                        simp only [Bool.not_false, if_true] at h
                        cases h
                      | none =>
                      cases hproj : buildProjectionPipes { st3 with groupExprAliases := none }
                          cols false with
                      | error e2 => simp only [hproj] at h; cases h
                      | ok prj =>
                        obtain ⟨projPipes, projFields⟩ := prj
                        simp only [hproj] at h
                        obtain ⟨pre0, hpeq, hpre0⟩ := buildProjectionPipes_decomp _ _ _ _ hcne hns hproj
                        subst hpeq
                        cases d with
                        | true =>
                          cases hdp : buildDistinctPipe projFields false with
                          | error e2 => simp only [hdp, if_true] at h; cases h
                          | ok ds =>
                            obtain ⟨hdne, hdtrail, hdnf⟩ := buildDistinctPipe_shape _ _ hdp
                            simp only [hdp, if_true, hdne, Bool.not_false] at h
                            cases hoe : o.isEmpty with
                            | true =>
                              simp only [hoe, Bool.not_true, Bool.false_eq_true, if_false] at h
                              cases lim with
                              | none =>
                                cases h
                                exact FieldsDecomp_append _ _ (FieldsDecomp_base _ _ _ (by (repeat first
                              | exact pipesClean_nil
                              | exact hjclean
                              | exact collectFilterPrefilters_clean _ hc3
                              | exact collectFilterCleanup_clean _
                              | (apply pipesClean_singleton; rfl)
                              | apply pipesClean_append
                              | apply pipesClean_ite)) hpre0) (fun p hp => by
                              simp only [List.mem_singleton] at hp
                              subst hp
                              exact ⟨hdtrail, hdnf⟩)
                              | some lc =>
                                cases hlim : translateLimit lc with
                                | error e2 => simp only [hlim] at h; cases h
                                | ok lps =>
                                  simp only [hlim] at h
                                  cases h
                                  exact FieldsDecomp_append _ _ (FieldsDecomp_append _ _ (FieldsDecomp_base _ _ _ (by (repeat first
                              | exact pipesClean_nil
                              | exact hjclean
                              | exact collectFilterPrefilters_clean _ hc3
                              | exact collectFilterCleanup_clean _
                              | (apply pipesClean_singleton; rfl)
                              | apply pipesClean_append
                              | apply pipesClean_ite)) hpre0) (fun p hp => by
                              simp only [List.mem_singleton] at hp
                              subst hp
                              exact ⟨hdtrail, hdnf⟩)) (translateLimit_shape _ _ hlim)
                            | false =>
                              simp only [hoe, Bool.not_false, if_true] at h
                              cases hor : translateOrderBy { st3 with groupExprAliases := none } o false with
                              | error e2 => simp only [hor] at h; cases h
                              | ok ops =>
                                simp only [hor] at h
                                obtain ⟨honf, hotrail⟩ := translateOrderBy_shape _ _ _ _ hor
                                cases lim with
                                | none =>
                                  cases h
                                  exact FieldsDecomp_append _ _ (FieldsDecomp_append _ _ (FieldsDecomp_base _ _ _ (by (repeat first
                              | exact pipesClean_nil
                              | exact hjclean
                              | exact collectFilterPrefilters_clean _ hc3
                              | exact collectFilterCleanup_clean _
                              | (apply pipesClean_singleton; rfl)
                              | apply pipesClean_append
                              | apply pipesClean_ite)) hpre0) (fun p hp => by
                              simp only [List.mem_singleton] at hp
                              subst hp
                              exact ⟨hdtrail, hdnf⟩)) (fun p hp => by
                              simp only [List.mem_singleton] at hp
                              subst hp
                              exact ⟨hotrail, honf⟩)
                                | some lc =>
                                  cases hlim : translateLimit lc with
                                  | error e2 => simp only [hlim] at h; cases h
                                  | ok lps =>
                                    simp only [hlim] at h
                                    cases h
                                    exact FieldsDecomp_append _ _
                                      (FieldsDecomp_append _ _ (FieldsDecomp_append _ _ (FieldsDecomp_base _ _ _ (by (repeat first
                              | exact pipesClean_nil
                              | exact hjclean
                              | exact collectFilterPrefilters_clean _ hc3
                              | exact collectFilterCleanup_clean _
                              | (apply pipesClean_singleton; rfl)
                              | apply pipesClean_append
                              | apply pipesClean_ite)) hpre0) (fun p hp => by
                              simp only [List.mem_singleton] at hp
                              subst hp
                              exact ⟨hdtrail, hdnf⟩)) (fun p hp => by
                              simp only [List.mem_singleton] at hp
                              subst hp
                              exact ⟨hotrail, honf⟩)) (translateLimit_shape _ _ hlim)
                        | false =>
                          simp only [Bool.false_eq_true, if_false] at h
                          cases hoe : o.isEmpty with
                          | true =>
                            simp only [hoe, Bool.not_true, Bool.false_eq_true, if_false] at h
                            cases lim with
                            | none =>
                              cases h
                              exact (FieldsDecomp_base _ _ _ (by (repeat first
                              | exact pipesClean_nil
                              | exact hjclean
                              | exact collectFilterPrefilters_clean _ hc3
                              | exact collectFilterCleanup_clean _
                              | (apply pipesClean_singleton; rfl)
                              | apply pipesClean_append
                              | apply pipesClean_ite)) hpre0)
                            | some lc =>
                              cases hlim : translateLimit lc with
                              | error e2 => simp only [hlim] at h; cases h
                              | ok lps =>
                                simp only [hlim] at h
                                cases h
                                exact FieldsDecomp_append _ _ (FieldsDecomp_base _ _ _ (by (repeat first
                              | exact pipesClean_nil
                              | exact hjclean
                              | exact collectFilterPrefilters_clean _ hc3
                              | exact collectFilterCleanup_clean _
                              | (apply pipesClean_singleton; rfl)
                              | apply pipesClean_append
                              | apply pipesClean_ite)) hpre0) (translateLimit_shape _ _ hlim)
                          | false =>
                            simp only [hoe, Bool.not_false, if_true] at h
                            cases hor : translateOrderBy { st3 with groupExprAliases := none } o false with
                            | error e2 => simp only [hor] at h; cases h
                            | ok ops =>
                              simp only [hor] at h
                              obtain ⟨honf, hotrail⟩ := translateOrderBy_shape _ _ _ _ hor
                              cases lim with
                              | none =>
                                cases h
                                exact FieldsDecomp_append _ _ (FieldsDecomp_base _ _ _ (by (repeat first
                              | exact pipesClean_nil
                              | exact hjclean
                              | exact collectFilterPrefilters_clean _ hc3
                              | exact collectFilterCleanup_clean _
                              | (apply pipesClean_singleton; rfl)
                              | apply pipesClean_append
                              | apply pipesClean_ite)) hpre0) (fun p hp => by
                              simp only [List.mem_singleton] at hp
                              subst hp
                              exact ⟨hotrail, honf⟩)
                              | some lc =>
                                cases hlim : translateLimit lc with
                                | error e2 => simp only [hlim] at h; cases h
                                | ok lps =>
                                  simp only [hlim] at h
                                  cases h
                                  exact FieldsDecomp_append _ _ (FieldsDecomp_append _ _ (FieldsDecomp_base _ _ _ (by (repeat first
                              | exact pipesClean_nil
                              | exact hjclean
                              | exact collectFilterPrefilters_clean _ hc3
                              | exact collectFilterCleanup_clean _
                              | (apply pipesClean_singleton; rfl)
                              | apply pipesClean_append
                              | apply pipesClean_ite)) hpre0) (fun p hp => by
                              simp only [List.mem_singleton] at hp
                              subst hp
                              exact ⟨hotrail, honf⟩)) (translateLimit_shape _ _ hlim)
            | none =>
                  cases hplf : translatePendingLeftFilters st1 st1.pendingLeftFilter ([] : List String) with
                  | error e2 => simp only [hplf] at h; cases h
                  | ok prf =>
                    obtain ⟨filters2, st3⟩ := prf
                    simp only [hplf] at h
                    have hc3 : FCClean st3 := pendingLeftFilters_clean _ _ _ _ _ hc1 hplf
                    cases hbs : buildStatsPipe st3 [] cols with
                    | error e2 => simp only [hbs] at h; cases h
                    | ok outS =>
                      have houtS := buildStatsPipe_noAgg st3 cols outS hna hns hbs
                      subst houtS
                      simp only [hbs] at h
                      cases hv with
                      | some e2 =>
                        simp only [Bool.not_false, if_true] at h
                        cases h
                      | none =>
                      cases hproj : buildProjectionPipes { st3 with groupExprAliases := none }
                          cols false with
                      | error e2 => simp only [hproj] at h; cases h
                      | ok prj =>
                        obtain ⟨projPipes, projFields⟩ := prj
                        simp only [hproj] at h
                        obtain ⟨pre0, hpeq, hpre0⟩ := buildProjectionPipes_decomp _ _ _ _ hcne hns hproj
                        subst hpeq
                        cases d with
                        | true =>
                          cases hdp : buildDistinctPipe projFields false with
                          | error e2 => simp only [hdp, if_true] at h; cases h
                          | ok ds =>
                            obtain ⟨hdne, hdtrail, hdnf⟩ := buildDistinctPipe_shape _ _ hdp
                            simp only [hdp, if_true, hdne, Bool.not_false] at h
                            cases hoe : o.isEmpty with
                            | true =>
                              simp only [hoe, Bool.not_true, Bool.false_eq_true, if_false] at h
                              cases lim with
                              | none =>
                                cases h
                                exact FieldsDecomp_append _ _ (FieldsDecomp_base _ _ _ (by (repeat first
                              | exact pipesClean_nil
                              | exact hjclean
                              | exact collectFilterPrefilters_clean _ hc3
                              | exact collectFilterCleanup_clean _
                              | (apply pipesClean_singleton; rfl)
                              | apply pipesClean_append
                              | apply pipesClean_ite)) hpre0) (fun p hp => by
                              simp only [List.mem_singleton] at hp
                              subst hp
                              exact ⟨hdtrail, hdnf⟩)
                              | some lc =>
                                cases hlim : translateLimit lc with
                                | error e2 => simp only [hlim] at h; cases h
                                | ok lps =>
                                  simp only [hlim] at h
                                  cases h
                                  exact FieldsDecomp_append _ _ (FieldsDecomp_append _ _ (FieldsDecomp_base _ _ _ (by (repeat first
                              | exact pipesClean_nil
                              | exact hjclean
                              | exact collectFilterPrefilters_clean _ hc3
                              | exact collectFilterCleanup_clean _
                              | (apply pipesClean_singleton; rfl)
                              | apply pipesClean_append
                              | apply pipesClean_ite)) hpre0) (fun p hp => by
                              simp only [List.mem_singleton] at hp
                              subst hp
                              exact ⟨hdtrail, hdnf⟩)) (translateLimit_shape _ _ hlim)
                            | false =>
                              simp only [hoe, Bool.not_false, if_true] at h
                              cases hor : translateOrderBy { st3 with groupExprAliases := none } o false with
                              | error e2 => simp only [hor] at h; cases h
                              | ok ops =>
                                simp only [hor] at h
                                obtain ⟨honf, hotrail⟩ := translateOrderBy_shape _ _ _ _ hor
                                cases lim with
                                | none =>
                                  cases h
                                  exact FieldsDecomp_append _ _ (FieldsDecomp_append _ _ (FieldsDecomp_base _ _ _ (by (repeat first
                              | exact pipesClean_nil
                              | exact hjclean
                              | exact collectFilterPrefilters_clean _ hc3
                              | exact collectFilterCleanup_clean _
                              | (apply pipesClean_singleton; rfl)
                              | apply pipesClean_append
                              | apply pipesClean_ite)) hpre0) (fun p hp => by
                              simp only [List.mem_singleton] at hp
                              subst hp
                              exact ⟨hdtrail, hdnf⟩)) (fun p hp => by
                              simp only [List.mem_singleton] at hp
                              subst hp
                              exact ⟨hotrail, honf⟩)
                                | some lc =>
                                  cases hlim : translateLimit lc with
                                  | error e2 => simp only [hlim] at h; cases h
                                  | ok lps =>
                                    simp only [hlim] at h
                                    cases h
                                    exact FieldsDecomp_append _ _
                                      (FieldsDecomp_append _ _ (FieldsDecomp_append _ _ (FieldsDecomp_base _ _ _ (by (repeat first
                              | exact pipesClean_nil
                              | exact hjclean
                              | exact collectFilterPrefilters_clean _ hc3
                              | exact collectFilterCleanup_clean _
                              | (apply pipesClean_singleton; rfl)
                              | apply pipesClean_append
                              | apply pipesClean_ite)) hpre0) (fun p hp => by
                              simp only [List.mem_singleton] at hp
                              subst hp
                              exact ⟨hdtrail, hdnf⟩)) (fun p hp => by
                              simp only [List.mem_singleton] at hp
                              subst hp
                              exact ⟨hotrail, honf⟩)) (translateLimit_shape _ _ hlim)
                        | false =>
                          simp only [Bool.false_eq_true, if_false] at h
                          cases hoe : o.isEmpty with
                          | true =>
                            simp only [hoe, Bool.not_true, Bool.false_eq_true, if_false] at h
                            cases lim with
                            | none =>
                              cases h
                              exact (FieldsDecomp_base _ _ _ (by (repeat first
                              | exact pipesClean_nil
                              | exact hjclean
                              | exact collectFilterPrefilters_clean _ hc3
                              | exact collectFilterCleanup_clean _
                              | (apply pipesClean_singleton; rfl)
                              | apply pipesClean_append
                              | apply pipesClean_ite)) hpre0)
                            | some lc =>
                              cases hlim : translateLimit lc with
                              | error e2 => simp only [hlim] at h; cases h
                              | ok lps =>
                                simp only [hlim] at h
                                cases h
                                exact FieldsDecomp_append _ _ (FieldsDecomp_base _ _ _ (by (repeat first
                              | exact pipesClean_nil
                              | exact hjclean
                              | exact collectFilterPrefilters_clean _ hc3
                              | exact collectFilterCleanup_clean _
                              | (apply pipesClean_singleton; rfl)
                              | apply pipesClean_append
                              | apply pipesClean_ite)) hpre0) (translateLimit_shape _ _ hlim)
                          | false =>
                            simp only [hoe, Bool.not_false, if_true] at h
                            cases hor : translateOrderBy { st3 with groupExprAliases := none } o false with
                            | error e2 => simp only [hor] at h; cases h
                            | ok ops =>
                              simp only [hor] at h
                              obtain ⟨honf, hotrail⟩ := translateOrderBy_shape _ _ _ _ hor
                              cases lim with
                              | none =>
                                cases h
                                exact FieldsDecomp_append _ _ (FieldsDecomp_base _ _ _ (by (repeat first
                              | exact pipesClean_nil
                              | exact hjclean
                              | exact collectFilterPrefilters_clean _ hc3
                              | exact collectFilterCleanup_clean _
                              | (apply pipesClean_singleton; rfl)
                              | apply pipesClean_append
                              | apply pipesClean_ite)) hpre0) (fun p hp => by
                              simp only [List.mem_singleton] at hp
                              subst hp
                              exact ⟨hotrail, honf⟩)
                              | some lc =>
                                cases hlim : translateLimit lc with
                                | error e2 => simp only [hlim] at h; cases h
                                | ok lps =>
                                  simp only [hlim] at h
                                  cases h
                                  exact FieldsDecomp_append _ _ (FieldsDecomp_append _ _ (FieldsDecomp_base _ _ _ (by (repeat first
                              | exact pipesClean_nil
                              | exact hjclean
                              | exact collectFilterPrefilters_clean _ hc3
                              | exact collectFilterCleanup_clean _
                              | (apply pipesClean_singleton; rfl)
                              | apply pipesClean_append
                              | apply pipesClean_ite)) hpre0) (fun p hp => by
                              simp only [List.mem_singleton] at hp
                              subst hp
                              exact ⟨hotrail, honf⟩)) (translateLimit_shape _ _ hlim)

/-! ## Concrete inputs used by the claims -/

/-- Catalog with the single entry logs → `*`, and no view store. -/
def logsProvider : Provider := ⟨⟨[("logs", "*")]⟩, none⟩

/-- AST of `SELECT _time, _msg FROM logs ORDER BY _time DESC LIMIT 100`. -/
def c1Stmt : SelectStmt :=
  .mk none false [⟨.ident ["_time"], ""⟩, ⟨.ident ["_msg"], ""⟩]
    (some (.tableName (some ["logs"]) "")) none [] none
    [⟨.ident ["_time"], true⟩] (some (.mk (some (.numLit "100")) none)) []

/-- AST of `SELECT level, COUNT(*) AS total FROM logs GROUP BY level
HAVING COUNT(*) > 10`. -/
def c2Stmt : SelectStmt :=
  .mk none false
    [⟨.ident ["level"], ""⟩, ⟨.funcCall ["COUNT"] false [.star none] none, "total"⟩]
    (some (.tableName (some ["logs"]) "")) none [.ident ["level"]]
    (some (.binary (.funcCall ["COUNT"] false [.star none] none) ">" (.numLit "10")))
    [] none []

/-- AST of `SELECT * FROM logs WHERE message LIKE '%error_%'`. -/
def c3Stmt : SelectStmt :=
  .mk none false [⟨.star none, ""⟩]
    (some (.tableName (some ["logs"]) ""))
    (some (.likeE (.ident ["message"]) false (.strLit "%error_%")))
    [] none [] none []

/-! ## C1 -/

/-- C1 counterexample: on `SELECT _time, _msg FROM logs ORDER BY _time
DESC LIMIT 100` with catalog logs → `*`, the translator emits the
`fields` stage before `sort` and `limit`, not the claimed
`sort | limit | fields` order. -/
theorem claim_C1_counterexample :
    TranslateSelectStatementToLogsQL logsProvider c1Stmt =
      .ok "* | fields _time, _msg | sort by (_time desc) | limit 100" ∧
    ("* | fields _time, _msg | sort by (_time desc) | limit 100" ≠
      "* | sort by (_time desc) | limit 100 | fields _time, _msg") :=
  ⟨by decide, by decide⟩

/-- C1 amended: translating `SELECT _time, _msg FROM logs ORDER BY
_time DESC LIMIT 100` (catalog logs → `*`) produces exactly
`* | fields _time, _msg | sort by (_time desc) | limit 100`: for an
identifier-only projection with ORDER BY and LIMIT the `fields` stage is
emitted first, then `sort`, then `limit`. -/
theorem claim_C1 :
    TranslateSelectStatementToLogsQL logsProvider c1Stmt =
      .ok "* | fields _time, _msg | sort by (_time desc) | limit 100" := by
  decide

/-! ## C2 -/

/-- C2: translating `SELECT level, COUNT(*) AS total FROM logs GROUP BY
level HAVING COUNT(*) > 10` (catalog logs → `*`) produces exactly
`* | stats by (level) count() total | filter total:>10`: COUNT(*) maps
to count(), the user alias becomes the aggregate's result name, HAVING
becomes a `filter` stage after `stats` with the aggregate resolved to
its alias, and no `fields` stage is emitted. -/
theorem claim_C2 :
    TranslateSelectStatementToLogsQL logsProvider c2Stmt =
      .ok "* | stats by (level) count() total | filter total:>10" := by
  decide

/-! ## C7 -/

/-- Numeric literals are the only expressions whose `literalFromExpr`
value has the numeric kind. -/
theorem literalFromExpr_num (e : Expr) (v : String)
    (h : literalFromExpr e = .ok ⟨LiteralKind.num, v⟩) : e = .numLit v := by
  cases e <;> simp [literalFromExpr] at h <;> simp [h]

/-- C7: a LIMIT count or OFFSET operand that is present and not a
numeric literal makes `translateLimit` fail with a 400 TranslationError;
with both numeric operands the stages are `offset m` then `limit n` in
that order; with only one operand only that stage is emitted. -/
theorem claim_C7 :
    (∀ (cnt : Option Expr) (e : Expr), (∀ v, e ≠ Expr.numLit v) →
      ∃ msg, translateLimit (.mk cnt (some e)) = .error (.translation 400 msg)) ∧
    (∀ (off : Option Expr) (e : Expr), (∀ v, e ≠ Expr.numLit v) →
      ∃ msg, translateLimit (.mk (some e) off) = .error (.translation 400 msg)) ∧
    (∀ n m, translateLimit (.mk (some (.numLit n)) (some (.numLit m))) =
      .ok ["offset " ++ m, "limit " ++ n]) ∧
    (∀ n, translateLimit (.mk (some (.numLit n)) none) = .ok ["limit " ++ n]) ∧
    (∀ m, translateLimit (.mk none (some (.numLit m))) = .ok ["offset " ++ m]) := by
  refine ⟨?_, ?_, ?_, ?_, ?_⟩
  · intro cnt e h
    match he : literalFromExpr e with
    | .error err =>
      exact ⟨"translator: OFFSET expects numeric literal: " ++ err.message,
        by simp [translateLimit, he, badRequest, bind, Except.bind]⟩
    | .ok lit =>
      match hk : lit.kind with
      | .num =>
        exact absurd (literalFromExpr_num e lit.value (by rwa [← hk])) (h lit.value)
      | .str =>
        exact ⟨"translator: OFFSET expects numeric literal",
          by simp [translateLimit, he, hk, badRequest, bind, Except.bind]⟩
      | .bool =>
        exact ⟨"translator: OFFSET expects numeric literal",
          by simp [translateLimit, he, hk, badRequest, bind, Except.bind]⟩
  · intro off e h
    match off with
    | none =>
      match he : literalFromExpr e with
      | .error err =>
        exact ⟨"translator: LIMIT expects numeric literal: " ++ err.message,
          by simp [translateLimit, he, badRequest, bind, Except.bind]⟩
      | .ok lit =>
        match hk : lit.kind with
        | .num =>
          exact absurd (literalFromExpr_num e lit.value (by rwa [← hk])) (h lit.value)
        | .str =>
          exact ⟨"translator: LIMIT expects numeric literal",
            by simp [translateLimit, he, hk, badRequest, bind, Except.bind]⟩
        | .bool =>
          exact ⟨"translator: LIMIT expects numeric literal",
            by simp [translateLimit, he, hk, badRequest, bind, Except.bind]⟩
    | some oe =>
      match hoe : literalFromExpr oe with
      | .error err =>
        exact ⟨"translator: OFFSET expects numeric literal: " ++ err.message,
          by simp [translateLimit, hoe, badRequest, bind, Except.bind]⟩
      | .ok olit =>
        match hok : olit.kind with
        | .num =>
          match he : literalFromExpr e with
          | .error err =>
            exact ⟨"translator: LIMIT expects numeric literal: " ++ err.message,
              by simp [translateLimit, hoe, hok, he, badRequest, bind, Except.bind]⟩
          | .ok lit =>
            match hk : lit.kind with
            | .num =>
              exact absurd (literalFromExpr_num e lit.value (by rwa [← hk])) (h lit.value)
            | .str =>
              exact ⟨"translator: LIMIT expects numeric literal",
                by simp [translateLimit, hoe, hok, he, hk, badRequest, bind, Except.bind]⟩
            | .bool =>
              exact ⟨"translator: LIMIT expects numeric literal",
                by simp [translateLimit, hoe, hok, he, hk, badRequest, bind, Except.bind]⟩
        | .str =>
          exact ⟨"translator: OFFSET expects numeric literal",
            by simp [translateLimit, hoe, hok, badRequest, bind, Except.bind]⟩
        | .bool =>
          exact ⟨"translator: OFFSET expects numeric literal",
            by simp [translateLimit, hoe, hok, badRequest, bind, Except.bind]⟩
  · intro n m
    simp [translateLimit, literalFromExpr, bind, Except.bind]
  · intro n
    simp [translateLimit, literalFromExpr, bind, Except.bind]
  · intro m
    simp [translateLimit, literalFromExpr, bind, Except.bind]

/-- C7 witness: a string-literal LIMIT fails with 400, and numeric
LIMIT with OFFSET emits `offset` then `limit`. -/
theorem claim_C7_witness :
    (∃ msg, translateLimit (.mk (some (Expr.strLit "x")) none) =
      .error (.translation 400 msg)) ∧
    translateLimit (.mk (some (.numLit "10")) (some (.numLit "5"))) =
      .ok ["offset 5", "limit 10"] :=
  ⟨claim_C7.2.1 none (Expr.strLit "x") (fun v h => Expr.noConfusion h),
   claim_C7.2.2.1 "10" "5"⟩

/-! ## C10 -/

/-- The claim's description of the quoting: every `\` and `"` gets a
backslash, the result is wrapped in double quotes. -/
theorem quoteChars_spec (l : List Char) :
    quoteChars l = l.flatMap (fun c => if c = '\\' ∨ c = '"' then ['\\', c] else [c]) := by
  induction l with
  | nil => rfl
  | cons c rest ih =>
    by_cases hc : c = '\\' ∨ c = '"'
    · have hb : (c == '\\' || c == '"') = true := by
        rcases hc with h | h <;> simp [h]
      simp [quoteChars, hb, hc, ih]
    · have hb : (c == '\\' || c == '"') = false := by
        push_neg at hc
        simp [hc.1, hc.2]
      simp [quoteChars, hb, hc, ih]

/-- On singleton lists `String.intercalate` is the element itself. -/
theorem intercalate_singleton (s x : String) : String.intercalate s [x] = x := by
  cases x
  simp [String.intercalate, String.intercalate.go]

/-- C10: a single-part identifier is never stripped — whatever the
bindings, it is emitted as itself (bare when it matches the safe class,
quoted otherwise, never empty); a multi-part identifier loses its first
segment exactly when that segment's lower-casing is a registered
binding; and quoting escapes `\` and `"` with a backslash. -/
theorem claim_C10 :
    (∀ (st : TransState) (p : String), p ≠ "" →
      normalizeIdentifier st [p] =
        .ok (if safeBareLiteral p then p else quoteString p)) ∧
    (∀ (st : TransState) (p q : String) (ps : List String),
      st.bindings.contains (goToLower p) = true →
      normalizeIdentifier st (p :: q :: ps) =
        (let field := String.intercalate "." (q :: ps)
         if field = "" then .error (badRequest ("translator: invalid identifier"))
         else if safeBareLiteral field then .ok field else .ok (quoteString field))) ∧
    (∀ (st : TransState) (p q : String) (ps : List String),
      st.bindings.contains (goToLower p) = false →
      normalizeIdentifier st (p :: q :: ps) =
        (let field := String.intercalate "." (p :: (q :: ps))
         if field = "" then .error (badRequest ("translator: invalid identifier"))
         else if safeBareLiteral field then .ok field else .ok (quoteString field))) ∧
    (∀ s : String, quoteString s =
      String.mk ('"' ::
        (s.data.flatMap (fun c => if c = '\\' ∨ c = '"' then ['\\', c] else [c]) ++ ['"']))) ∧
    (∀ f : String, safeBareLiteral f = true ↔
      (f.data ≠ [] ∧ ∀ c ∈ f.data, safeBareChar c = true)) := by
  refine ⟨?_, ?_, ?_, ?_, ?_⟩
  · intro st p hp
    have hfield : String.intercalate "." [p] = p := intercalate_singleton _ _
    simp only [normalizeIdentifier, List.isEmpty_nil, Bool.not_true, Bool.false_and,
      if_neg (by simp : ¬(false = true)), hfield]
    simp only [beq_iff_eq, if_neg hp]
    by_cases hb : safeBareLiteral p = true
    · simp [hb]
    · simp [hb]
  · intro st p q ps hb
    have hm : goToLower p ∈ st.bindings := by simpa using hb
    simp [normalizeIdentifier, hm]
  · intro st p q ps hb
    have hm : goToLower p ∉ st.bindings := by simpa using hb
    simp [normalizeIdentifier, hm]
  · intro s
    simp [quoteString, quoteChars_spec]
  · intro f
    simp [safeBareLiteral, List.all_eq_true, List.isEmpty_iff]

/-- C10 witness: with binding `logs`, the single-part identifier `logs`
is emitted unchanged, the qualifier of `logs.level` is stripped, and an
unsafe field is quoted with escapes. -/
theorem claim_C10_witness :
    normalizeIdentifier (newVisitorState []) ["sp ace"] = .ok (quoteString "sp ace") ∧
    normalizeIdentifier
      { newVisitorState [] with bindings := ["logs"] } ["logs"] = .ok "logs" ∧
    normalizeIdentifier
      { newVisitorState [] with bindings := ["logs"] } ["logs", "level"] = .ok "level" := by
  refine ⟨?_, ?_, ?_⟩
  · have h := claim_C10.1 (newVisitorState []) "sp ace" (by decide)
    rw [h]
    decide
  · have h := claim_C10.1 { newVisitorState [] with bindings := ["logs"] } "logs" (by decide)
    rw [h]
    decide
  · have h := claim_C10.2.1 { newVisitorState [] with bindings := ["logs"] } "logs" "level" []
      (by decide)
    rw [h]
    decide

/-! ## C3 -/

/-- AST of `SELECT * FROM logs WHERE message NOT LIKE '%error_%'`. -/
def c3NotStmt : SelectStmt :=
  .mk none false [⟨.star none, ""⟩]
    (some (.tableName (some ["logs"]) ""))
    (some (.likeE (.ident ["message"]) true (.strLit "%error_%")))
    [] none [] none []

/-- A concrete translator state with no bindings, used to witness C3. -/
def c3St : TransState := ⟨[], "", [], none, none, [], false, "", "", [], [], []⟩

/-- C3: the LIKE lowering case split.  A pattern with no `%` and no `_`
lowers to the bare/quoted string; a pattern `p%` lowers to the wildcard
`p*`; `%s` lowers to `*s`; `%m%` lowers to `*m*`; every other pattern
lowers to the anchored regex clause starting with a tilde; NOT LIKE
prepends `-` to the clause; and the full query on `message LIKE
'%error_%'` yields exactly the claimed filter. -/
theorem claim_C3 :
    (∀ pat : String, '%' ∉ pat.data → '_' ∉ pat.data →
      convertLikePattern pat = formatString pat) ∧
    (∀ pfx : List Char, '%' ∉ pfx → '_' ∉ pfx →
      convertLikePattern (String.mk (pfx ++ ['%'])) = formatWildcard (String.mk pfx ++ "*")) ∧
    (∀ sfx : List Char, sfx ≠ [] → '%' ∉ sfx → '_' ∉ sfx →
      convertLikePattern (String.mk ('%' :: sfx)) = formatWildcard ("*" ++ String.mk sfx)) ∧
    (∀ mid : List Char, mid ≠ [] → '%' ∉ mid → '_' ∉ mid →
      convertLikePattern (String.mk ('%' :: (mid ++ ['%']))) =
        formatWildcard ("*" ++ (String.mk mid ++ "*"))) ∧
    (∀ pat : String,
      ¬ (pat.data.count '%' = 0 ∧ '_' ∉ pat.data) →
      ¬ (pat.data.count '%' = 1 ∧ pat.data.getLast? = some '%' ∧ '_' ∉ pat.data) →
      ¬ (pat.data.count '%' = 1 ∧ pat.data.head? = some '%' ∧ '_' ∉ pat.data) →
      ¬ (pat.data.count '%' = 2 ∧ pat.data.head? = some '%' ∧
          pat.data.getLast? = some '%' ∧ '_' ∉ pat.data ∧
          (pat.data.drop 1).dropLast.count '%' = 0) →
      convertLikePattern pat = "~" ++ quoteString (likeToRegex pat)) ∧
    (∀ (st : TransState) (parts : List String) (pat : String) (isNot : Bool) (f : String),
      normalizeIdentifier st parts = .ok f →
      translateLikeExpr st (.ident parts) isNot (.strLit pat) =
        .ok ((if isNot then "-" else "") ++ (f ++ (":" ++ convertLikePattern pat)), st)) ∧
    TranslateSelectStatementToLogsQL logsProvider c3Stmt = .ok "message:~\"^.*error..*$\"" ∧
    TranslateSelectStatementToLogsQL logsProvider c3NotStmt =
      .ok "-message:~\"^.*error..*$\"" := by
  refine ⟨?_, ?_, ?_, ?_, ?_, ?_, by decide, by decide⟩
  · intro pat hp hu
    have hc : pat.data.count '%' = 0 := List.count_eq_zero.mpr hp
    have hcontains : pat.data.contains '_' = false := by simp [hu]
    simp [convertLikePattern, hc, hcontains]
    exact fun hmm => absurd hmm hu
  · intro pfx hp hu
    have hc : (pfx ++ ['%']).count '%' = 1 := by
      simp [List.count_append, List.count_eq_zero.mpr hp]
    have hlast : (pfx ++ ['%']).getLast? = some '%' := List.getLast?_concat _
    have hmem : '_' ∉ pfx ++ ['%'] := by simp [hu]
    have hcontains : (pfx ++ ['%']).contains '_' = false := by simp [hmem]
    by_cases hpfx : pfx = []
    · subst hpfx; decide
    · have hne : (String.mk pfx == "") = false := by
        simp only [beq_eq_false_iff_ne, ne_eq]
        intro hh; exact hpfx (congrArg String.data hh)
      simp [convertLikePattern, hc, hlast, hcontains, List.dropLast_concat, hne]
      exact fun hmm => absurd hmm hu
  · intro sfx hne hp hu
    have hc : ('%' :: sfx).count '%' = 1 := by
      simp [List.count_cons, List.count_eq_zero.mpr hp]
    have hmem : '_' ∉ '%' :: sfx := by simp [hu]
    have hcontains : ('%' :: sfx).contains '_' = false := by simp [hmem]
    have hlastne : (('%' :: sfx).getLast? == some '%') = false := by
      simp only [beq_eq_false_iff_ne, ne_eq]
      intro hl
      rw [show ('%' :: sfx) = ['%'] ++ sfx from rfl,
          List.getLast?_append_of_ne_nil _ hne,
          List.getLast?_eq_getLast_of_ne_nil hne, Option.some.injEq] at hl
      exact hp (hl ▸ List.getLast_mem hne)
    have hsne : (String.mk sfx == "") = false := by
      simp only [beq_eq_false_iff_ne, ne_eq]
      intro hh; exact hne (congrArg String.data hh)
    simp [convertLikePattern, hc, hcontains, hlastne, hsne]
    exact fun hmm => absurd hmm hu
  · intro mid hne hp hu
    have hc : ('%' :: (mid ++ ['%'])).count '%' = 2 := by
      simp [List.count_cons, List.count_append, List.count_eq_zero.mpr hp]
    have hmem : '_' ∉ '%' :: (mid ++ ['%']) := by simp [hu]
    have hcontains : ('%' :: (mid ++ ['%'])).contains '_' = false := by simp [hmem]
    have hlast : ('%' :: (mid ++ ['%'])).getLast? = some '%' := by
      rw [show ('%' :: (mid ++ ['%'])) = ('%' :: mid) ++ ['%'] from by simp]
      exact List.getLast?_concat _
    have hmid : (('%' :: (mid ++ ['%'])).drop 1).dropLast.count '%' = 0 := by
      simp [List.dropLast_concat, List.count_eq_zero.mpr hp]
    have hsne : (String.mk mid == "") = false := by
      simp only [beq_eq_false_iff_ne, ne_eq]
      intro hh; exact hne (congrArg String.data hh)
    simp [convertLikePattern, hc, hcontains, hlast, hmid, hsne, List.dropLast_concat]
    exact fun hcontra => absurd (List.count_eq_zero.mpr hp) (hcontra hu)
  · intro pat h1 h2 h3 h4
    have h1' : (pat.data.count '%' == 0 && !pat.data.contains '_') = false := by
      cases hb : (pat.data.count '%' == 0 && !pat.data.contains '_') with
      | false => rfl
      | true =>
        simp only [Bool.and_eq_true, beq_iff_eq, Bool.not_eq_true'] at hb
        exact absurd ⟨hb.1, fun hmem => by simp [hmem] at hb⟩ h1
    have h2' : (pat.data.count '%' == 1 && pat.data.getLast? == some '%' &&
        !pat.data.contains '_') = false := by
      cases hb : (pat.data.count '%' == 1 && pat.data.getLast? == some '%' &&
          !pat.data.contains '_') with
      | false => rfl
      | true =>
        simp only [Bool.and_eq_true, beq_iff_eq, Bool.not_eq_true'] at hb
        exact absurd ⟨hb.1.1, hb.1.2, fun hmem => by simp [hmem] at hb⟩ h2
    have h3' : (pat.data.count '%' == 1 && pat.data.head? == some '%' &&
        !pat.data.contains '_') = false := by
      cases hb : (pat.data.count '%' == 1 && pat.data.head? == some '%' &&
          !pat.data.contains '_') with
      | false => rfl
      | true =>
        simp only [Bool.and_eq_true, beq_iff_eq, Bool.not_eq_true'] at hb
        exact absurd ⟨hb.1.1, hb.1.2, fun hmem => by simp [hmem] at hb⟩ h3
    have h4' : (pat.data.count '%' == 2 && pat.data.head? == some '%' &&
        pat.data.getLast? == some '%' && !pat.data.contains '_' &&
        (pat.data.drop 1).dropLast.count '%' == 0) = false := by
      cases hb : (pat.data.count '%' == 2 && pat.data.head? == some '%' &&
          pat.data.getLast? == some '%' && !pat.data.contains '_' &&
          (pat.data.drop 1).dropLast.count '%' == 0) with
      | false => rfl
      | true =>
        simp only [Bool.and_eq_true, beq_iff_eq, Bool.not_eq_true'] at hb
        exact absurd ⟨hb.1.1.1.1, hb.1.1.1.2, hb.1.1.2,
          fun hmem => by simp [hmem] at hb, hb.2⟩ h4
    simp only [convertLikePattern]
    rw [h1', h2', h3', h4']
    simp
  · intro st parts pat isNot f h
    cases isNot with
    | false =>
      simp [translateLikeExpr, filterFieldFromExpr, fieldNameFromExpr, h,
        literalFromExpr, bind, Except.bind, LiteralValue.kind]
    | true =>
      simp [translateLikeExpr, filterFieldFromExpr, fieldNameFromExpr, h,
        literalFromExpr, bind, Except.bind, LiteralValue.kind]

/-- Witness for C3: each hypothesised component applied at a concrete input. -/
theorem claim_C3_witness :
    convertLikePattern "abc" = formatString "abc" ∧
    convertLikePattern (String.mk (['a'] ++ ['%'])) = formatWildcard (String.mk ['a'] ++ "*") ∧
    convertLikePattern (String.mk ('%' :: ['b'])) = formatWildcard ("*" ++ String.mk ['b']) ∧
    convertLikePattern (String.mk ('%' :: (['c'] ++ ['%']))) =
      formatWildcard ("*" ++ (String.mk ['c'] ++ "*")) ∧
    convertLikePattern "a%b" = "~" ++ quoteString (likeToRegex "a%b") ∧
    translateLikeExpr c3St (.ident ["message"]) true (.strLit "x%") =
      .ok ((if true then "-" else "") ++ ("message" ++ (":" ++ convertLikePattern "x%")), c3St) :=
  ⟨claim_C3.1 "abc" (by decide) (by decide),
   claim_C3.2.1 ['a'] (by decide) (by decide),
   claim_C3.2.2.1 ['b'] (by decide) (by decide) (by decide),
   claim_C3.2.2.2.1 ['c'] (by decide) (by decide) (by decide),
   claim_C3.2.2.2.2.1 "a%b" (by decide) (by decide) (by decide) (by decide),
   claim_C3.2.2.2.2.2.1 c3St ["message"] "x%" true "message" (by decide)⟩

/-! ## C4 -/

/-- C4: when the view file already exists and the lock is free,
`Save` with IF NOT EXISTS succeeds without touching the view file,
`Save` with no options fails with the already-exists store error and
leaves the file unchanged, and on every option combination the `.lock`
file is gone when `Save` returns. -/
theorem claim_C4 (fs : FS) (parts : List String) (q fileName displayName : String)
    (hsan : sanitizeViewFileName parts = .ok (fileName, displayName))
    (hlock : fsGet fs (fileName ++ ".lock") = none) :
    ((fsGet fs (fileName ++ ".logsql")).isSome →
      (∀ opts : ViewOptions, opts.ifNotExists = true →
        (viewStoreSave fs parts q opts).1 = .ok (fileName ++ ".logsql") ∧
        fsGet (viewStoreSave fs parts q opts).2 (fileName ++ ".logsql") =
          fsGet fs (fileName ++ ".logsql")) ∧
      ((viewStoreSave fs parts q ⟨false, false⟩).1 =
          .error (.store 400 ("viewstore: view " ++ (displayName ++ " already exists"))) ∧
        fsGet (viewStoreSave fs parts q ⟨false, false⟩).2 (fileName ++ ".logsql") =
          fsGet fs (fileName ++ ".logsql"))) ∧
    (∀ opts : ViewOptions, fsGet (viewStoreSave fs parts q opts).2 (fileName ++ ".lock") = none) := by
  have hne := lock_ne_view fileName
  have hv1 : fsGet (fsSet fs (fileName ++ ".lock") "") (fileName ++ ".logsql") =
      fsGet fs (fileName ++ ".logsql") := fsGet_fsSet_ne _ _ _ _ hne
  constructor
  · intro hexists
    obtain ⟨v, hv⟩ := Option.isSome_iff_exists.mp hexists
    constructor
    · intro opts hifne
      simp only [viewStoreSave, hsan, hlock, Option.isSome_none, Bool.false_eq_true,
        if_false, hv1, hv, hifne, if_true]
      exact ⟨trivial, by rw [fsGet_fsRemove_ne _ _ _ (fun hh => hne hh), hv1, hv]⟩
    · simp only [viewStoreSave, hsan, hlock, Option.isSome_none, Bool.false_eq_true,
        if_false, hv1, hv, Bool.not_false, if_true]
      exact ⟨trivial, by rw [fsGet_fsRemove_ne _ _ _ (fun hh => hne hh), hv1, hv]⟩
  · intro opts
    cases hvp : fsGet fs (fileName ++ ".logsql") with
    | none =>
      simp only [viewStoreSave, hsan, hlock, Option.isSome_none, Bool.false_eq_true,
        if_false, hv1, hvp]
      exact fsGet_fsRemove_self _ _
    | some v =>
      simp only [viewStoreSave, hsan, hlock, Option.isSome_none, Bool.false_eq_true,
        if_false, hv1, hvp]
      cases hni : opts.ifNotExists with
      | true =>
        simp only [if_true]
        exact fsGet_fsRemove_self _ _
      | false =>
        simp only [Bool.false_eq_true, if_false]
        cases hor : opts.orReplace with
        | false =>
          simp only [Bool.not_false, if_true]
          exact fsGet_fsRemove_self _ _
        | true =>
          simp only [Bool.not_true, Bool.false_eq_true, if_false]
          exact fsGet_fsRemove_self _ _

/-- Witness for C4 on a concrete one-file directory. -/
theorem claim_C4_witness :
    (viewStoreSave [("v.logsql", "old")] ["v"] "new" ⟨false, true⟩).1 = .ok ("v" ++ ".logsql") ∧
    fsGet (viewStoreSave [("v.logsql", "old")] ["v"] "new" ⟨false, true⟩).2 ("v" ++ ".logsql") =
      fsGet [("v.logsql", "old")] ("v" ++ ".logsql") ∧
    ((viewStoreSave [("v.logsql", "old")] ["v"] "new" ⟨false, false⟩).1 =
        .error (.store 400 ("viewstore: view " ++ ("v" ++ " already exists"))) ∧
      fsGet (viewStoreSave [("v.logsql", "old")] ["v"] "new" ⟨false, false⟩).2 ("v" ++ ".logsql") =
        fsGet [("v.logsql", "old")] ("v" ++ ".logsql")) ∧
    fsGet (viewStoreSave [("v.logsql", "old")] ["v"] "new" ⟨true, true⟩).2 ("v" ++ ".lock") =
      none := by
  have h := claim_C4 [("v.logsql", "old")] ["v"] "new" "v" "v" (by decide) (by decide)
  have ha := (h.1 (by decide)).1 ⟨false, true⟩ rfl
  exact ⟨ha.1, ha.2, (h.1 (by decide)).2, h.2 ⟨true, true⟩⟩

/-! ## C5 -/

/-- Counterexample to C5 as stated: the non-empty query consisting of a
single newline is saved successfully, but the following `Load` reports
the view as empty instead of returning it. -/
theorem claim_C5_counterexample :
    ("\n" : String) ≠ "" ∧
    (viewStoreSave [] ["v"] "\n" ⟨false, false⟩).1 = .ok "v.logsql" ∧
    viewStoreLoad (viewStoreSave [] ["v"] "\n" ⟨false, false⟩).2 ["v"] =
      .error (.plain "viewstore: view v is empty") := by decide

/-- C5 (amended): for a query whose content is non-blank after trailing
newline stripping, every `Save` that actually writes (fresh view, or OR
REPLACE without IF NOT EXISTS) is followed by a `Load` returning
found = true and the query with trailing newline(s) stripped. -/
theorem claim_C5 (fs : FS) (parts : List String) (q fileName displayName : String)
    (opts : ViewOptions)
    (hsan : sanitizeViewFileName parts = .ok (fileName, displayName))
    (hlock : fsGet fs (fileName ++ ".lock") = none)
    (hnb : ¬ goTrimSpace (goTrimRightRN q) = "")
    (hwrite : fsGet fs (fileName ++ ".logsql") = none ∨
      (opts.ifNotExists = false ∧ opts.orReplace = true)) :
    (viewStoreSave fs parts q opts).1 = .ok (fileName ++ ".logsql") ∧
    viewStoreLoad (viewStoreSave fs parts q opts).2 parts =
      .ok (goTrimRightRN q, displayName, true) := by
  have hne := lock_ne_view fileName
  have hv1 : fsGet (fsSet fs (fileName ++ ".lock") "") (fileName ++ ".logsql") =
      fsGet fs (fileName ++ ".logsql") := fsGet_fsSet_ne _ _ _ _ hne
  have hcontent : goTrimRightRN (q ++ (if (q.data.getLast? == some '\n') then "" else "\n")) =
      goTrimRightRN q := by
    cases hql : (q.data.getLast? == some '\n') with
    | true =>
      simp only [if_true]
      rw [append_empty]
    | false =>
      simp only [Bool.false_eq_true, if_false]
      exact trimRN_concat q
  have hload : viewStoreLoad
      (fsRemove (fsSet (fsSet fs (fileName ++ ".lock") "") (fileName ++ ".logsql")
        (q ++ (if (q.data.getLast? == some '\n') then "" else "\n"))) (fileName ++ ".lock"))
      parts = .ok (goTrimRightRN q, displayName, true) := by
    simp only [viewStoreLoad, hsan]
    rw [fsGet_fsRemove_ne _ _ _ hne, fsGet_fsSet_self]
    simp only [hcontent, show (goTrimSpace (goTrimRightRN q) == "") = false by simpa using hnb,
      Bool.false_eq_true, if_false]
  rcases hwrite with hvp | ⟨hni, hor⟩
  · simp only [viewStoreSave, hsan, hlock, Option.isSome_none, Bool.false_eq_true,
      if_false, hv1, hvp]
    exact ⟨trivial, hload⟩
  · cases hvp : fsGet fs (fileName ++ ".logsql") with
    | none =>
      simp only [viewStoreSave, hsan, hlock, Option.isSome_none, Bool.false_eq_true,
        if_false, hv1, hvp]
      exact ⟨trivial, hload⟩
    | some v =>
      simp only [viewStoreSave, hsan, hlock, Option.isSome_none, Bool.false_eq_true,
        if_false, hv1, hvp, hni, hor, Bool.not_true, if_false]
      exact ⟨trivial, hload⟩

/-- Witness for C5 on a concrete fresh save. -/
theorem claim_C5_witness :
    (viewStoreSave [] ["v"] "q1" ⟨false, false⟩).1 = .ok ("v" ++ ".logsql") ∧
    viewStoreLoad (viewStoreSave [] ["v"] "q1" ⟨false, false⟩).2 ["v"] =
      .ok (goTrimRightRN "q1", "v", true) :=
  claim_C5 [] ["v"] "q1" "v" "v" ⟨false, false⟩ (by decide) (by decide) (by decide)
    (.inl (by decide))

/-! ## C8 -/

/-- C8: catalog names are trimmed and lower-cased so lookup succeeds for
any casing of a stored name; construction rejects blank names and
normalised duplicates; and a stored expression is classified as the
universal filter, a pipeline (contains a pipe), or a bare filter. -/
theorem claim_C8 :
    (∀ (src : List (String × String)) (ts : TableStore) (p : String × String) (s : String),
      NewTableStore src = .ok ts → p ∈ src →
      goToLower s = goToLower (goTrimSpace p.1) →
      ts.getTableQuery (goToLower s) = some (goTrimSpace p.2)) ∧
    (∀ (src : List (String × String)) (p : String × String),
      p ∈ src → goTrimSpace p.1 = "" → ∀ ts : TableStore, ¬ NewTableStore src = .ok ts) ∧
    (∀ (src : List (String × String)) (ts : TableStore),
      NewTableStore src = .ok ts →
      (src.map (fun p => goToLower (goTrimSpace p.1))).Nodup) ∧
    (∀ e : String, goTrimSpace e = "" ∨ goTrimSpace e = "*" →
      newTableSpec e = ⟨"*", ""⟩) ∧
    (∀ e : String, ¬ goTrimSpace e = "" → ¬ goTrimSpace e = "*" →
      (goTrimSpace e).data.contains '|' = true →
      newTableSpec e = ⟨"", goTrimSpace e⟩) ∧
    (∀ e : String, ¬ goTrimSpace e = "" → ¬ goTrimSpace e = "*" →
      (goTrimSpace e).data.contains '|' = false →
      newTableSpec e = ⟨goTrimSpace e, ""⟩) := by
  have hinv : ∀ (src : List (String × String)) (ts : TableStore),
      NewTableStore src = .ok ts → normalizeTableMapGo src [] = .ok ts.tables := by
    intro src ts hok
    simp only [NewTableStore, normalizeTableMap] at hok
    cases hn : normalizeTableMapGo src [] with
    | error e => rw [hn] at hok; cases hok
    | ok m => rw [hn] at hok; cases hok; rfl
  refine ⟨?_, ?_, ?_, ?_, ?_, ?_⟩
  · intro src ts p s hok hmem hcase
    rw [show ts.getTableQuery (goToLower s) = mapGet ts.tables (goToLower s) from rfl, hcase]
    exact ntmGo_mem_lookup src [] ts.tables (hinv src ts hok) p hmem
  · intro src p hmem hemp ts hok
    exact ntmGo_no_empty src [] ts.tables (hinv src ts hok) p hmem hemp
  · intro src ts hok
    exact (ntmGo_nodup src [] ts.tables (hinv src ts hok)).1
  · intro e he
    rcases he with he | he <;> simp [newTableSpec, he]
  · intro e h1 h2 h3
    simp [newTableSpec, show (goTrimSpace e == "") = false by simpa using h1,
      show (goTrimSpace e == "*") = false by simpa using h2, h3]
    exact fun hmm => absurd (by simpa using h3) hmm
  · intro e h1 h2 h3
    simp [newTableSpec, show (goTrimSpace e == "") = false by simpa using h1,
      show (goTrimSpace e == "*") = false by simpa using h2, h3]
    intro hmm
    have hcc : (goTrimSpace e).data.contains '|' = true := by simp [hmm]
    rw [h3] at hcc
    cases hcc

/-- Witness for C8 at concrete catalogs and expressions. -/
theorem claim_C8_witness :
    TableStore.getTableQuery ⟨[("logs", "*")]⟩ (goToLower "LOGS") = some (goTrimSpace "*") ∧
    ¬ NewTableStore [("  ", "x")] = .ok (⟨[]⟩ : TableStore) ∧
    ([("a", "1")].map (fun p => goToLower (goTrimSpace p.1))).Nodup ∧
    newTableSpec " * " = ⟨"*", ""⟩ ∧
    newTableSpec "a | b" = ⟨"", "a | b"⟩ ∧
    newTableSpec "foo" = ⟨"foo", ""⟩ := by
  have h := claim_C8
  refine ⟨?_, h.2.1 [("  ", "x")] ("  ", "x") (by decide) (by decide) ⟨[]⟩,
    h.2.2.1 [("a", "1")] ⟨[("a", "1")]⟩ (by decide),
    h.2.2.2.1 " * " (.inr (by decide)),
    by rw [h.2.2.2.2.1 "a | b" (by decide) (by decide) (by decide)]; decide,
    by rw [h.2.2.2.2.2 "foo" (by decide) (by decide) (by decide)]; decide⟩
  have h1 := h.1 [("Logs", "*")] ⟨[("logs", "*")]⟩ ("Logs", "*") "LOGS" (by decide)
    (by decide) (by decide)
  exact h1

/-! ## C9 -/

/-- AST of `SELECT level FROM logs GROUP BY level`. -/
def c9Stmt : SelectStmt :=
  .mk none false [⟨.ident ["level"], ""⟩]
    (some (.tableName (some ["logs"]) "")) none [.ident ["level"]] none [] none []

/-- C9: a non-empty GROUP BY whose select list has no aggregate call
never produces a stats stage: `buildStatsPipe` never returns `.ok`, and
when both loops succeed it fails with exactly the 400
`GROUP BY requires aggregate expressions` error, as does the full
translation of `SELECT level FROM logs GROUP BY level`. -/
theorem claim_C9 :
    (∀ (st : TransState) (groupBy : List Expr) (columns : List SelectItem),
      groupBy ≠ [] →
      (∀ item ∈ columns, selectItemIsAggregate item = false) →
      (∀ res : List String × Bool × TransState,
        ¬ buildStatsPipe st groupBy columns = .ok res) ∧
      (∀ gf gl pp am r,
        processGroupByExprs st 0 groupBy [] [] [] [] = .ok (gf, gl, pp, am) →
        statsColumnsLoop { st with groupExprAliases := some am } true gl
          columns.length columns = .ok r →
        buildStatsPipe st groupBy columns =
          .error (.translation 400 "translator: GROUP BY requires aggregate expressions"))) ∧
    TranslateSelectStatementToLogsQL logsProvider c9Stmt =
      .error (.translation 400 "translator: GROUP BY requires aggregate expressions") := by
  refine ⟨?_, by decide⟩
  intro st groupBy columns hne hna
  have hg : groupBy.isEmpty = false := by
    cases groupBy with
    | nil => exact absurd rfl hne
    | cons a l => rfl
  constructor
  · intro res hok
    cases hp : processGroupByExprs st 0 groupBy [] [] [] [] with
    | error e =>
      simp only [buildStatsPipe, hg, Bool.not_false, if_true, bind, Except.bind, hp] at hok
      cases hok
    | ok quad =>
      obtain ⟨gf, gl, pp, am⟩ := quad
      cases hsl : statsColumnsLoop { st with groupExprAliases := some am } true gl
          columns.length columns with
      | error e =>
        simp only [buildStatsPipe, hg, Bool.not_false, if_true, bind, Except.bind,
          hp, hsl] at hok
        cases hok
      | ok r =>
        have hr := statsColumnsLoop_noAgg columns _ _ _ _ hsl hna
        subst hr
        simp only [buildStatsPipe, hg, Bool.not_false, if_true, bind, Except.bind,
          hp, hsl, List.isEmpty_nil] at hok
        cases hok
  · intro gf gl pp am r hp hsl
    have hr := statsColumnsLoop_noAgg columns _ _ _ _ hsl hna
    subst hr
    simp only [buildStatsPipe, hg, Bool.not_false, if_true, bind, Except.bind,
      hp, hsl, List.isEmpty_nil]
    rfl

/-- A concrete translator state used to witness C9. -/
def c9St : TransState := ⟨[], "", [], none, none, [], false, "", "", [], [], []⟩

/-- Witness for C9 at a concrete state and column list. -/
theorem claim_C9_witness :
    (¬ buildStatsPipe c9St [.ident ["level"]] [⟨.ident ["level"], ""⟩] =
      .ok ([], false, c9St)) ∧
    buildStatsPipe c9St [.ident ["level"]] [⟨.ident ["level"], ""⟩] =
      .error (.translation 400 "translator: GROUP BY requires aggregate expressions") := by
  have h := claim_C9.1 c9St [.ident ["level"]] [⟨.ident ["level"], ""⟩]
    (List.cons_ne_nil _ _) (by decide)
  exact ⟨h.1 ([], false, c9St),
    h.2 ["level"] ["level"] [] [("level", "level")] (some []) (by decide) (by decide)⟩

/-! ## C6 -/

/-- AST of `SELECT x FROM logs`, used to witness C6. -/
def c6wStmt : SelectStmt :=
  .mk none false [⟨.ident ["x"], ""⟩]
    (some (.tableName (some ["logs"]) "")) none [] none [] none []

/-- The translator state produced by the C6 witness run. -/
def c6wState : TransState :=
  { bindings := ["logs"], baseAlias := "logs", pendingLeftFilter := [], aggResults := none,
    groupExprAliases := none, availableCTEs := [], baseUsesPipeline := false,
    basePipeline := "", baseFilter := "*", filterComputations := [], filterOrder := [],
    filterDelete := [] }

/-- Counterexample to C6 as stated: for `SELECT _time, _msg FROM logs
ORDER BY _time DESC LIMIT 100` the stage list places the single
`fields` stage first, and the pipeline ends with `limit 100`, which is
not a `fields` stage. -/
theorem claim_C6_counterexample :
    (translateSimpleSelectCore (stmtFuel c1Stmt) logsProvider (newVisitorState []) c1Stmt).map
        (fun r => r.2.1) =
      .ok ["fields _time, _msg", "sort by (_time desc)", "limit 100"] ∧
    (["fields _time, _msg", "sort by (_time desc)", "limit 100"].getLast? = some "limit 100") ∧
    isFieldsStage "limit 100" = false := by
  refine ⟨by decide, by decide, rfl⟩

/-- C6 (amended): every accepted non-aggregated SELECT with an explicit
column list (no `*`, no top-level aggregate calls, no GROUP BY) emits a
stage list containing exactly one `fields` stage; the stages before it
are computation, `rename`, `filter`, `join` and similar stages (never
`fields`), and the stages after it are only `uniq`, `sort`, `offset`
and `limit` stages — so the pipeline does not in general end with the
`fields` stage, but never holds a second one. -/
theorem claim_C6 :
    ∀ (fuel : Nat) (sp : Provider) (st0 : TransState) (w : Option WithClause)
      (d : Bool) (cols : List SelectItem) (f : Option TableExpr) (wh : Option Expr)
      (hv : Option Expr) (o : List OrderItem) (lim : Option LimitClause) (so : List SetOp)
      (B : String) (pipes : List String) (stF : TransState),
      (∀ item ∈ cols, selectItemIsAggregate item = false) →
      (∀ item ∈ cols, itemIsStar item = false) →
      cols ≠ [] →
      translateSimpleSelectCore fuel sp st0 (.mk w d cols f wh [] hv o lim so) =
        .ok (B, pipes, stF) →
      pipes.countP (fun p => isFieldsStage p) = 1 ∧ FieldsDecomp pipes := by
  intro fuel sp st0 w d cols f wh hv o lim so B pipes stF hna hns hcne h
  have hd := translateSimpleSelectCore_decomp fuel sp st0 w d cols f wh hv o lim so
    B pipes stF hna hns hcne h
  refine ⟨?_, hd⟩
  obtain ⟨pre, fstr, post, rfl, hpre, hpost⟩ := hd
  have h1 : pre.countP (fun p => isFieldsStage p) = 0 :=
    List.countP_eq_zero.mpr (by intro p hp; simp [hpre p hp])
  have h2 : post.countP (fun p => isFieldsStage p) = 0 :=
    List.countP_eq_zero.mpr (by intro p hp; simp [(hpost p hp).2])
  simp [List.countP_append, List.countP_cons, h1, h2,
    show isFieldsStage ("fields " ++ fstr) = true from rfl]

/-- Witness for C6: the concrete run on `SELECT x FROM logs` yields the
single-stage pipeline with exactly one fields stage. -/
theorem claim_C6_witness :
    (["fields x"] : List String).countP (fun p => isFieldsStage p) = 1 :=
  (claim_C6 (stmtFuel c6wStmt) logsProvider (newVisitorState []) none false
    [⟨.ident ["x"], ""⟩] (some (.tableName (some ["logs"]) "")) none none [] none []
    "*" ["fields x"] c6wState (by decide) (by decide) (List.cons_ne_nil _ _) (by rfl)).1

end SqlToLogsql
